import Mathlib

/-!
# QTimeSpan: a shallow embedding of `src/qtimespan.cpp`

The development follows the source file top-down.

Modelling conventions
* `qint64` and `int` values are mathematical integers (`Int`). Where the source narrows a
  64-bit value into an `int` (the assignments `*unitPtr = intervalLeft / unitFactor` in
  `QTimeSpan::parts`) the explicit wrap-around `toInt32` is applied; `qAbs` and the
  multiplication of an interval by an `int` wrap around in 64 bits (`toInt64`).
* `qreal` is `double`: a `qreal` value is the rational number it stands for (`ℚ`), and the
  result of every operation on `qreal`s is rounded to the nearest `double` (`roundDouble`,
  IEEE 754 binary64, round to nearest, ties to even). Infinities and NaN are not modelled.
  Conversion `qint64(x)` / `int(x)` of a `qreal` truncates toward zero (`truncQ`); a value
  beyond the range of the target type, for which C++ leaves the conversion undefined, is not
  narrowed.
* C++ `/` and `%` on integers truncate toward zero: `Int.tdiv` and `Int.tmod`.
* A `QString` is the list of its characters.
* `Q_ASSERT_X` failures are modelled as the result `none` of an `Option`-valued function.
* `QDate`, `QTime` and `QDateTime` are collaborators that are not part of the repository. They are
  modelled from the specification as a proleptic Gregorian calendar without time zones.
-/

namespace TimeSpan

/-! ## The calendar collaborator -/

/-- Modelled from the spec: the number of milliseconds of one day, the unit in which the
calendar collaborator counts time of day. -/
def MSECS_PER_DAY : Int := 86400000

/-- Modelled from the spec: `QDate` of the calendar collaborator. A valid date is the number of
days since 1970-01-01 in the proleptic Gregorian calendar; `none` is the invalid date. -/
abbrev QDate := Option Int

/-- Modelled from the spec: `QTime` of the calendar collaborator. A valid time is the number of
milliseconds since midnight; `none` is the invalid time. -/
abbrev QTime := Option Int

/-- Modelled from the spec: `QDateTime` of the calendar collaborator. A valid date-time is the
number of milliseconds since 1970-01-01T00:00:00.000; `none` is the invalid date-time
("no reference"). -/
abbrev QDateTime := Option Int

/-- Modelled from the spec: `QDate::isLeapYear(year)` of the calendar collaborator
(Gregorian rule, astronomical year numbering). -/
def isLeapYear (y : Int) : Bool :=
  (y % 4 == 0 && y % 100 != 0) || y % 400 == 0

/-- Modelled from the spec: the number of days of month `m` of year `y`
(calendar collaborator). -/
def daysInMonthOf (y m : Int) : Int :=
  if m = 2 then (if isLeapYear y then 29 else 28)
  else if m = 4 ∨ m = 6 ∨ m = 9 ∨ m = 11 then 30
  else 31

/-- Modelled from the spec: day number (days since 1970-01-01) of the civil date `y-m-d` in the
proleptic Gregorian calendar (calendar collaborator). -/
def daysFromCivil (y m d : Int) : Int :=
  let y1 := if m ≤ 2 then y - 1 else y
  let era := y1 / 400
  let yoe := y1 - era * 400
  let mp := if m > 2 then m - 3 else m + 9
  let doy := (153 * mp + 2) / 5 + d - 1
  let doe := yoe * 365 + yoe / 4 - yoe / 100 + doy
  era * 146097 + doe - 719468

/-- Modelled from the spec: civil date `(year, month, day)` of a day number, the inverse of
`daysFromCivil` (calendar collaborator). -/
def civilFromDays (z : Int) : Int × Int × Int :=
  let z1 := z + 719468
  let era := z1 / 146097
  let doe := z1 - era * 146097
  let yoe := (doe - doe / 1460 + doe / 36524 - doe / 146096) / 365
  let doy := doe - (365 * yoe + yoe / 4 - yoe / 100)
  let mp := (5 * doy + 2) / 153
  let d := doy - (153 * mp + 2) / 5 + 1
  let m := if mp < 10 then mp + 3 else mp - 9
  let y := yoe + era * 400
  (if m ≤ 2 then y + 1 else y, m, d)

namespace QDate

/-- Modelled from the spec: `QDate(y, m, d)`; invalid when the day does not exist. -/
def ofYMD (y m d : Int) : QDate :=
  if 1 ≤ m ∧ m ≤ 12 ∧ 1 ≤ d ∧ d ≤ daysInMonthOf y m then some (daysFromCivil y m d) else none

/-- Modelled from the spec: `QDate::year()`; 0 for the invalid date. -/
def year (date : QDate) : Int :=
  match date with
  | some z => (civilFromDays z).1
  | none => 0

/-- Modelled from the spec: `QDate::month()`; 0 for the invalid date. -/
def month (date : QDate) : Int :=
  match date with
  | some z => (civilFromDays z).2.1
  | none => 0

/-- Modelled from the spec: `QDate::day()`; 0 for the invalid date. -/
def day (date : QDate) : Int :=
  match date with
  | some z => (civilFromDays z).2.2
  | none => 0

/-- Modelled from the spec: `QDate::daysInMonth()`; 0 for the invalid date. -/
def daysInMonth (date : QDate) : Int :=
  match date with
  | some z => daysInMonthOf (civilFromDays z).1 (civilFromDays z).2.1
  | none => 0

/-- Modelled from the spec: the date `y-m-d` with the day clamped to the last valid day of the
month ("month/year add clamps overflowing day-of-month to the target month's last valid day"). -/
def fixedDate (y m d : Int) : QDate :=
  some (daysFromCivil y m (min d (daysInMonthOf y m)))

/-- Modelled from the spec: `QDate::addYears(nyears)` with the clamping rule. -/
def addYears (date : QDate) (nyears : Int) : QDate :=
  match date with
  | some z =>
    let c := civilFromDays z
    fixedDate (c.1 + nyears) c.2.1 c.2.2
  | none => none

/-- Modelled from the spec: `QDate::addMonths(nmonths)` with the clamping rule. -/
def addMonths (date : QDate) (nmonths : Int) : QDate :=
  match date with
  | some z =>
    let c := civilFromDays z
    let total := c.1 * 12 + (c.2.1 - 1) + nmonths
    fixedDate (total / 12) (total % 12 + 1) c.2.2
  | none => none

end QDate

namespace QTime

/-- Modelled from the spec: `QTime(h, m, s, ms)`; invalid when a field is out of range. -/
def ofHMS (h m s ms : Int) : QTime :=
  if 0 ≤ h ∧ h < 24 ∧ 0 ≤ m ∧ m < 60 ∧ 0 ≤ s ∧ s < 60 ∧ 0 ≤ ms ∧ ms < 1000 then
    some (((h * 60 + m) * 60 + s) * 1000 + ms)
  else none

end QTime

namespace QDateTime

/-- Modelled from the spec: `QDateTime(date, time)`. -/
def ofDateTime (date : QDate) (time : QTime) : QDateTime :=
  match date, time with
  | some d, some t => some (d * MSECS_PER_DAY + t)
  | _, _ => none

/-- Modelled from the spec: `QDateTime(date)`, the start of the day. -/
def ofDate (date : QDate) : QDateTime :=
  ofDateTime date (some 0)

/-- Modelled from the spec: `QDateTime::isValid()`. -/
def isValid (dt : QDateTime) : Bool := dt.isSome

/-- Modelled from the spec: `QDateTime::date()`. -/
def date (dt : QDateTime) : QDate :=
  match dt with
  | some t => some (t / MSECS_PER_DAY)
  | none => none

/-- Modelled from the spec: `QDateTime::time()`. -/
def time (dt : QDateTime) : QTime :=
  match dt with
  | some t => some (t % MSECS_PER_DAY)
  | none => none

/-- Modelled from the spec: `QDateTime::addMSecs(msecs)`. -/
def addMSecs (dt : QDateTime) (msecs : Int) : QDateTime :=
  match dt with
  | some t => some (t + msecs)
  | none => none

/-- Modelled from the spec: `QDateTime::addMonths(n)`, the date moved, the time of day kept. -/
def addMonths (dt : QDateTime) (nmonths : Int) : QDateTime :=
  ofDateTime (QDate.addMonths (date dt) nmonths) (time dt)

/-- Modelled from the spec: `QDateTime::addYears(n)`, the date moved, the time of day kept. -/
def addYears (dt : QDateTime) (nyears : Int) : QDateTime :=
  ofDateTime (QDate.addYears (date dt) nyears) (time dt)

/-- Modelled from the spec: `QDateTime::msecsTo(other)`, "millisecond subtraction between two
points"; 0 when either side is invalid. -/
def msecsTo (dt other : QDateTime) : Int :=
  match dt, other with
  | some a, some b => b - a
  | _, _ => 0

/-- Modelled from the spec: `operator<` of the calendar collaborator; the invalid date-time
sorts before every valid one. -/
def lt (a b : QDateTime) : Bool :=
  match a, b with
  | some x, some y => decide (x < y)
  | none, some _ => true
  | _, none => false

/-- Modelled from the spec: `operator<=` of the calendar collaborator. -/
def le (a b : QDateTime) : Bool := !(lt b a)

/-- Convenience constructor `QDateTime(QDate(y, mo, d), QTime(h, mi, s, ms))`. -/
def ofFields (y mo d h mi s ms : Int) : QDateTime :=
  ofDateTime (QDate.ofYMD y mo d) (QTime.ofHMS h mi s ms)

end QDateTime

/-! ## Numeric conversions -/

/-- The conversion of a `qreal` to an integer type truncates toward zero. -/
def truncQ (q : ℚ) : Int := Int.tdiv q.num q.den

/-- Narrowing a 64-bit value into a 32-bit `int` (two's complement wrap-around). -/
def toInt32 (x : Int) : Int := (x + 2147483648) % 4294967296 - 2147483648

/-- The largest value of a `qint64`. -/
def INT64_MAX : Int := 9223372036854775807

/-- The smallest value of a `qint64`. -/
def INT64_MIN : Int := -9223372036854775808

/-- Storing a value into a `qint64` (two's complement wrap-around). -/
def toInt64 (x : Int) : Int :=
  (x + 9223372036854775808) % 18446744073709551616 - 9223372036854775808

/-- The absolute value `qAbs` of a `qint64`, `(t >= 0) ? t : -t`: the negation of the smallest
`qint64` wraps around to itself. -/
def qAbs (x : Int) : Int := if x ≥ 0 then x else toInt64 (-x)

/-! ## The arithmetic of `qreal` (`double`, IEEE 754 binary64) -/

/-- The binary logarithm of a natural number, rounded down, by repeated halving; `fuel` bounds
the number of steps. -/
def log2Fuel : Nat → Nat → Nat
  | 0, _ => 0
  | fuel + 1, n => if n < 2 then 0 else log2Fuel fuel (n / 2) + 1

/-- The binary logarithm of a natural number, rounded down (0 for 0). -/
def natLog2 (n : Nat) : Nat := log2Fuel n n

/-- The binary exponent of a non-zero rational `q`: the integer `e` with
`2 ^ e ≤ |q| < 2 ^ (e + 1)`. -/
def ilog2 (q : ℚ) : Int :=
  let e0 : Int := (natLog2 q.num.natAbs : Int) - (natLog2 q.den : Int)
  if (2 : ℚ) ^ e0 ≤ |q| then e0 else e0 - 1

/-- Rounding to the nearest integer, a tie going to the even neighbour. -/
def roundHalfEven (x : ℚ) : Int :=
  let f : Int := ⌊x⌋
  let r : ℚ := x - f
  if r < 1 / 2 then f else if 1 / 2 < r then f + 1 else if f % 2 = 0 then f else f + 1

/-- The exponent of the spacing of the `double`s around a non-zero rational `q`: 52 below the
binary exponent of `q` (a significand of 53 bits), and not below -1074, the spacing of the
subnormal numbers. -/
def ulpExp (q : ℚ) : Int := max (ilog2 q - 52) (-1074)

/-- The `double` that stands for the exact result `q` of an operation: `q` rounded to the
nearest multiple of the spacing `2 ^ ulpExp q`, a tie going to the even multiple
(round to nearest, ties to even). The exponent has no upper limit here: the overflow to
infinity of results from `2 ^ 1024` on is not modelled. -/
def roundDouble (q : ℚ) : ℚ :=
  if q = 0 then 0
  else (roundHalfEven (q / (2 : ℚ) ^ ulpExp q) : ℚ) * (2 : ℚ) ^ ulpExp q

/-- The product of two `double`s. -/
def dmul (a b : ℚ) : ℚ := roundDouble (a * b)

/-- The quotient of two `double`s. -/
def ddiv (a b : ℚ) : ℚ := roundDouble (a / b)

/-- The sum of two `double`s. -/
def dadd (a b : ℚ) : ℚ := roundDouble (a + b)

/-- The difference of two `double`s. -/
def dsub (a b : ℚ) : ℚ := roundDouble (a - b)

/-- The conversion `qreal(i)` of an integer to a `double`. -/
def ofInt (i : Int) : ℚ := roundDouble (i : ℚ)

/-! ## Units and formats (`Qt::TimeSpanUnit`, `Qt::TimeSpanFormat`) -/

/-- The enumeration `Qt::TimeSpanUnit`. Its declaration is not part of the sources; the code
relies on the units being consecutive powers of two from `Milliseconds` to `Years`
(the loop `for (i = Qt::Milliseconds; i <= Qt::Years; i *= 2)`) and on `NoUnit` being 0. -/
inductive TimeSpanUnit where
  | NoUnit
  | Milliseconds
  | Seconds
  | Minutes
  | Hours
  | Days
  | Weeks
  | Months
  | Years
  deriving DecidableEq, Repr

namespace TimeSpanUnit

/-- Modelled from the spec: the numeric value of a unit flag (the enumeration is declared in a
header that is not part of the sources). -/
def value : TimeSpanUnit → Nat
  | NoUnit => 0
  | Milliseconds => 1
  | Seconds => 2
  | Minutes => 4
  | Hours => 8
  | Days => 16
  | Weeks => 32
  | Months => 64
  | Years => 128

/-- The units of fixed length, `Milliseconds` up to `Weeks`: those for which the test
`unit >= Qt::Months` of the source is false. -/
def isFixed : TimeSpanUnit → Bool
  | Milliseconds | Seconds | Minutes | Hours | Days | Weeks => true
  | _ => false

end TimeSpanUnit

open TimeSpanUnit

/-- The flag set `Qt::TimeSpanFormat` (`QFlags<Qt::TimeSpanUnit>`), a bit mask. -/
abbrev TimeSpanFormat := Nat

/-- Modelled from the spec: `Qt::AllUnits`, the union of the eight unit flags. -/
def AllUnits : TimeSpanFormat := 255

/-- The test `QFlags::testFlag(unit)`. -/
def testFlag (format : TimeSpanFormat) (unit : TimeSpanUnit) : Bool :=
  (format &&& unit.value) == unit.value && (unit.value != 0 || format == unit.value)

/-! ## The span value -/

/-- The class `QTimeSpan` with the data of `QTimeSpanPrivate`: the interval in milliseconds and
the reference date. -/
structure QTimeSpan where
  interval : Int
  reference : QDateTime
  deriving DecidableEq, Repr

namespace QTimeSpan

/-- The default constructor `QTimeSpan()`: a null span. -/
def null : QTimeSpan := { interval := 0, reference := none }

/-- The constructor `QTimeSpan(qint64 msecs)`: no reference date. -/
def ofMSecs (msecs : Int) : QTimeSpan := { interval := msecs, reference := none }

/-- The constructor `QTimeSpan(const QDateTime &reference, qint64 msecs)`; callers that omit
`msecs` in the source (the header default) pass 0 here. -/
def ofReference (reference : QDateTime) (msecs : Int) : QTimeSpan :=
  { interval := msecs, reference := reference }

/-- The query `QTimeSpan::isEmpty`. -/
def isEmpty (self : QTimeSpan) : Bool := self.interval == 0

/-- The query `QTimeSpan::hasValidReference`. -/
def hasValidReference (self : QTimeSpan) : Bool := QDateTime.isValid self.reference

/-- The query `QTimeSpan::isNull`. -/
def isNull (self : QTimeSpan) : Bool := self.isEmpty && !self.hasValidReference

/-- The query `QTimeSpan::isNegative`. -/
def isNegative (self : QTimeSpan) : Bool := decide (self.interval < 0)

/-- The accessor `QTimeSpan::referenceDate`. -/
def referenceDate (self : QTimeSpan) : QDateTime := self.reference

/-- The accessor `QTimeSpan::referencedDate`: the other end of the span, invalid without a
valid reference. -/
def referencedDate (self : QTimeSpan) : QDateTime :=
  if !QDateTime.isValid self.reference then none
  else QDateTime.addMSecs self.reference self.interval

/-- The accessor `QTimeSpan::startDate`. -/
def startDate (self : QTimeSpan) : QDateTime :=
  if self.isNegative then self.referencedDate else self.referenceDate

/-- The accessor `QTimeSpan::endDate`. -/
def endDate (self : QTimeSpan) : QDateTime :=
  if self.isNegative then self.referenceDate else self.referencedDate

/-- The accessor `QTimeSpan::toMSecs`. -/
def toMSecs (self : QTimeSpan) : Int := self.interval

/-- The operator `QTimeSpan operator-(const QDateTime &left, const QDateTime &right)`. -/
def dateTimeDiff (left right : QDateTime) : QTimeSpan :=
  if QDateTime.isValid left && QDateTime.isValid right then
    ofReference right (QDateTime.msecsTo right left)
  else ofReference right 0

/-- The mutator `QTimeSpan::normalize`. -/
def normalize (self : QTimeSpan) : QTimeSpan :=
  if self.interval < 0 then
    { interval := qAbs self.interval,
      reference := if self.hasValidReference then self.referencedDate else self.reference }
  else self

/-- The fixed-unit cases of `QTimeSpan::toTimeUnit` (`Weeks` down to `Milliseconds`, with the
intentional fall-through of the `switch`); `none` for the units of the `default` branch. -/
def toTimeUnitFixed (self : QTimeSpan) (unit : TimeSpanUnit) : Option ℚ :=
  let interval : ℚ := ofInt self.interval
  match unit with
  | Weeks => some (ddiv (ddiv (ddiv (ddiv (ddiv interval 7) 24) 60) 60) 1000)
  | Days => some (ddiv (ddiv (ddiv (ddiv interval 24) 60) 60) 1000)
  | Hours => some (ddiv (ddiv (ddiv interval 60) 60) 1000)
  | Minutes => some (ddiv (ddiv interval 60) 1000)
  | Seconds => some (ddiv interval 1000)
  | Milliseconds => some interval
  | _ => none

end QTimeSpan

/-- The method `QTimeSpanPrivate::daysInMonth(date, lookBack)`. -/
def daysInMonth (date : QDateTime) (lookBack : Bool) : Int :=
  let measureDate := if lookBack then QDateTime.addMSecs date (-1) else date
  QDate.daysInMonth (QDateTime.date measureDate)

/-! ## `QTimeSpan::parts` -/

/-- The pointer arguments of `QTimeSpan::parts`, in the order of the source; `true` stands for
a non-null pointer, `false` for the null pointer. -/
structure PartsRequest where
  msecondsPtr : Bool
  secondsPtr : Bool
  minutesPtr : Bool
  hoursPtr : Bool
  daysPtr : Bool
  weeksPtr : Bool
  monthsPtr : Bool
  yearsPtr : Bool
  fractionalSmallestUnit : Bool
  deriving DecidableEq, Repr

/-- The values `QTimeSpan::parts` has written through its pointer arguments when it returns
`true`; `none` for a pointer that was not written. -/
structure PartsResult where
  mseconds : Option Int
  seconds : Option Int
  minutes : Option Int
  hours : Option Int
  days : Option Int
  weeks : Option Int
  months : Option Int
  years : Option Int
  fractionalSmallestUnit : Option ℚ
  deriving DecidableEq

/-- Nothing written yet. -/
def PartsResult.empty : PartsResult :=
  ⟨none, none, none, none, none, none, none, none, none⟩

/-- The unit values of a result as a list, from milliseconds up to years. -/
def PartsResult.values (r : PartsResult) : List (Option Int) :=
  [r.mseconds, r.seconds, r.minutes, r.hours, r.days, r.weeks, r.months, r.years]

/-- The macro `CHECK_INT_LIMIT(interval, unitFactor)`: `true` when the macro makes `parts`
return `false`. -/
def CHECK_INT_LIMIT (interval unitFactor : Int) : Bool :=
  decide (interval ≥ unitFactor * 2147483647)

/-- The unit for which the fractional value is computed: the first block of `parts`, the later
assignments overriding the earlier ones. -/
def smallestRequested (req : PartsRequest) : TimeSpanUnit :=
  if req.fractionalSmallestUnit then
    let s := NoUnit
    let s := if req.yearsPtr then Years else s
    let s := if req.monthsPtr then Months else s
    let s := if req.weeksPtr then Weeks else s
    let s := if req.daysPtr then Days else s
    let s := if req.hoursPtr then Hours else s
    let s := if req.minutesPtr then Minutes else s
    let s := if req.secondsPtr then Seconds else s
    let s := if req.msecondsPtr then Milliseconds else s
    s
  else NoUnit

/-- The three statements `QTimeSpan leftOverTime(referencedDate(), -intervalLeft);
leftOverTime.normalize(); *fractionalSmallestUnit = leftOverTime.toTimeUnit(smallestUnit);`
of the fixed-unit blocks of `parts`. -/
def leftOverFraction (self : QTimeSpan) (intervalLeft : Int) (smallestUnit : TimeSpanUnit) :
    Option ℚ :=
  QTimeSpan.toTimeUnitFixed
    (QTimeSpan.normalize (QTimeSpan.ofReference self.referencedDate (-intervalLeft))) smallestUnit

/-- The block `if (msecondsPtr) ...` of `parts` and the final `return true`. -/
def partsMSecs (req : PartsRequest) (intervalLeft : Int) (r : PartsResult) : Option PartsResult :=
  if req.msecondsPtr then
    let unitFactor : Int := 1
    if CHECK_INT_LIMIT intervalLeft unitFactor then none
    else
      let r := { r with mseconds := some (toInt32 intervalLeft) }
      if req.fractionalSmallestUnit then
        some { r with fractionalSmallestUnit := some (ofInt intervalLeft) }
      else some r
  else some r

/-- The block `if (secondsPtr) ...` of `parts` and what follows it. The remainder is taken
only when `*secondsPtr > 0`. -/
def partsSeconds (self : QTimeSpan) (req : PartsRequest) (smallestUnit : TimeSpanUnit)
    (intervalLeft : Int) (r : PartsResult) : Option PartsResult :=
  if req.secondsPtr then
    let unitFactor : Int := 1000
    if CHECK_INT_LIMIT intervalLeft unitFactor then none
    else
      let seconds := toInt32 (Int.tdiv intervalLeft unitFactor)
      let r := { r with seconds := some seconds }
      if smallestUnit = Seconds then
        some { r with fractionalSmallestUnit := leftOverFraction self intervalLeft smallestUnit }
      else
        partsMSecs req (if seconds > 0 then Int.tmod intervalLeft unitFactor else intervalLeft) r
  else partsMSecs req intervalLeft r

/-- The block `if (minutesPtr) ...` of `parts` and what follows it. -/
def partsMinutes (self : QTimeSpan) (req : PartsRequest) (smallestUnit : TimeSpanUnit)
    (intervalLeft : Int) (r : PartsResult) : Option PartsResult :=
  if req.minutesPtr then
    let unitFactor : Int := 60 * 1000
    if CHECK_INT_LIMIT intervalLeft unitFactor then none
    else
      let minutes := toInt32 (Int.tdiv intervalLeft unitFactor)
      let r := { r with minutes := some minutes }
      if smallestUnit = Minutes then
        some { r with fractionalSmallestUnit := leftOverFraction self intervalLeft smallestUnit }
      else
        partsSeconds self req smallestUnit
          (if minutes ≠ 0 then Int.tmod intervalLeft unitFactor else intervalLeft) r
  else partsSeconds self req smallestUnit intervalLeft r

/-- The block `if (hoursPtr) ...` of `parts` and what follows it. -/
def partsHours (self : QTimeSpan) (req : PartsRequest) (smallestUnit : TimeSpanUnit)
    (intervalLeft : Int) (r : PartsResult) : Option PartsResult :=
  if req.hoursPtr then
    let unitFactor : Int := 60 * 60 * 1000
    if CHECK_INT_LIMIT intervalLeft unitFactor then none
    else
      let hours := toInt32 (Int.tdiv intervalLeft unitFactor)
      let r := { r with hours := some hours }
      if smallestUnit = Hours then
        some { r with fractionalSmallestUnit := leftOverFraction self intervalLeft smallestUnit }
      else
        partsMinutes self req smallestUnit
          (if hours ≠ 0 then Int.tmod intervalLeft unitFactor else intervalLeft) r
  else partsMinutes self req smallestUnit intervalLeft r

/-- The block `if (daysPtr) ...` of `parts` and what follows it. -/
def partsDays (self : QTimeSpan) (req : PartsRequest) (smallestUnit : TimeSpanUnit)
    (intervalLeft : Int) (r : PartsResult) : Option PartsResult :=
  if req.daysPtr then
    let unitFactor : Int := 24 * 60 * 60 * 1000
    if CHECK_INT_LIMIT intervalLeft unitFactor then none
    else
      let days := toInt32 (Int.tdiv intervalLeft unitFactor)
      let r := { r with days := some days }
      if smallestUnit = Days then
        some { r with fractionalSmallestUnit := leftOverFraction self intervalLeft smallestUnit }
      else
        partsHours self req smallestUnit
          (if days ≠ 0 then Int.tmod intervalLeft unitFactor else intervalLeft) r
  else partsHours self req smallestUnit intervalLeft r

/-- The block `if (weeksPtr) ...` of `parts` and what follows it. -/
def partsWeeks (self : QTimeSpan) (req : PartsRequest) (smallestUnit : TimeSpanUnit)
    (intervalLeft : Int) (r : PartsResult) : Option PartsResult :=
  if req.weeksPtr then
    let unitFactor : Int := 7 * 24 * 60 * 60 * 1000
    if CHECK_INT_LIMIT intervalLeft unitFactor then none
    else
      let weeks := toInt32 (Int.tdiv intervalLeft unitFactor)
      let r := { r with weeks := some weeks }
      if smallestUnit = Weeks then
        some { r with fractionalSmallestUnit := leftOverFraction self intervalLeft smallestUnit }
      else
        partsDays self req smallestUnit
          (if weeks ≠ 0 then Int.tmod intervalLeft unitFactor else intervalLeft) r
  else partsDays self req smallestUnit intervalLeft r

/-- The computation of `years` in `parts`: the difference of the year numbers, decremented when
the month and day of the end date precede those of the start date. -/
def partsYears (startDate endDate : QDate) : Int :=
  let years := QDate.year endDate - QDate.year startDate
  if QDate.month endDate < QDate.month startDate then years - 1
  else if QDate.month endDate = QDate.month startDate then
    (if QDate.day endDate < QDate.day startDate then years - 1 else years)
  else years

/-- The computation of `months` in `parts` before `years * 12` is folded in. -/
def partsMonths (startDate endDate : QDate) : Int :=
  let months := QDate.month endDate - QDate.month startDate
  let months := if months < 0 then months + 12 else months
  if QDate.day endDate < QDate.day startDate then months - 1 else months

/-- The method `QTimeSpan::parts`. The result `none` is the return value `false`; `some r` is
the return value `true` with the values written through the pointers. -/
def QTimeSpan.parts (self : QTimeSpan) (req : PartsRequest) : Option PartsResult :=
  let smallestUnit := smallestRequested req
  let ts := self
  if req.yearsPtr || req.monthsPtr then
    if !self.hasValidReference then none
    else
      let startDate := QDateTime.date ts.startDate
      let endDate := QDateTime.date ts.endDate
      let years := partsYears startDate endDate
      let r := if req.yearsPtr then { PartsResult.empty with years := some years }
               else PartsResult.empty
      let newStartDate := QDate.addYears startDate years
      let ts1 := QTimeSpan.dateTimeDiff
        (QDateTime.ofDateTime endDate (QDateTime.time ts.endDate))
        (QDateTime.ofDateTime newStartDate (QDateTime.time ts.startDate))
      if smallestUnit = Years then
        let unitFactor : Int :=
          if isLeapYear (QDate.year newStartDate) then 366 * 24 * 60 * 60 * 1000
          else 365 * 24 * 60 * 60 * 1000
        let fraction : ℚ := dadd (ofInt years) (ddiv (ofInt ts1.toMSecs) (ofInt unitFactor))
        some { r with fractionalSmallestUnit := some fraction }
      else if req.monthsPtr then
        let months := partsMonths startDate endDate
        let newStartDate := QDate.addMonths newStartDate months
        let ts2 := QTimeSpan.dateTimeDiff
          (QDateTime.ofDateTime endDate (QDateTime.time ts1.endDate))
          (QDateTime.ofDateTime newStartDate (QDateTime.time ts1.startDate))
        let months := if !req.yearsPtr then months + years * 12 else months
        let r := { r with months := some months }
        if smallestUnit = Months then
          let unitFactor : Int :=
            24 * 60 * 60 * 1000 * daysInMonth (QDateTime.ofDate newStartDate) self.isNegative
          let fraction : ℚ := dadd (ofInt months) (ddiv (ofInt ts2.toMSecs) (ofInt unitFactor))
          some { r with fractionalSmallestUnit := some fraction }
        else partsWeeks self req smallestUnit ts2.toMSecs r
      else partsWeeks self req smallestUnit ts1.toMSecs r
  else partsWeeks self req smallestUnit ts.toMSecs PartsResult.empty

/-! ## `QTimeSpanPrivate::TimePartHash` and `QTimeSpan::part` -/

/-- The class `QTimeSpanPrivate::TimePartHash`, a map from each of the eight units to a pointer
to an `int`: `some v` is a pointer to an `int` holding `v`, `none` is the null pointer. -/
structure TimePartHash where
  mseconds : Option Int
  seconds : Option Int
  minutes : Option Int
  hours : Option Int
  days : Option Int
  weeks : Option Int
  months : Option Int
  years : Option Int
  deriving DecidableEq, Repr

namespace TimePartHash

/-- The constructor `TimePartHash(format)`: a fresh `int` set to 0 for every unit whose flag is
set in `format`, the null pointer for every other unit. -/
def ofFormat (format : TimeSpanFormat) : TimePartHash :=
  let entry := fun (u : TimeSpanUnit) => if testFlag format u then some (0 : Int) else none
  { mseconds := entry Milliseconds, seconds := entry Seconds, minutes := entry Minutes,
    hours := entry Hours, days := entry Days, weeks := entry Weeks, months := entry Months,
    years := entry Years }

/-- The lookup `value(unit)` of the hash; the null pointer for a key that is not in the hash. -/
def value (h : TimePartHash) (unit : TimeSpanUnit) : Option Int :=
  match unit with
  | Milliseconds => h.mseconds
  | Seconds => h.seconds
  | Minutes => h.minutes
  | Hours => h.hours
  | Days => h.days
  | Weeks => h.weeks
  | Months => h.months
  | Years => h.years
  | NoUnit => none

/-- The pointers the hash passes to `parts` in `fill`; no pointer for the fractional value. -/
def request (h : TimePartHash) : PartsRequest :=
  { msecondsPtr := h.mseconds.isSome, secondsPtr := h.seconds.isSome,
    minutesPtr := h.minutes.isSome, hoursPtr := h.hours.isSome, daysPtr := h.days.isSome,
    weeksPtr := h.weeks.isSome, monthsPtr := h.months.isSome, yearsPtr := h.years.isSome,
    fractionalSmallestUnit := false }

/-- The method `TimePartHash::fill(span)`: `none` when `parts` returns `false`, otherwise the
hash with the values `parts` has written. -/
def fill (h : TimePartHash) (span : QTimeSpan) : Option TimePartHash :=
  match span.parts h.request with
  | none => none
  | some r =>
    some { mseconds := r.mseconds.orElse (fun _ => h.mseconds),
           seconds := r.seconds.orElse (fun _ => h.seconds),
           minutes := r.minutes.orElse (fun _ => h.minutes),
           hours := r.hours.orElse (fun _ => h.hours),
           days := r.days.orElse (fun _ => h.days),
           weeks := r.weeks.orElse (fun _ => h.weeks),
           months := r.months.orElse (fun _ => h.months),
           years := r.years.orElse (fun _ => h.years) }

end TimePartHash

/-- The statement `format &= (Qt::AllUnits ^ (Qt::Months | Qt::Years))` of `part`. -/
def unsetMonthsYears (format : TimeSpanFormat) : TimeSpanFormat :=
  format &&& (AllUnits ^^^ (Months.value ||| Years.value))

/-- The method `QTimeSpan::part(unit, format)`. The result `none` stands for a failed
`Q_ASSERT_X` or the dereference of a null pointer. -/
def QTimeSpan.part (self : QTimeSpan) (unit : TimeSpanUnit) (format : TimeSpanFormat) :
    Option Int :=
  if !testFlag format unit then some 0
  else if !self.hasValidReference && (unit == Months || unit == Years) then none
  else
    let format :=
      if !self.hasValidReference && (testFlag format Months || testFlag format Years) then
        unsetMonthsYears format
      else format
    match (TimePartHash.ofFormat format).fill self with
    | none => some 0
    | some partsHash => partsHash.value unit

/-! ## Setting the interval from calendar units -/

/-- The method `QTimeSpan::setFromMonths(months)`; `none` when the assertion
`hasValidReference()` fails. -/
def QTimeSpan.setFromMonths (self : QTimeSpan) (months : ℚ) : Option QTimeSpan :=
  if !self.hasValidReference then none
  else
    let fullMonths : Int := truncQ months
    let fractionalMonth : ℚ := dsub months (ofInt fullMonths)
    let endDate := QDateTime.addMonths self.reference fullMonths
    let days : Int := daysInMonth endDate (decide (fractionalMonth < 0))
    let tmp := QTimeSpan.dateTimeDiff endDate self.reference
    let fractionalDays : ℚ := dmul fractionalMonth (ofInt days)
    some { self with interval :=
      tmp.toMSecs + truncQ (dmul (dmul (dmul (dmul fractionalDays 24) 60) 60) 1000) }

/-- The method `QTimeSpan::setFromYears(years)`; `none` when the assertion
`hasValidReference()` fails. -/
def QTimeSpan.setFromYears (self : QTimeSpan) (years : ℚ) : Option QTimeSpan :=
  if !self.hasValidReference then none
  else
    let fullYears : Int := truncQ years
    let fractionalYear : ℚ := dsub years (ofInt fullYears)
    let endDate := QDateTime.addYears self.reference fullYears
    let measureDate := if fractionalYear < 0 then QDateTime.addMSecs endDate (-1) else endDate
    let days : ℚ :=
      if isLeapYear (QDate.year (QDateTime.date measureDate)) then dadd 365 1 else 365
    let tmp := QTimeSpan.dateTimeDiff endDate self.reference
    let fractionalDays : ℚ := dmul fractionalYear days
    some { self with interval :=
      tmp.toMSecs + truncQ (dmul (dmul (dmul (dmul fractionalDays 24) 60) 60) 1000) }

/-- The method `QTimeSpan::setFromTimeUnit(unit, interval)`, with the intentional fall-through
of the `switch` written out; `none` when an assertion fails. -/
def QTimeSpan.setFromTimeUnit (self : QTimeSpan) (unit : TimeSpanUnit) (interval : ℚ) :
    Option QTimeSpan :=
  match unit with
  | Weeks =>
    some { self with interval := truncQ (dmul (dmul (dmul (dmul (dmul interval 7) 24) 60) 60)
      1000) }
  | Days => some { self with interval := truncQ (dmul (dmul (dmul (dmul interval 24) 60) 60) 1000) }
  | Hours => some { self with interval := truncQ (dmul (dmul (dmul interval 60) 60) 1000) }
  | Minutes => some { self with interval := truncQ (dmul (dmul interval 60) 1000) }
  | Seconds => some { self with interval := truncQ (dmul interval 1000) }
  | Milliseconds => some { self with interval := truncQ interval }
  | Months => self.setFromMonths interval
  | Years => self.setFromYears interval
  | NoUnit => none

/-- The method `QTimeSpanPrivate::addUnit(self, unit, value)`. The compound assignment
`interval += value * ...` of a `qint64` with a `qreal` converts the interval to `qreal`, adds in
`qreal` and converts the sum back; the factors are multiplied in one by one, from the left. -/
def addUnit (self : QTimeSpan) (unit : TimeSpanUnit) (value : ℚ) : Option QTimeSpan :=
  if unit.value ≥ Months.value then
    match (QTimeSpan.ofReference self.referencedDate 0).setFromTimeUnit unit value with
    | none => none
    | some tempSpan => some { self with interval := self.interval + tempSpan.toMSecs }
  else
    match unit with
    | Weeks =>
      some { self with interval := truncQ (dadd (ofInt self.interval)
        (dmul (dmul (dmul (dmul (dmul value 1000) 60) 60) 24) 7)) }
    | Days =>
      some { self with interval := truncQ (dadd (ofInt self.interval)
        (dmul (dmul (dmul (dmul value 1000) 60) 60) 24)) }
    | Hours =>
      some { self with interval := truncQ (dadd (ofInt self.interval)
        (dmul (dmul (dmul value 1000) 60) 60)) }
    | Minutes =>
      some { self with interval := truncQ (dadd (ofInt self.interval)
        (dmul (dmul value 1000) 60)) }
    | Seconds =>
      some { self with interval := truncQ (dadd (ofInt self.interval) (dmul value 1000)) }
    | Milliseconds =>
      some { self with interval := truncQ (dadd (ofInt self.interval) value) }
    | _ => some self

/-! ## Strings: the format mini-language -/

/-- A `QString`, modelled as the list of its characters. -/
abbrev QString := List Char

/-- The structure `QTimeSpanPrivate::TimeFormatToken`; the token type `NoUnit` is used for
string literals. -/
structure TimeFormatToken where
  type : TimeSpanUnit
  length : Nat
  string : QString
  deriving DecidableEq, Repr

/-- The table `tokenHash` of `parseFormatString`: the unit of a pattern letter. -/
def tokenHash (c : Char) : Option TimeSpanUnit :=
  if c = 'y' then some Years
  else if c = 'M' then some Months
  else if c = 'w' then some Weeks
  else if c = 'd' then some Days
  else if c = 'h' then some Hours
  else if c = 'm' then some Minutes
  else if c = 's' then some Seconds
  else if c = 'z' then some Milliseconds
  else none

/-- The statements that append a character to the last token of the list:
`token = tokenList.last(); token.string.append(c); token.length = token.string.length();
tokenList[tokenList.length() - 1] = token`. On an empty list (never the case in literal mode)
the list is left as it is. -/
def appendToLast (tokenList : List TimeFormatToken) (c : Char) : List TimeFormatToken :=
  match tokenList.getLast? with
  | some token =>
    tokenList.dropLast ++
      [{ token with string := token.string ++ [c], length := (token.string ++ [c]).length }]
  | none => tokenList

/-- The loop of `parseFormatString` on the characters from `pos` on, with the loop state
`tokenList`, `format` and `inLiteral`. -/
def parseLoop : List Char → List TimeFormatToken → TimeSpanFormat → Bool →
    List TimeFormatToken × TimeSpanFormat
  | [], tokenList, format, _ => (tokenList, format)
  | currentChar :: rest, tokenList, format, true =>
    if currentChar = '\'' then
      match rest with
      | next :: rest2 =>
        if next = '\'' then parseLoop rest2 (appendToLast tokenList '\'') format true
        else parseLoop (next :: rest2) tokenList format false
      | [] => (tokenList, format)
    else parseLoop rest (appendToLast tokenList currentChar) format true
  | currentChar :: rest, tokenList, format, false =>
    if currentChar = '\'' then
      parseLoop rest (tokenList ++ [{ type := NoUnit, length := 0, string := [] }]) format true
    else
      match tokenHash currentChar with
      | some unit =>
        let token : TimeFormatToken :=
          match tokenList.getLast? with
          | some last => if last.type = unit then last else { type := unit, length := 0, string := [] }
          | none => { type := unit, length := 0, string := [] }
        let tokenList :=
          match tokenList.getLast? with
          | some last => if last.type = unit then tokenList.dropLast else tokenList
          | none => tokenList
        parseLoop rest (tokenList ++ [{ token with length := token.length + 1 }])
          (format ||| unit.value) false
      | none =>
        let token : TimeFormatToken :=
          match tokenList.getLast? with
          | some last =>
            if last.type = NoUnit then last else { type := NoUnit, length := 0, string := [] }
          | none => { type := NoUnit, length := 0, string := [] }
        let tokenList :=
          match tokenList.getLast? with
          | some last => if last.type = NoUnit then tokenList.dropLast else tokenList
          | none => tokenList
        parseLoop rest
          (tokenList ++
            [{ token with string := token.string ++ [currentChar],
                          length := (token.string ++ [currentChar]).length }])
          format false

/-- The method `QTimeSpanPrivate::parseFormatString(formatString, format)`: the token list and
the unit flags found in the pattern. -/
def parseFormatString (formatString : QString) : List TimeFormatToken × TimeSpanFormat :=
  parseLoop formatString [] 0 false

/-! ## Strings: numbers -/

/-- Modelled from the spec: the decimal digits of a natural number, least significant digit
first (`fuel` bounds the number of digits). -/
def digitsRev : Nat → Nat → List Char
  | 0, _ => []
  | fuel + 1, n => Char.ofNat (48 + n % 10) :: (if n / 10 = 0 then [] else digitsRev fuel (n / 10))

/-- Modelled from the spec: the base-10 digits of a natural number. -/
def decimal (n : Nat) : QString := (digitsRev (n + 1) n).reverse

/-- Modelled from the spec: `QString("%1").arg(value, fieldWidth, 10, QChar('0'))` of the string
collaborator, the value "zero-padded to its width (base 10)": a minus sign first for a negative
value, then zeros, then the digits; a value wider than the field is not truncated. -/
def argInt (value : Int) (fieldWidth : Nat) : QString :=
  let digits := decimal value.natAbs
  if value < 0 then '-' :: (List.replicate (fieldWidth - 1 - digits.length) '0' ++ digits)
  else List.replicate (fieldWidth - digits.length) '0' ++ digits

/-- Modelled from the spec: `QChar::isSpace()` for the white space of Latin-1. -/
def isSpace (c : Char) : Bool :=
  c.toNat == 32 || (9 ≤ c.toNat && c.toNat ≤ 13) || c.toNat == 133 || c.toNat == 160

/-- Modelled from the spec: `QString::trimmed()`, white space removed from both ends. -/
def trimmed (s : QString) : QString :=
  ((s.dropWhile isSpace).reverse.dropWhile isSpace).reverse

/-- The value of a decimal digit character. -/
def digitValue (c : Char) : Option Nat :=
  if 48 ≤ c.toNat ∧ c.toNat ≤ 57 then some (c.toNat - 48) else none

/-- The number read from a run of decimal digits, continuing from `acc`; `none` when a
character is not a digit. -/
def parseDigits : List Char → Nat → Option Nat
  | [], acc => some acc
  | c :: cs, acc =>
    match digitValue c with
    | some d => parseDigits cs (acc * 10 + d)
    | none => none

/-- Modelled from the spec: `QString::toInt(&ok, 10)` of the string collaborator, "parse as a
signed integer": an optional sign followed by at least one decimal digit, the value within the
range of a 32-bit `int`; `none` stands for `ok == false`. -/
def toInt (s : QString) : Option Int :=
  let negative : Bool := s.head? == some '-'
  let digits : List Char := if s.head? == some '-' || s.head? == some '+' then s.tail else s
  if digits = [] then none
  else
    match parseDigits digits 0 with
    | none => none
    | some n =>
      let v : Int := if negative then -(n : Int) else (n : Int)
      if -2147483648 ≤ v ∧ v ≤ 2147483647 then some v else none

/-! ## `QTimeSpan::toString` and `QTimeSpan::fromString` -/

/-- The `foreach` loop of `QTimeSpan::toString`: literal tokens are copied, unit tokens are
rendered with the value of the unit, zero-padded to the token length. The result `none` stands
for the dereference of a null pointer. -/
def renderTokens (partsHash : TimePartHash) : List TimeFormatToken → QString → Option QString
  | [], formattedString => some formattedString
  | token :: rest, formattedString =>
    if token.type = NoUnit then renderTokens partsHash rest (formattedString ++ token.string)
    else
      match partsHash.value token.type with
      | some v => renderTokens partsHash rest (formattedString ++ argInt v token.length)
      | none => none

/-- The method `QTimeSpan::toString(format)`. The result `none` stands for the null `QString`
that is returned when `parts` fails. -/
def QTimeSpan.toString (self : QTimeSpan) (format : QString) : Option QString :=
  let parsed := parseFormatString format
  match (TimePartHash.ofFormat parsed.2).fill self with
  | none => none
  | some partsHash => renderTokens partsHash parsed.1 []

/-- The assignment `*(partsHash.value(unit)) = value`. -/
def TimePartHash.set (h : TimePartHash) (unit : TimeSpanUnit) (v : Int) : TimePartHash :=
  match unit with
  | Milliseconds => { h with mseconds := some v }
  | Seconds => { h with seconds := some v }
  | Minutes => { h with minutes := some v }
  | Hours => { h with hours := some v }
  | Days => { h with days := some v }
  | Weeks => { h with weeks := some v }
  | Months => { h with months := some v }
  | Years => { h with years := some v }
  | NoUnit => h

/-- The first `foreach` loop of `QTimeSpan::fromString`: each token consumes `length` characters
of the input, a unit token parses them as an integer. The result `none` stands for the early
`return QTimeSpan()` after a failed conversion. -/
def extractValues : List TimeFormatToken → QString → TimePartHash → Option TimePartHash
  | [], _, partsHash => some partsHash
  | token :: rest, input, partsHash =>
    if token.type = NoUnit then extractValues rest (input.drop token.length) partsHash
    else
      match toInt (trimmed (input.take token.length)) with
      | none => none
      | some value =>
        extractValues rest (input.drop token.length) (partsHash.set token.type value)

/-- The last loop of `QTimeSpan::fromString`, over the entries of the hash: `order` is the
order in which the hash iterator visits the keys, which the source leaves open. -/
def addUnits (partsHash : TimePartHash) : List TimeSpanUnit → QTimeSpan → Option QTimeSpan
  | [], span => some span
  | unit :: rest, span =>
    match partsHash.value unit with
    | some v =>
      match addUnit span unit (ofInt v) with
      | some span2 => addUnits partsHash rest span2
      | none => none
    | none => addUnits partsHash rest span

/-- The keys of a `TimePartHash`: the eight units. -/
def hashKeys : List TimeSpanUnit :=
  [Milliseconds, Seconds, Minutes, Hours, Days, Weeks, Months, Years]

/-- The method `QTimeSpan::fromString(string, format, reference)`, for a hash iterator that
visits the keys in the order `order`. The result `none` stands for a failed assertion; a string
that cannot be parsed gives `some QTimeSpan.null`. -/
def QTimeSpan.fromString (order : List TimeSpanUnit) (string format : QString)
    (reference : QDateTime) : Option QTimeSpan :=
  let span := QTimeSpan.ofReference reference 0
  let parsed := parseFormatString format
  match extractValues parsed.1 string (TimePartHash.ofFormat parsed.2) with
  | none => some QTimeSpan.null
  | some partsHash =>
    let afterYears : Option QTimeSpan :=
      match partsHash.years with
      | some v => addUnit span Years (ofInt v)
      | none => some span
    match afterYears with
    | none => none
    | some span1 =>
      let partsHash1 := { partsHash with years := none }
      let afterMonths : Option QTimeSpan :=
        match partsHash1.months with
        | some v => addUnit span1 Months (ofInt v)
        | none => some span1
      match afterMonths with
      | none => none
      | some span2 => addUnits { partsHash1 with months := none } order span2

/-! ## Auxiliary notions for the statements about `parts` -/

/-- What `parts` writes for one unit of a non-negative span: a value between 0 and `INT_MAX - 1`
when the unit is requested, nothing otherwise. -/
def Written (requested : Bool) (o : Option Int) : Prop :=
  if requested then ∃ v, o = some v ∧ 0 ≤ v ∧ v < 2147483647 else o = none

/-- The length in milliseconds of the fixed units; 0 for the other units. -/
def unitFactor : TimeSpanUnit → Int
  | Milliseconds => 1
  | Seconds => 1000
  | Minutes => 60 * 1000
  | Hours => 60 * 60 * 1000
  | Days => 24 * 60 * 60 * 1000
  | Weeks => 7 * 24 * 60 * 60 * 1000
  | _ => 0

/-- The milliseconds represented by the fixed-unit values of a result: the sum of
value × unit length over the units that were written. -/
def PartsResult.totalMSecs (r : PartsResult) : Int :=
  r.weeks.getD 0 * unitFactor Weeks + r.days.getD 0 * unitFactor Days
    + r.hours.getD 0 * unitFactor Hours + r.minutes.getD 0 * unitFactor Minutes
    + r.seconds.getD 0 * unitFactor Seconds + r.mseconds.getD 0 * unitFactor Milliseconds

/-- The milliseconds represented by the entries of a hash: the sum of value × unit length over
its keys, a null pointer counting for nothing. -/
def TimePartHash.totalMSecs (h : TimePartHash) : Int :=
  (hashKeys.map (fun u => (h.value u).getD 0 * unitFactor u)).sum

/-- The position of the bit of a unit flag. -/
def TimeSpanUnit.bitIndex : TimeSpanUnit → Nat
  | NoUnit => 0
  | Milliseconds => 0
  | Seconds => 1
  | Minutes => 2
  | Hours => 3
  | Days => 4
  | Weeks => 5
  | Months => 6
  | Years => 7

/-- The relation between the token list and the unit flags that the tokenizer maintains: a
literal token has the length of its text, the unit of every unit token is flagged, and every
flagged unit has a token. -/
def TokensMatchFormat (tokenList : List TimeFormatToken) (format : TimeSpanFormat) : Prop :=
  (∀ t ∈ tokenList, t.type = NoUnit → t.length = t.string.length) ∧
  (∀ t ∈ tokenList, t.type ≠ NoUnit → testFlag format t.type = true) ∧
  (∀ u, u ≠ NoUnit → testFlag format u = true → ∃ t ∈ tokenList, t.type = u)

/-- The condition "no unit's rendered value is wider than its token width" for `toString`:
for every unit token, the rendering of the unit's value has at most `length` characters. It
holds trivially when `parts` fails. -/
def fitsTokenWidths (self : QTimeSpan) (format : QString) : Bool :=
  let parsed := parseFormatString format
  match (TimePartHash.ofFormat parsed.2).fill self with
  | none => true
  | some partsHash =>
    parsed.1.all (fun token =>
      token.type == NoUnit ||
        match partsHash.value token.type with
        | some v => decide ((argInt v token.length).length ≤ token.length)
        | none => true)

/-! ## Construction from a unit, set-like operations -/

/-- Modelled from the spec: `operator>` of the calendar collaborator, `a > b` is `b < a`. -/
def QDateTime.gt (a b : QDateTime) : Bool := QDateTime.lt b a

/-- Modelled from the spec: `operator>=` of the calendar collaborator, `a >= b` is `!(a < b)`. -/
def QDateTime.ge (a b : QDateTime) : Bool := !(QDateTime.lt a b)

/-- Modelled from the spec: `qMin(a, b)` on date-times (`min(a.start, b.start)`), that is
`(a < b) ? a : b`. -/
def qMin (a b : QDateTime) : QDateTime := if QDateTime.lt a b then a else b

/-- Modelled from the spec: `qMax(a, b)` on date-times (`max(a.end, b.end)`), that is
`(a < b) ? b : a`. -/
def qMax (a b : QDateTime) : QDateTime := if QDateTime.lt a b then b else a

namespace QTimeSpan

/-- The static constructor `QTimeSpan::fromTimeUnit(unit, interval, reference)`, with the
intentional fall-through of the `switch` written out; `none` when an assertion fails. -/
def fromTimeUnit (unit : TimeSpanUnit) (interval : ℚ) (reference : QDateTime) :
    Option QTimeSpan :=
  match unit with
  | Weeks =>
    some (ofReference reference
      (truncQ (dmul (dmul (dmul (dmul (dmul interval 7) 24) 60) 60) 1000)))
  | Days => some (ofReference reference (truncQ (dmul (dmul (dmul (dmul interval 24) 60) 60) 1000)))
  | Hours => some (ofReference reference (truncQ (dmul (dmul (dmul interval 60) 60) 1000)))
  | Minutes => some (ofReference reference (truncQ (dmul (dmul interval 60) 1000)))
  | Seconds => some (ofReference reference (truncQ (dmul interval 1000)))
  | Milliseconds => some (ofReference reference (truncQ interval))
  | _ =>
    if QDateTime.isValid reference then
      (ofReference reference 0).setFromTimeUnit unit interval
    else none

/-- The operator `QTimeSpan::operator|=` (union); `none` when the assertion that both spans
have a valid reference date fails. -/
def opOrAssign (self other : QTimeSpan) : Option QTimeSpan :=
  if !(self.hasValidReference && other.hasValidReference) then none
  else
    let start := qMin self.startDate other.startDate
    let end_ := qMax self.endDate other.endDate
    some (dateTimeDiff end_ start)

/-- The operator `QTimeSpan::operator&=` (intersection); `none` when the assertion that both
spans have a valid reference date fails. -/
def opAndAssign (self other : QTimeSpan) : Option QTimeSpan :=
  if !(self.hasValidReference && other.hasValidReference) then none
  else
    let swapped := QDateTime.lt other.startDate self.startDate
    let first := if swapped then other else self
    let last := if swapped then self else other
    if !(QDateTime.gt first.endDate last.startDate) then some { self with interval := 0 }
    else some (dateTimeDiff (qMin first.endDate last.endDate) last.startDate)

/-- The query `QTimeSpan::overlaps`. -/
def overlaps (self other : QTimeSpan) : Bool :=
  if !self.hasValidReference || !other.hasValidReference then false
  else
    let swapped := QDateTime.lt other.startDate self.startDate
    let first := if swapped then other else self
    let last := if swapped then self else other
    QDateTime.gt first.endDate last.startDate

/-- The method `QTimeSpan::overlapped`; `none` when the assertion that both spans have a valid
reference date fails. -/
def overlapped (self other : QTimeSpan) : Option QTimeSpan :=
  if !(self.hasValidReference && other.hasValidReference) then none
  else
    let swapped := QDateTime.lt other.startDate self.startDate
    let first := if swapped then other else self
    let last := if swapped then self else other
    if !(QDateTime.ge first.endDate last.startDate) then some null
    else some (dateTimeDiff (qMin first.endDate last.endDate) last.startDate)

/-- The method `QTimeSpan::united`; `none` when the assertion that both spans have a valid
reference date fails. -/
def united (self other : QTimeSpan) : Option QTimeSpan :=
  if !(self.hasValidReference && other.hasValidReference) then none
  else
    let start := qMin self.startDate other.startDate
    let end_ := qMax self.endDate other.endDate
    some (dateTimeDiff end_ start)

/-- The query `QTimeSpan::contains(const QDateTime &dateTime)`. -/
def contains (self : QTimeSpan) (dateTime : QDateTime) : Bool :=
  if !self.hasValidReference then false
  else QDateTime.le self.startDate dateTime && QDateTime.ge self.endDate dateTime

/-- The query `QTimeSpan::contains(const QTimeSpan &other)`. -/
def containsSpan (self other : QTimeSpan) : Bool :=
  if !(self.hasValidReference && other.hasValidReference) then false
  else QDateTime.le self.startDate other.startDate && QDateTime.ge self.endDate other.endDate

/-- The method `QTimeSpan::normalized`. -/
def normalized (self : QTimeSpan) : QTimeSpan := self.normalize

/-- The operator `QTimeSpan operator|(left, right)` (union): a copy of `left`, then `|=`. -/
def opOr (left right : QTimeSpan) : Option QTimeSpan := left.opOrAssign right

/-- The operator `QTimeSpan operator&(left, right)` (intersection): a copy of `left`, then
`&=`. -/
def opAnd (left right : QTimeSpan) : Option QTimeSpan := left.opAndAssign right

end QTimeSpan

/-! ## Absolute value, comparison, magnitude, approximate rendering -/

namespace QTimeSpan

/-- The method `QTimeSpan::abs`. -/
def abs (self : QTimeSpan) : QTimeSpan := { self with interval := qAbs self.interval }

/-- The operator `QTimeSpan::operator==`. -/
def opEq (self other : QTimeSpan) : Bool :=
  self.interval == other.interval && self.reference == other.reference

/-- The operator `QTimeSpan::operator<`. -/
def opLt (self other : QTimeSpan) : Bool := decide (self.interval < other.interval)

/-- The operator `QTimeSpan::operator<=`. -/
def opLe (self other : QTimeSpan) : Bool := decide (self.interval ≤ other.interval)

/-- The method `QTimeSpan::magnitude`. The call `parts(0, 0, 0, 0, 0, 0, &months, &years)`
leaves `months` and `years` at 0 when it returns `false`. -/
def magnitude (self : QTimeSpan) : TimeSpanUnit :=
  let mag : Int := qAbs self.interval
  if mag < 1000 then Milliseconds
  else if mag < 60 * 1000 then Seconds
  else if mag < 60 * 60 * 1000 then Minutes
  else if mag < 24 * 60 * 60 * 1000 then Hours
  else if mag < 7 * 24 * 60 * 60 * 1000 then Days
  else if self.hasValidReference then
    if mag > 366 * 24 * 60 * 60 * 1000 then Years
    else
      let result := self.parts ⟨false, false, false, false, false, false, true, true, false⟩
      let years : Int := (result.bind PartsResult.years).getD 0
      let months : Int := (result.bind PartsResult.months).getD 0
      if years > 0 then Years
      else if months > 0 then Months
      else Weeks
  else Weeks

end QTimeSpan

/-- The conversion `Qt::TimeSpanUnit(unit / 2)`: the next smaller unit, `NoUnit` below
`Milliseconds`. -/
def TimeSpanUnit.half : TimeSpanUnit → TimeSpanUnit
  | Years => Months
  | Months => Weeks
  | Weeks => Days
  | Days => Hours
  | Hours => Minutes
  | Minutes => Seconds
  | Seconds => Milliseconds
  | Milliseconds => NoUnit
  | NoUnit => NoUnit

/-- The loop `while (!format.testFlag(unit) && unit > Qt::NoUnit) unit = Qt::TimeSpanUnit(unit / 2)`
of `toApproximateString`; `fuel` bounds the number of iterations. -/
def lowerToFormat (format : TimeSpanFormat) : Nat → TimeSpanUnit → TimeSpanUnit
  | 0, unit => unit
  | fuel + 1, unit =>
    if !testFlag format unit && decide (unit.value > NoUnit.value) then
      lowerToFormat format fuel unit.half
    else unit

/-- The local variables of `toApproximateString` before its final test. -/
structure ApproximateUnits where
  primairyUnit : TimeSpanUnit
  primairy : Int
  secondairyUnit : TimeSpanUnit
  secondairy : Int
  deriving DecidableEq, Repr

/-- The part of `QTimeSpan::toApproximateString` that chooses the two units and retrieves their
values. The result `none` stands for the early return of a null `QString` when `parts` fails
(and for the dereference of a null pointer). Eight iterations end each `while` loop. -/
def QTimeSpan.approximateUnits (self : QTimeSpan) (format : TimeSpanFormat) :
    Option ApproximateUnits :=
  let primairyUnit := lowerToFormat format 8 self.magnitude
  let secondairyUnit := if primairyUnit.value > 1 then primairyUnit.half else NoUnit
  let primairy : Int := if primairyUnit.value > 1 then -1 else 0
  let secondairyUnit := lowerToFormat format 8 secondairyUnit
  if primairy < 0 then
    match (TimePartHash.ofFormat format).fill self with
    | none => none
    | some partsHash =>
      match partsHash.value primairyUnit with
      | none => none
      | some primairy =>
        if secondairyUnit.value > 0 then
          match partsHash.value secondairyUnit with
          | none => none
          | some secondairy => some ⟨primairyUnit, primairy, secondairyUnit, secondairy⟩
        else some ⟨primairyUnit, primairy, secondairyUnit, 0⟩
  else some ⟨primairyUnit, primairy, secondairyUnit, -1⟩

/-- The method `QTimeSpan::toApproximateString(suppresSecondUnitLimit, format)`. The returned
string is `unitString(unit, num)` for one unit, or for two units joined by `", "`; it is
represented by the list of the arguments `(unit, num)` of those calls of `unitString`, whose
text comes from the translation tables. The result `none` stands for the null `QString`, which
is also what `unitString` returns for `NoUnit`. -/
def QTimeSpan.toApproximateString (self : QTimeSpan) (suppresSecondUnitLimit : Int)
    (format : TimeSpanFormat) : Option (List (TimeSpanUnit × Int)) :=
  if format = NoUnit.value then none
  else
    match self.approximateUnits format with
    | none => none
    | some c =>
      if (decide (c.primairy > 0) && decide (c.secondairy > 0)
            && decide (c.primairy < suppresSecondUnitLimit))
          || (decide (suppresSecondUnitLimit < 0)
            && decide (c.secondairyUnit.value > NoUnit.value)) then
        some [(c.primairyUnit, c.primairy), (c.secondairyUnit, c.secondairy)]
      else if c.primairyUnit = NoUnit then none
      else some [(c.primairyUnit, c.primairy)]

/-! ## Auxiliary notions for the statements about patterns and strings -/

/-- Two neighbouring characters of a pattern belong to the same run when they are the same
alphabet letter, or when neither of them is an alphabet letter. -/
def sameRun (a b : Char) : Bool :=
  match tokenHash a with
  | some _ => a == b
  | none => (tokenHash b).isNone

/-- The token that stands for a run of a pattern: the unit of the letter with the length of the
run, or a literal token holding the text of the run. -/
def runToken (run : List Char) : TimeFormatToken :=
  match run.head?.bind tokenHash with
  | some unit => { type := unit, length := run.length, string := [] }
  | none => { type := NoUnit, length := run.length, string := run }

/-- The text `t` with each single quote doubled. -/
def doubleQuotes (t : QString) : QString :=
  t.flatMap (fun c => if c = '\'' then ['\'', '\''] else [c])

/-- The pattern made of a single quote, `t` with each single quote doubled, and a closing
single quote. -/
def quoted (t : QString) : QString := '\'' :: (doubleQuotes t ++ ['\''])

/-- The text that stands for a token in the output of `toString`, for the values of the hash
`h`: the text of a literal token, the zero-padded value of the unit of a unit token. -/
def tokenText (h : TimePartHash) (token : TimeFormatToken) : QString :=
  if token.type = NoUnit then token.string
  else argInt ((h.value token.type).getD 0) token.length

/-- The sum, over the unit tokens of a token list, of parsed value × unit length, where each
token takes its slice of `length` characters from the input; `none` when a slice of a unit token
does not parse as an integer. -/
def parsedTotal : List TimeFormatToken → QString → Option Int
  | [], _ => some 0
  | token :: rest, input =>
    if token.type = NoUnit then parsedTotal rest (input.drop token.length)
    else
      match toInt (trimmed (input.take token.length)), parsedTotal rest (input.drop token.length) with
      | some value, some total => some (value * unitFactor token.type + total)
      | _, _ => none

/-- The letter that stands for a unit in a pattern: the inverse of the table `tokenHash`; for
`NoUnit`, which has no letter, the character with code 0. -/
def unitLetter : TimeSpanUnit → Char
  | Years => 'y'
  | Months => 'M'
  | Weeks => 'w'
  | Days => 'd'
  | Hours => 'h'
  | Minutes => 'm'
  | Seconds => 's'
  | Milliseconds => 'z'
  | NoUnit => Char.ofNat 0

/-! ## `setPart`, multiplication, shifting a date-time -/

/-- The method `QTimeSpan::setPart(unit, interval, format)`. The span is unchanged when the unit
is not part of the format or when `parts` fails; the result `none` stands for a failed assertion
or the dereference of a null pointer. The difference `interval - *(partsHash.value(unit))` is a
difference of two `int`s. -/
def QTimeSpan.setPart (self : QTimeSpan) (unit : TimeSpanUnit) (interval : Int)
    (format : TimeSpanFormat) : Option QTimeSpan :=
  if !testFlag format unit then some self
  else
    match (TimePartHash.ofFormat format).fill self with
    | none => some self
    | some partsHash =>
      match partsHash.value unit with
      | none => none
      | some value => addUnit self unit (ofInt (toInt32 (interval - value)))

/-- The operator `QTimeSpan::operator*=(int factor)`: a product of 64-bit integers. -/
def QTimeSpan.opMulAssignInt (self : QTimeSpan) (factor : Int) : QTimeSpan :=
  { self with interval := toInt64 (self.interval * factor) }

/-- The operator `QDateTime operator+(const QDateTime &left, const QTimeSpan &right)`. -/
def QDateTime.plusSpan (left : QDateTime) (right : QTimeSpan) : QDateTime :=
  QDateTime.addMSecs left right.toMSecs

/-- The text that a token stands for in a pattern without quotes: the letter of the unit
repeated `length` times for a unit token, the string for a literal token. -/
def tokenPattern (token : TimeFormatToken) : QString :=
  if token.type = NoUnit then token.string
  else List.replicate token.length (unitLetter token.type)

/-! ## Auxiliary notions for the statements about `setPart` -/

/-- The residual that a block of `parts` passes on, for a non-negative residual `A` that reaches
the block of a unit with the length `factor`: the remainder when the unit is requested. -/
def restOf (requested : Bool) (factor A : Int) : Int := if requested then A % factor else A

/-- The blocks from milliseconds on succeed on the non-negative residual `A`. -/
def okMSecs (req : PartsRequest) (A : Int) : Bool :=
  !req.msecondsPtr || decide (A < 2147483647)

/-- The blocks from seconds on succeed on the non-negative residual `A`. -/
def okSeconds (req : PartsRequest) (A : Int) : Bool :=
  (!req.secondsPtr || decide (A < 1000 * 2147483647)) &&
    okMSecs req (restOf req.secondsPtr 1000 A)

/-- The blocks from minutes on succeed on the non-negative residual `A`. -/
def okMinutes (req : PartsRequest) (A : Int) : Bool :=
  (!req.minutesPtr || decide (A < 60000 * 2147483647)) &&
    okSeconds req (restOf req.minutesPtr 60000 A)

/-- The blocks from hours on succeed on the non-negative residual `A`. -/
def okHours (req : PartsRequest) (A : Int) : Bool :=
  (!req.hoursPtr || decide (A < 3600000 * 2147483647)) &&
    okMinutes req (restOf req.hoursPtr 3600000 A)

/-- The blocks from days on succeed on the non-negative residual `A`. -/
def okDays (req : PartsRequest) (A : Int) : Bool :=
  (!req.daysPtr || decide (A < 86400000 * 2147483647)) &&
    okHours req (restOf req.daysPtr 86400000 A)

/-- The blocks from weeks on succeed on the non-negative residual `A`. -/
def okWeeks (req : PartsRequest) (A : Int) : Bool :=
  (!req.weeksPtr || decide (A < 604800000 * 2147483647)) &&
    okDays req (restOf req.weeksPtr 604800000 A)

/-- What the blocks from milliseconds on write for the non-negative residual `A`. -/
def closedMSecs (req : PartsRequest) (A : Int) (r : PartsResult) : PartsResult :=
  { r with mseconds := if req.msecondsPtr then some A else r.mseconds }

/-- What the blocks from seconds on write for the non-negative residual `A`. -/
def closedSeconds (req : PartsRequest) (A : Int) (r : PartsResult) : PartsResult :=
  closedMSecs req (restOf req.secondsPtr 1000 A)
    { r with seconds := if req.secondsPtr then some (A / 1000) else r.seconds }

/-- What the blocks from minutes on write for the non-negative residual `A`. -/
def closedMinutes (req : PartsRequest) (A : Int) (r : PartsResult) : PartsResult :=
  closedSeconds req (restOf req.minutesPtr 60000 A)
    { r with minutes := if req.minutesPtr then some (A / 60000) else r.minutes }

/-- What the blocks from hours on write for the non-negative residual `A`. -/
def closedHours (req : PartsRequest) (A : Int) (r : PartsResult) : PartsResult :=
  closedMinutes req (restOf req.hoursPtr 3600000 A)
    { r with hours := if req.hoursPtr then some (A / 3600000) else r.hours }

/-- What the blocks from days on write for the non-negative residual `A`. -/
def closedDays (req : PartsRequest) (A : Int) (r : PartsResult) : PartsResult :=
  closedHours req (restOf req.daysPtr 86400000 A)
    { r with days := if req.daysPtr then some (A / 86400000) else r.days }

/-- What the blocks from weeks on write for the non-negative residual `A`. -/
def closedWeeks (req : PartsRequest) (A : Int) (r : PartsResult) : PartsResult :=
  closedDays req (restOf req.weeksPtr 604800000 A)
    { r with weeks := if req.weeksPtr then some (A / 604800000) else r.weeks }

/-- The request of the fixed units of a format. -/
def fixedRequest (format : TimeSpanFormat) : PartsRequest :=
  ⟨testFlag format Milliseconds, testFlag format Seconds, testFlag format Minutes,
    testFlag format Hours, testFlag format Days, testFlag format Weeks, false, false, false⟩

/-- The range of the values of a unit within a format of fixed units: the number of such units
in the next larger unit of the format; for the largest unit of the format, the values that
`parts` accepts, those below `INT_MAX`. -/
def unitRange (format : TimeSpanFormat) (unit : TimeSpanUnit) : Int :=
  match unit with
  | Milliseconds =>
    if testFlag format Seconds then 1000
    else if testFlag format Minutes then 60000
    else if testFlag format Hours then 3600000
    else if testFlag format Days then 86400000
    else if testFlag format Weeks then 604800000
    else 2147483647
  | Seconds =>
    if testFlag format Minutes then 60
    else if testFlag format Hours then 3600
    else if testFlag format Days then 86400
    else if testFlag format Weeks then 604800
    else 2147483647
  | Minutes =>
    if testFlag format Hours then 60
    else if testFlag format Days then 1440
    else if testFlag format Weeks then 10080
    else 2147483647
  | Hours =>
    if testFlag format Days then 24
    else if testFlag format Weeks then 168
    else 2147483647
  | Days => if testFlag format Weeks then 7 else 2147483647
  | Weeks => 2147483647
  | _ => 0

/-- The residual that reaches the days block of `parts` for the non-negative interval `L`. -/
def inDays (req : PartsRequest) (L : Int) : Int := restOf req.weeksPtr 604800000 L

/-- The residual that reaches the hours block of `parts` for the non-negative interval `L`. -/
def inHours (req : PartsRequest) (L : Int) : Int := restOf req.daysPtr 86400000 (inDays req L)

/-- The residual that reaches the minutes block of `parts` for the non-negative interval `L`. -/
def inMinutes (req : PartsRequest) (L : Int) : Int :=
  restOf req.hoursPtr 3600000 (inHours req L)

/-- The residual that reaches the seconds block of `parts` for the non-negative interval `L`. -/
def inSeconds (req : PartsRequest) (L : Int) : Int :=
  restOf req.minutesPtr 60000 (inMinutes req L)

/-- The residual that reaches the milliseconds block of `parts` for the non-negative interval
`L`. -/
def inMSecs (req : PartsRequest) (L : Int) : Int :=
  restOf req.secondsPtr 1000 (inSeconds req L)

/-! ## Auxiliary notions for the statements about `fromString` and `toApproximateString` -/

/-- The sum, over the unit tokens of a token list, of |parsed value| × unit length: the size of
the numbers that the additions of `fromString` work on; `none` when a slice of a unit token does
not parse as an integer. -/
def parsedMagnitude : List TimeFormatToken → QString → Option Int
  | [], _ => some 0
  | token :: rest, input =>
    if token.type = NoUnit then parsedMagnitude rest (input.drop token.length)
    else
      match toInt (trimmed (input.take token.length)),
        parsedMagnitude rest (input.drop token.length) with
      | some value, some total => some (|value| * unitFactor token.type + total)
      | _, _ => none

/-- The sum of |value| × unit length over the entries of a hash. -/
def TimePartHash.totalMagnitude (h : TimePartHash) : Int :=
  (hashKeys.map (fun u => |(h.value u).getD 0| * unitFactor u)).sum

/-- The eight units from the largest to the smallest. -/
def unitLadder : List TimeSpanUnit :=
  [Years, Months, Weeks, Days, Hours, Minutes, Seconds, Milliseconds]

/-- Following the spec, "the largest unit enabled in `requestedUnits` that is ≤ `magnitude`":
the first unit on the ladder from years down to milliseconds whose flag is set in the format and
which is not above the magnitude; `NoUnit` when there is none. -/
def specPrimaryUnit (format : TimeSpanFormat) (magnitude : TimeSpanUnit) : TimeSpanUnit :=
  (unitLadder.find? (fun w => testFlag format w && decide (w.value ≤ magnitude.value))).getD NoUnit

/-- Following the spec, "the next enabled unit below primary": the first unit on the ladder from
years down to milliseconds whose flag is set in the format and which is below the primary unit;
`NoUnit` when there is none. -/
def specSecondaryUnit (format : TimeSpanFormat) (primary : TimeSpanUnit) : TimeSpanUnit :=
  (unitLadder.find? (fun w => testFlag format w && decide (w.value < primary.value))).getD NoUnit

/-! ## Theorems -/

/-! ### The arithmetic of `double` -/

/-- The halving steps find the binary logarithm when the fuel suffices. -/
theorem log2Fuel_spec : ∀ (fuel n : Nat), n ≤ fuel → 0 < n →
    2 ^ log2Fuel fuel n ≤ n ∧ n < 2 ^ (log2Fuel fuel n + 1)
  | 0, n, h, hn => by omega
  | fuel + 1, n, h, hn => by
    unfold log2Fuel
    by_cases h2 : n < 2
    · have h1 : n = 1 := by omega
      subst h1
      simp
    · simp only [h2, if_false]
      obtain ⟨a, b⟩ := log2Fuel_spec fuel (n / 2) (by omega) (by omega)
      have e1 : 2 ^ (log2Fuel fuel (n / 2) + 1) = 2 * 2 ^ log2Fuel fuel (n / 2) := by ring
      have e2 : 2 ^ (log2Fuel fuel (n / 2) + 1 + 1) = 4 * 2 ^ log2Fuel fuel (n / 2) := by ring
      rw [e1] at b
      rw [e1, e2]
      generalize 2 ^ log2Fuel fuel (n / 2) = P at a b ⊢
      constructor <;> omega

/-- The binary logarithm of a positive natural number. -/
theorem natLog2_spec (n : Nat) (hn : 0 < n) :
    2 ^ natLog2 n ≤ n ∧ n < 2 ^ (natLog2 n + 1) :=
  log2Fuel_spec n n le_rfl hn

/-- The binary exponent of a non-zero rational. -/
theorem ilog2_spec (q : ℚ) (hq : q ≠ 0) :
    (2 : ℚ) ^ ilog2 q ≤ |q| ∧ |q| < (2 : ℚ) ^ (ilog2 q + 1) := by
  have hN : 0 < q.num.natAbs := Int.natAbs_pos.mpr (Rat.num_ne_zero.mpr hq)
  have hd : 0 < q.den := q.den_pos
  obtain ⟨a1, a2⟩ := natLog2_spec _ hN
  obtain ⟨b1, b2⟩ := natLog2_spec _ hd
  have habs : |q| = (q.num.natAbs : ℚ) / (q.den : ℚ) := by
    conv_lhs => rw [← Rat.num_div_den q]
    rw [abs_div, Nat.abs_cast, Nat.cast_natAbs, Int.cast_abs]
  have a1' : (2 : ℚ) ^ natLog2 q.num.natAbs ≤ (q.num.natAbs : ℚ) := by exact_mod_cast a1
  have a2' : (q.num.natAbs : ℚ) < (2 : ℚ) ^ (natLog2 q.num.natAbs + 1) := by exact_mod_cast a2
  have b1' : (2 : ℚ) ^ natLog2 q.den ≤ (q.den : ℚ) := by exact_mod_cast b1
  have b2' : (q.den : ℚ) < (2 : ℚ) ^ (natLog2 q.den + 1) := by exact_mod_cast b2
  have hdq : (0 : ℚ) < q.den := by exact_mod_cast hd
  have h2 : (0 : ℚ) < 2 := by norm_num
  have hlow : (2 : ℚ) ^ ((natLog2 q.num.natAbs : Int) - (natLog2 q.den : Int) - 1) ≤ |q| := by
    rw [habs, show ((natLog2 q.num.natAbs : Int) - (natLog2 q.den : Int) - 1)
      = (natLog2 q.num.natAbs : Int) - ((natLog2 q.den + 1 : Nat) : Int) by push_cast; ring,
      zpow_sub₀ h2.ne', zpow_natCast, zpow_natCast]
    exact div_le_div₀ (by positivity) a1' hdq b2'.le
  have hhigh : |q| < (2 : ℚ) ^ ((natLog2 q.num.natAbs : Int) - (natLog2 q.den : Int) + 1) := by
    rw [habs, show ((natLog2 q.num.natAbs : Int) - (natLog2 q.den : Int) + 1)
      = ((natLog2 q.num.natAbs + 1 : Nat) : Int) - (natLog2 q.den : Int) by push_cast; ring,
      zpow_sub₀ h2.ne', zpow_natCast, zpow_natCast]
    exact div_lt_div₀ a2' b1' (by positivity) (by positivity)
  unfold ilog2
  simp only
  split_ifs with h
  · exact ⟨h, hhigh⟩
  · refine ⟨hlow, ?_⟩
    rw [sub_add_cancel]
    exact not_le.mp h

/-- A rational below a power of two has a smaller binary exponent. -/
theorem ilog2_lt_of_abs_lt (q : ℚ) (hq : q ≠ 0) (e : Int) (h : |q| < (2 : ℚ) ^ e) :
    ilog2 q < e :=
  (zpow_lt_zpow_iff_right₀ (by norm_num : (1 : ℚ) < 2)).mp (lt_of_le_of_lt (ilog2_spec q hq).1 h)

/-- A rational from a power of two on has at least that binary exponent. -/
theorem le_ilog2_of_le_abs (q : ℚ) (hq : q ≠ 0) (e : Int) (h : (2 : ℚ) ^ e ≤ |q|) :
    e ≤ ilog2 q := by
  have := (zpow_lt_zpow_iff_right₀ (by norm_num : (1 : ℚ) < 2)).mp
    (lt_of_le_of_lt h (ilog2_spec q hq).2)
  omega

/-- The binary exponent grows with the absolute value. -/
theorem ilog2_mono (a b : ℚ) (ha : a ≠ 0) (hb : b ≠ 0) (h : |a| ≤ |b|) :
    ilog2 a ≤ ilog2 b :=
  le_ilog2_of_le_abs b hb _ ((ilog2_spec a ha).1.trans h)

/-- The binary exponent does not depend on the sign. -/
theorem ilog2_neg (q : ℚ) : ilog2 (-q) = ilog2 q := by
  unfold ilog2
  simp only [Rat.neg_num, Rat.neg_den, Int.natAbs_neg, abs_neg]

/-- Rounding an integer gives the integer. -/
theorem roundHalfEven_intCast (n : Int) : roundHalfEven (n : ℚ) = n := by
  unfold roundHalfEven
  simp

/-- Rounding gives one of the two neighbouring integers. -/
theorem roundHalfEven_bounds (x : ℚ) : ⌊x⌋ ≤ roundHalfEven x ∧ roundHalfEven x ≤ ⌊x⌋ + 1 := by
  unfold roundHalfEven
  simp only
  split_ifs <;> omega

/-- Rounding is monotone. -/
theorem roundHalfEven_mono (x y : ℚ) (h : x ≤ y) : roundHalfEven x ≤ roundHalfEven y := by
  have hf : ⌊x⌋ ≤ ⌊y⌋ := Int.floor_mono h
  rcases lt_or_eq_of_le hf with hlt | heq
  · exact (roundHalfEven_bounds x).2.trans (by
      have := (roundHalfEven_bounds y).1
      omega)
  · unfold roundHalfEven
    simp only [heq]
    have hxy : x - ⌊y⌋ ≤ y - ⌊y⌋ := sub_le_sub_right h _
    split_ifs <;> first | omega | (exfalso; linarith)

/-- Rounding commutes with the change of sign. -/
theorem roundHalfEven_neg (x : ℚ) : roundHalfEven (-x) = -roundHalfEven x := by
  by_cases hx : (⌊x⌋ : ℚ) = x
  · rw [← hx, ← Int.cast_neg, roundHalfEven_intCast, roundHalfEven_intCast]
  · have h1 : (⌊x⌋ : ℚ) < x := lt_of_le_of_ne (Int.floor_le x) hx
    have h2 := Int.lt_floor_add_one x
    have hfl : ⌊-x⌋ = -⌊x⌋ - 1 := by
      rw [Int.floor_eq_iff]
      push_cast
      constructor <;> linarith
    unfold roundHalfEven
    simp only [hfl]
    push_cast
    split_ifs <;> first | omega | (exfalso; linarith)

/-- The spacing does not depend on the sign. -/
theorem ulpExp_neg (q : ℚ) : ulpExp (-q) = ulpExp q := by
  unfold ulpExp
  rw [ilog2_neg]

/-- The spacing grows with the absolute value. -/
theorem ulpExp_mono (a b : ℚ) (ha : a ≠ 0) (hb : b ≠ 0) (h : |a| ≤ |b|) :
    ulpExp a ≤ ulpExp b := by
  have := ilog2_mono a b ha hb h
  unfold ulpExp
  omega

/-- Zero is a `double`. -/
theorem roundDouble_zero : roundDouble 0 = 0 := by
  simp [roundDouble]

/-- Rounding to a `double` commutes with the change of sign. -/
theorem roundDouble_neg (q : ℚ) : roundDouble (-q) = -roundDouble q := by
  unfold roundDouble
  by_cases hq : q = 0
  · simp [hq]
  · have hq' : -q ≠ 0 := neg_ne_zero.mpr hq
    simp only [hq, hq', if_false, ulpExp_neg, neg_div, roundHalfEven_neg, Int.cast_neg, neg_mul]

/-- A multiple of the spacing above a rational is not below its `double`. -/
theorem roundDouble_le_of_le (q : ℚ) (hq : q ≠ 0) (t : Int)
    (h : q ≤ (t : ℚ) * (2 : ℚ) ^ ulpExp q) : roundDouble q ≤ (t : ℚ) * (2 : ℚ) ^ ulpExp q := by
  have hp : (0 : ℚ) < (2 : ℚ) ^ ulpExp q := by positivity
  unfold roundDouble
  simp only [hq, if_false]
  apply mul_le_mul_of_nonneg_right _ hp.le
  have h1 : q / (2 : ℚ) ^ ulpExp q ≤ (t : ℚ) := (div_le_iff₀ hp).mpr h
  have h2 := roundHalfEven_mono _ _ h1
  rw [roundHalfEven_intCast] at h2
  exact_mod_cast h2

/-- A multiple of the spacing below a rational is not above its `double`. -/
theorem le_roundDouble_of_le (q : ℚ) (hq : q ≠ 0) (t : Int)
    (h : (t : ℚ) * (2 : ℚ) ^ ulpExp q ≤ q) : (t : ℚ) * (2 : ℚ) ^ ulpExp q ≤ roundDouble q := by
  have hp : (0 : ℚ) < (2 : ℚ) ^ ulpExp q := by positivity
  unfold roundDouble
  simp only [hq, if_false]
  apply mul_le_mul_of_nonneg_right _ hp.le
  have h1 : (t : ℚ) ≤ q / (2 : ℚ) ^ ulpExp q := (le_div_iff₀ hp).mpr h
  have h2 := roundHalfEven_mono _ _ h1
  rw [roundHalfEven_intCast] at h2
  exact_mod_cast h2

/-- The `double` of a non-negative rational is not negative. -/
theorem roundDouble_nonneg (q : ℚ) (h : 0 ≤ q) : 0 ≤ roundDouble q := by
  by_cases hq : q = 0
  · rw [hq, roundDouble_zero]
  · have := le_roundDouble_of_le q hq 0 (by simpa using h)
    simpa using this

/-- The `double` of a non-positive rational is not positive. -/
theorem roundDouble_nonpos (q : ℚ) (h : q ≤ 0) : roundDouble q ≤ 0 := by
  have := roundDouble_nonneg (-q) (neg_nonneg.mpr h)
  rw [roundDouble_neg] at this
  linarith

/-- A power of two with a non-negative exponent is an integer. -/
theorem zpow_two_eq_intCast (k : Int) (hk : 0 ≤ k) :
    (2 : ℚ) ^ k = (((2 : Int) ^ k.toNat : Int) : ℚ) := by
  conv_lhs => rw [← Int.toNat_of_nonneg hk]
  rw [zpow_natCast]
  push_cast
  rfl

/-- Rounding to a `double` is monotone on the positive rationals. -/
theorem roundDouble_mono_pos (a b : ℚ) (ha : 0 < a) (h : a ≤ b) :
    roundDouble a ≤ roundDouble b := by
  have hb : 0 < b := lt_of_lt_of_le ha h
  have hle : ulpExp a ≤ ulpExp b :=
    ulpExp_mono a b ha.ne' hb.ne' (by rw [abs_of_pos ha, abs_of_pos hb]; exact h)
  rcases lt_or_eq_of_le hle with hlt | heq
  · -- the power of two `2 ^ ilog2 b` separates the two doubles
    have hpb : ulpExp b = ilog2 b - 52 := by
      have h1 : -1074 ≤ ulpExp a := le_max_right _ _
      unfold ulpExp at hlt ⊢
      omega
    have hea : ilog2 a + 1 ≤ ilog2 b := by
      have h1 : ilog2 a - 52 ≤ ulpExp a := le_max_left _ _
      omega
    have h2 : (1 : ℚ) ≤ 2 := by norm_num
    have haT : a ≤ (2 : ℚ) ^ ilog2 b := by
      have := (ilog2_spec a ha.ne').2
      rw [abs_of_pos ha] at this
      exact this.le.trans (zpow_le_zpow_right₀ h2 hea)
    have hTb : (2 : ℚ) ^ ilog2 b ≤ b := by
      have := (ilog2_spec b hb.ne').1
      rwa [abs_of_pos hb] at this
    have hTa : (2 : ℚ) ^ ilog2 b
        = (((2 : Int) ^ (ilog2 b - ulpExp a).toNat : Int) : ℚ) * (2 : ℚ) ^ ulpExp a := by
      rw [← zpow_two_eq_intCast _ (by omega), ← zpow_add₀ (by norm_num : (2 : ℚ) ≠ 0)]
      congr 1
      ring
    have hTb' : (2 : ℚ) ^ ilog2 b
        = (((2 : Int) ^ (ilog2 b - ulpExp b).toNat : Int) : ℚ) * (2 : ℚ) ^ ulpExp b := by
      rw [← zpow_two_eq_intCast _ (by omega), ← zpow_add₀ (by norm_num : (2 : ℚ) ≠ 0)]
      congr 1
      ring
    have r1 := roundDouble_le_of_le a ha.ne' _ (hTa ▸ haT)
    have r2 := le_roundDouble_of_le b hb.ne' _ (hTb' ▸ hTb)
    rw [← hTa] at r1
    rw [← hTb'] at r2
    exact r1.trans r2
  · unfold roundDouble
    simp only [ha.ne', hb.ne', if_false, heq]
    have hp : (0 : ℚ) < (2 : ℚ) ^ ulpExp b := by positivity
    apply mul_le_mul_of_nonneg_right _ hp.le
    exact_mod_cast roundHalfEven_mono _ _ (div_le_div_of_nonneg_right h hp.le)

/-- Rounding to a `double` is monotone. -/
theorem roundDouble_mono (a b : ℚ) (h : a ≤ b) : roundDouble a ≤ roundDouble b := by
  rcases lt_trichotomy 0 a with ha | ha | ha
  · exact roundDouble_mono_pos a b ha h
  · rw [← ha, roundDouble_zero]
    exact roundDouble_nonneg b (ha ▸ h)
  · rcases le_or_lt 0 b with hb | hb
    · exact (roundDouble_nonpos a ha.le).trans (roundDouble_nonneg b hb)
    · have := roundDouble_mono_pos (-b) (-a) (neg_pos.mpr hb) (neg_le_neg h)
      rw [roundDouble_neg, roundDouble_neg] at this
      linarith

/-- A number with a significand below `2 ^ 53` and an exponent from -1074 on is a `double`:
rounding does not change it. -/
theorem roundDouble_exact (m k : Int) (hm : |m| < 2 ^ 53) (hk : -1074 ≤ k) :
    roundDouble ((m : ℚ) * (2 : ℚ) ^ k) = (m : ℚ) * (2 : ℚ) ^ k := by
  by_cases hm0 : m = 0
  · simp [hm0, roundDouble_zero]
  · have h2k : (0 : ℚ) < (2 : ℚ) ^ k := by positivity
    have hq : (m : ℚ) * (2 : ℚ) ^ k ≠ 0 :=
      mul_ne_zero (by exact_mod_cast hm0) h2k.ne'
    have habs : |(m : ℚ) * (2 : ℚ) ^ k| < (2 : ℚ) ^ (53 + k) := by
      rw [abs_mul, abs_of_pos h2k, zpow_add₀ (by norm_num : (2 : ℚ) ≠ 0)]
      apply mul_lt_mul_of_pos_right _ h2k
      have : ((|m| : Int) : ℚ) < ((2 ^ 53 : Int) : ℚ) := by exact_mod_cast hm
      rw [Int.cast_abs] at this
      norm_num at this ⊢
      exact this
    have hlog := ilog2_lt_of_abs_lt _ hq _ habs
    have hp : ulpExp ((m : ℚ) * (2 : ℚ) ^ k) ≤ k := by
      unfold ulpExp
      omega
    have hdiv : (m : ℚ) * (2 : ℚ) ^ k / (2 : ℚ) ^ ulpExp ((m : ℚ) * (2 : ℚ) ^ k)
        = ((m * (2 : Int) ^ (k - ulpExp ((m : ℚ) * (2 : ℚ) ^ k)).toNat : Int) : ℚ) := by
      rw [Int.cast_mul, ← zpow_two_eq_intCast _ (by omega), mul_div_assoc,
        ← zpow_sub₀ (by norm_num : (2 : ℚ) ≠ 0)]
    unfold roundDouble
    simp only [hq, if_false]
    rw [hdiv, roundHalfEven_intCast, Int.cast_mul, ← zpow_two_eq_intCast _ (by omega),
      mul_assoc, ← zpow_add₀ (by norm_num : (2 : ℚ) ≠ 0)]
    congr 2
    ring

/-- An integer that is a multiple of `2 ^ k` and at most `2 ^ (53 + k)` in absolute value is a
`double`. -/
theorem roundDouble_intCast_of_dvd (n : Int) (k : Nat) (hd : (2 : Int) ^ k ∣ n)
    (hb : |n| ≤ 2 ^ (53 + k)) : roundDouble (n : ℚ) = (n : ℚ) := by
  obtain ⟨m, rfl⟩ := hd
  have hpos : (0 : Int) < 2 ^ k := by positivity
  have hm : |m| ≤ 2 ^ 53 := by
    rw [abs_mul, abs_of_pos hpos, pow_add, mul_comm] at hb
    exact le_of_mul_le_mul_right hb hpos
  rcases lt_or_eq_of_le hm with hlt | heq
  · have := roundDouble_exact m k hlt (by omega)
    rw [zpow_natCast] at this
    push_cast
    rw [mul_comm]
    exact this
  · -- the significand `2 ^ 53` is the significand `2 ^ 52` with the next exponent
    have hm2 : m = 2 * (m / 2) := by
      rcases abs_eq (by positivity : (0 : Int) ≤ 2 ^ 53) |>.mp heq with h | h <;> rw [h] <;>
        norm_num
    have hm' : |m / 2| < 2 ^ 53 := by
      rcases abs_eq (by positivity : (0 : Int) ≤ 2 ^ 53) |>.mp heq with h | h <;> rw [h] <;>
        norm_num
    have := roundDouble_exact (m / 2) (k + 1) hm' (by omega)
    have e : ((2 ^ k * m : Int) : ℚ) = ((m / 2 : Int) : ℚ) * (2 : ℚ) ^ ((k : Int) + 1) := by
      conv_lhs => rw [hm2]
      rw [zpow_add₀ (by norm_num : (2 : ℚ) ≠ 0), zpow_natCast, zpow_one]
      push_cast
      ring
    rw [e]
    exact this

/-- An integer up to `2 ^ 53` in absolute value is a `double`. -/
theorem roundDouble_intCast (n : Int) (hb : |n| ≤ 2 ^ 53) : roundDouble (n : ℚ) = (n : ℚ) :=
  roundDouble_intCast_of_dvd n 0 (by simp) (by simpa using hb)

/-! ### Conversions and sums that `double` arithmetic computes exactly -/

/-- Converting an integral `qreal` to an integer gives the integer. -/
theorem truncQ_intCast (z : Int) : truncQ (z : ℚ) = z := by
  simp [truncQ]

/-- Converting a non-negative `qreal` to an integer rounds down. -/
theorem truncQ_of_nonneg (q : ℚ) (h : 0 ≤ q) : truncQ q = ⌊q⌋ := by
  unfold truncQ
  rw [Int.tdiv_eq_ediv (Rat.num_nonneg.mpr h) (by exact_mod_cast Nat.zero_le _), Rat.floor_def]

/-- Converting a non-positive `qreal` to an integer rounds up. -/
theorem truncQ_of_nonpos (q : ℚ) (h : q ≤ 0) : truncQ q = ⌈q⌉ := by
  have hneg : 0 ≤ -q := neg_nonneg.mpr h
  have h1 := truncQ_of_nonneg (-q) hneg
  unfold truncQ at h1 ⊢
  rw [Rat.neg_num, Rat.neg_den, Int.neg_tdiv] at h1
  rw [Int.floor_neg] at h1
  omega

/-- The conversion of a `qreal` to an integer is monotone. -/
theorem truncQ_mono (a b : ℚ) (h : a ≤ b) : truncQ a ≤ truncQ b := by
  rcases le_total 0 a with ha | ha
  · rw [truncQ_of_nonneg a ha, truncQ_of_nonneg b (ha.trans h)]
    exact Int.floor_mono h
  · rcases le_total 0 b with hb | hb
    · rw [truncQ_of_nonpos a ha, truncQ_of_nonneg b hb]
      exact (Int.ceil_le.mpr (by exact_mod_cast ha)).trans (Int.floor_nonneg.mpr hb)
    · rw [truncQ_of_nonpos a ha, truncQ_of_nonpos b hb]
      exact Int.ceil_mono h

/-- The number of days of a month is not negative. -/
theorem daysInMonth_nonneg (date : QDateTime) (lookBack : Bool) : 0 ≤ daysInMonth date lookBack := by
  have key : ∀ d : QDate, 0 ≤ QDate.daysInMonth d := by
    intro d
    cases d with
    | none => simp [QDate.daysInMonth]
    | some z =>
      simp only [QDate.daysInMonth, daysInMonthOf]
      split_ifs <;> omega
  exact key _

/-- Converting an integer up to `2 ^ 53` in absolute value to `qreal` is exact. -/
theorem ofInt_eq (n : Int) (hb : |n| ≤ 2 ^ 53) : ofInt n = (n : ℚ) :=
  roundDouble_intCast n hb

/-- The product of two `qreal`s that is an integer multiple of `2 ^ k`, up to `2 ^ (53 + k)` in
absolute value, is exact. -/
theorem dmul_eq_intCast (a c : ℚ) (n : Int) (k : Nat) (hn : a * c = (n : ℚ))
    (hd : (2 : Int) ^ k ∣ n) (hb : |n| ≤ 2 ^ (53 + k)) : dmul a c = (n : ℚ) := by
  unfold dmul
  rw [hn]
  exact roundDouble_intCast_of_dvd n k hd hb

/-- The sum of two integral `qreal`s is exact when it is at most `2 ^ 53` in absolute value. -/
theorem dadd_intCast (a b : Int) (hb : |a + b| ≤ 2 ^ 53) :
    dadd (a : ℚ) (b : ℚ) = ((a + b : Int) : ℚ) := by
  unfold dadd
  rw [← Int.cast_add]
  exact roundDouble_intCast _ hb

/-- The products `value * 1000 * 60 * 60 * 24 * 7` of `addUnit` are exact for the value of an
`int`. -/
theorem dmul_chain_int (v : Int) (hv : |v| ≤ 2 ^ 31) :
    dmul (v : ℚ) 1000 = ((v * 1000 : Int) : ℚ) ∧
    dmul ((v * 1000 : Int) : ℚ) 60 = ((v * 60000 : Int) : ℚ) ∧
    dmul ((v * 60000 : Int) : ℚ) 60 = ((v * 3600000 : Int) : ℚ) ∧
    dmul ((v * 3600000 : Int) : ℚ) 24 = ((v * 86400000 : Int) : ℚ) ∧
    dmul ((v * 86400000 : Int) : ℚ) 7 = ((v * 604800000 : Int) : ℚ) := by
  have hv' := abs_le.mp hv
  refine ⟨?_, ?_, ?_, ?_, ?_⟩
  · exact dmul_eq_intCast _ _ _ 0 (by push_cast; ring) (by simp)
      (by rw [abs_le]; constructor <;> omega)
  · exact dmul_eq_intCast _ _ _ 0 (by push_cast; ring) (by simp)
      (by rw [abs_le]; constructor <;> omega)
  · exact dmul_eq_intCast _ _ _ 0 (by push_cast; ring) (by simp)
      (by rw [abs_le]; constructor <;> omega)
  · exact dmul_eq_intCast _ _ _ 10 (by push_cast; ring) ⟨v * 84375, by ring⟩
      (by rw [abs_le]; constructor <;> omega)
  · exact dmul_eq_intCast _ _ _ 10 (by push_cast; ring) ⟨v * 590625, by ring⟩
      (by rw [abs_le]; constructor <;> omega)

/-- The length of a unit is not negative. -/
theorem unitFactor_nonneg (u : TimeSpanUnit) : 0 ≤ unitFactor u := by
  cases u <;> simp [unitFactor]

/-- Adding the value of an `int` for a fixed unit adds value × unit length to the interval, as
long as the interval before and after is at most `2 ^ 53` in absolute value. -/
theorem addUnit_fixed (sp : QTimeSpan) (u : TimeSpanUnit) (v : Int) (hu : u.isFixed = true)
    (hv : |v| ≤ 2 ^ 31) (hs : |sp.interval| ≤ 2 ^ 53)
    (hs' : |sp.interval + v * unitFactor u| ≤ 2 ^ 53) :
    addUnit sp u (ofInt v) = some { sp with interval := sp.interval + v * unitFactor u } := by
  obtain ⟨c1, c2, c3, c4, c5⟩ := dmul_chain_int v hv
  have hvv : ofInt v = (v : ℚ) := ofInt_eq v (hv.trans (by norm_num))
  have hss : ofInt sp.interval = (sp.interval : ℚ) := ofInt_eq _ hs
  cases u <;> first
    | exact absurd hu (by decide)
    | (simp only [unitFactor] at hs'
       simp only [addUnit, TimeSpanUnit.value, unitFactor, ge_iff_le, Nat.reduceLeDiff,
        if_false, Option.some.injEq, hvv, hss, c1, c2, c3, c4, c5]
       congr 1
       rw [dadd_intCast _ _ (by rw [abs_le] at hs' ⊢; constructor <;> omega), truncQ_intCast]
       all_goals omega)

/-- The sum of the magnitudes value × unit length over a list of keys is not negative. -/
theorem magnitude_sum_nonneg (g : TimePartHash) (order : List TimeSpanUnit) :
    0 ≤ (order.map (fun u => |(g.value u).getD 0| * unitFactor u)).sum :=
  List.sum_nonneg (fun x hx => by
    obtain ⟨u, _, rfl⟩ := List.mem_map.mp hx
    exact mul_nonneg (abs_nonneg _) (unitFactor_nonneg u))

/-- The last loop of `fromString` for a hash without entries for months and years, whose
entries are values of an `int`: the interval grows by the sum of value × unit length over the
visited keys, as long as the interval and the magnitudes of the summands together are at most
`2 ^ 53`, so that every sum is computed exactly. -/
theorem addUnits_spec (g : TimePartHash) (hM : g.months = none) (hY : g.years = none)
    (hv : ∀ u v, g.value u = some v → |v| ≤ 2 ^ 31)
    (order : List TimeSpanUnit) (sp : QTimeSpan)
    (hb : |sp.interval| + (order.map (fun u => |(g.value u).getD 0| * unitFactor u)).sum
      ≤ 2 ^ 53) :
    addUnits g order sp = some { sp with interval :=
      sp.interval + (order.map (fun u => (g.value u).getD 0 * unitFactor u)).sum } := by
  induction order generalizing sp with
  | nil => simp [addUnits]
  | cons u rest ih =>
    simp only [addUnits, List.map_cons, List.sum_cons] at hb ⊢
    have hrest := magnitude_sum_nonneg g rest
    cases hval : g.value u with
    | none =>
      simp only [hval, Option.getD_none, abs_zero, zero_mul, zero_add] at hb ⊢
      exact ih sp hb
    | some v =>
      have hfix : u.isFixed = true := by
        cases u <;> simp_all [TimePartHash.value, TimeSpanUnit.isFixed]
      simp only [hval, Option.getD_some] at hb ⊢
      have hf := unitFactor_nonneg u
      have hvf : |v * unitFactor u| = |v| * unitFactor u := by
        rw [abs_mul, abs_of_nonneg hf]
      have hvf0 : 0 ≤ |v| * unitFactor u := mul_nonneg (abs_nonneg _) hf
      have hs : |sp.interval| ≤ 2 ^ 53 := by
        have := abs_nonneg sp.interval
        linarith
      have hadd : |sp.interval + v * unitFactor u| ≤ |sp.interval| + |v| * unitFactor u := by
        rw [← hvf]
        exact abs_add _ _
      have hs' : |sp.interval + v * unitFactor u| ≤ 2 ^ 53 := by linarith
      rw [addUnit_fixed sp u v hfix (hv u v hval) hs hs']
      simp only
      rw [ih _ (by simp only; linarith)]
      simp only [Option.some.injEq, QTimeSpan.mk.injEq, and_true]
      ring

/-! ### The rounding of the products of `setFromMonths` -/

/-- A span has no valid reference date exactly when its reference is the invalid date-time. -/
theorem hasValidReference_eq_false_iff (s : QTimeSpan) :
    s.hasValidReference = false ↔ s.reference = none := by
  cases s with
  | mk i r => cases r <;> simp [QTimeSpan.hasValidReference, QDateTime.isValid]

/-- C7: for every span without a valid reference and every request that includes years or
months, `parts` returns `false`, whatever the interval and the other requested units. -/
theorem parts_fails_without_reference (s : QTimeSpan) (req : PartsRequest)
    (href : s.hasValidReference = false)
    (hreq : req.yearsPtr = true ∨ req.monthsPtr = true) :
    s.parts req = none := by
  unfold QTimeSpan.parts
  rcases hreq with h | h <;> simp [h, href]

/-- Witness of C7: the span of 5000 ms without reference, years and seconds requested. -/
theorem parts_fails_without_reference_witness :
    (QTimeSpan.ofMSecs 5000).parts ⟨false, true, false, false, false, false, false, true, false⟩
      = none :=
  parts_fails_without_reference (QTimeSpan.ofMSecs 5000)
    ⟨false, true, false, false, false, false, false, true, false⟩ (by decide) (by decide)

/-- The mask `AllUnits ^ (Months | Years)` applied to one unit flag. -/
theorem mask_land_value (u : TimeSpanUnit) :
    (AllUnits ^^^ (Months.value ||| Years.value)) &&& u.value
      = if u.isFixed then u.value else 0 := by
  cases u <;> decide

/-- Removing the `Months` and `Years` flags keeps the flag of every fixed unit. -/
theorem testFlag_unsetMonthsYears_fixed (F : TimeSpanFormat) (u : TimeSpanUnit)
    (hu : u.isFixed = true) : testFlag (unsetMonthsYears F) u = testFlag F u := by
  have hv : (u.value != 0) = true := by
    cases u <;> simp_all [TimeSpanUnit.isFixed, TimeSpanUnit.value]
  unfold testFlag unsetMonthsYears
  rw [Nat.land_assoc, mask_land_value, hu]
  simp [hv]

/-- After removing the `Months` and `Years` flags neither of them is set. -/
theorem testFlag_unsetMonthsYears_months (F : TimeSpanFormat) :
    testFlag (unsetMonthsYears F) Months = false ∧
    testFlag (unsetMonthsYears F) Years = false := by
  constructor <;>
    (unfold testFlag unsetMonthsYears
     rw [Nat.land_assoc, mask_land_value]
     simp [TimeSpanUnit.isFixed, TimeSpanUnit.value])

/-- A pointer that falls back on a non-null pointer is not null. -/
theorem orElse_isSome (a b : Option Int) (hb : b.isSome = true) :
    (a.orElse (fun _ => b)).isSome = true := by
  cases a <;> simp [Option.orElse, hb]

/-- A successful `fill` keeps a non-null pointer for every unit of the hash. -/
theorem fill_value_isSome (h h2 : TimePartHash) (s : QTimeSpan) (u : TimeSpanUnit)
    (hfill : h.fill s = some h2) (hu : (h.value u).isSome = true) :
    (h2.value u).isSome = true := by
  unfold TimePartHash.fill at hfill
  cases hp : s.parts h.request with
  | none => simp [hp] at hfill
  | some r =>
    simp only [hp, Option.some.injEq] at hfill
    subst hfill
    cases u <;> first
      | exact orElse_isSome _ _ hu
      | simp [TimePartHash.value] at hu

/-- Formats with the same flags for the eight units give the same fresh hash. -/
theorem ofFormat_congr (F F' : TimeSpanFormat)
    (h : ∀ v, v ≠ NoUnit → testFlag F' v = testFlag F v) :
    TimePartHash.ofFormat F' = TimePartHash.ofFormat F := by
  simp only [TimePartHash.ofFormat, h Milliseconds (by decide), h Seconds (by decide),
    h Minutes (by decide), h Hours (by decide), h Days (by decide), h Weeks (by decide),
    h Months (by decide), h Years (by decide)]

/-- C8: for every span without a valid reference, every fixed unit `u` and every format `F` that
contains `u` together with `Months` and/or `Years`, `part(u, F)` does not fail and equals
`part(u, F')` for every format `F'` that is `F` with `Months` and `Years` removed (the same
flags for the fixed units, `Months` and `Years` unset). -/
theorem part_without_reference_drops_months_years (s : QTimeSpan) (u : TimeSpanUnit)
    (F F' : TimeSpanFormat) (href : s.hasValidReference = false) (hu : u.isFixed = true)
    (hF : testFlag F u = true)
    (hMY : testFlag F Months = true ∨ testFlag F Years = true)
    (hsame : ∀ v, v.isFixed = true → testFlag F' v = testFlag F v)
    (hM' : testFlag F' Months = false) (hY' : testFlag F' Years = false) :
    s.part u F = s.part u F' ∧ (s.part u F).isSome = true := by
  have hne : (u == Months || u == Years) = false := by cases u <;> simp_all [TimeSpanUnit.isFixed]
  have hF' : testFlag F' u = true := by rw [hsame u hu]; exact hF
  have hMY2 := testFlag_unsetMonthsYears_months F
  have hMYb : (testFlag F Months || testFlag F Years) = true := by
    rcases hMY with h | h <;> simp [h]
  have hhash : TimePartHash.ofFormat (unsetMonthsYears F) = TimePartHash.ofFormat F' := by
    apply ofFormat_congr
    intro v hv
    by_cases hfix : v.isFixed = true
    · rw [testFlag_unsetMonthsYears_fixed F v hfix, hsame v hfix]
    · cases v <;> simp_all [TimeSpanUnit.isFixed]
  have e1 : s.part u F =
      (match (TimePartHash.ofFormat F').fill s with
        | none => some 0
        | some partsHash => partsHash.value u) := by
    rw [← hhash]
    simp [QTimeSpan.part, hF, href, hne, hMYb]
  have e2 : s.part u F' =
      (match (TimePartHash.ofFormat F').fill s with
        | none => some 0
        | some partsHash => partsHash.value u) := by
    simp [QTimeSpan.part, hF', href, hne, hM', hY']
  refine ⟨by rw [e1, e2], ?_⟩
  rw [e1]
  cases hfill : (TimePartHash.ofFormat F').fill s with
  | none => rfl
  | some h2 =>
    apply fill_value_isSome _ h2 s u hfill
    cases u <;> simp_all [TimeSpanUnit.isFixed, TimePartHash.ofFormat, TimePartHash.value]

/-- Witness of C8: the seconds part of 90 s without reference in the format
`Years | Months | Minutes | Seconds` (198) and in the format `Minutes | Seconds` (6). -/
theorem part_without_reference_drops_months_years_witness :
    (QTimeSpan.ofMSecs 90000).part Seconds 198 = (QTimeSpan.ofMSecs 90000).part Seconds 6 ∧
      ((QTimeSpan.ofMSecs 90000).part Seconds 198).isSome = true :=
  part_without_reference_drops_months_years (QTimeSpan.ofMSecs 90000) Seconds 198 6
    (by decide) (by decide) (by decide) (by decide)
    (by intro v hv; cases v <;> first | decide | exact absurd hv (by decide))
    (by decide) (by decide)

/-! ### Evaluations of `parts` at inputs where it departs from its documentation -/

/-- C2 (defect of the code): the span of -1500 ms with seconds and milliseconds requested.
`parts` succeeds with seconds = -1 and milliseconds = -1500: the remainder is not taken after
a negative seconds value, and the values add up to -2500 ms instead of -1500 ms. -/
theorem parts_negative_seconds_keeps_residual :
    ((QTimeSpan.ofMSecs (-1500)).parts
        ⟨true, true, false, false, false, false, false, false, false⟩).map PartsResult.values
      = some [some (-1500), some (-1), none, none, none, none, none, none] ∧
    (-1 : Int) * 1000 + (-1500) ≠ -1500 := by
  decide

/-- C3 (defect of the code): the span of -2147483649 ms with only milliseconds requested.
The limit check tests the upper bound only, `parts` succeeds and the value written is the
wrapped 2147483647 instead of the quotient -2147483649. -/
theorem parts_negative_overflow_not_detected :
    CHECK_INT_LIMIT (-2147483649) 1 = false ∧
    ((QTimeSpan.ofMSecs (-2147483649)).parts
        ⟨true, false, false, false, false, false, false, false, false⟩).map PartsResult.values
      = some [some 2147483647, none, none, none, none, none, none, none] := by
  decide

/-- C4 (defect of the code): the span from 2010-01-01T12:00 to 2011-01-01T06:00 has a positive
interval, yet with years and hours requested `parts` reports years = 1 and hours = -6. -/
theorem parts_positive_span_negative_hours :
    (QTimeSpan.dateTimeDiff (QDateTime.ofFields 2011 1 1 6 0 0 0)
        (QDateTime.ofFields 2010 1 1 12 0 0 0)).interval = 31514400000 ∧
    ((QTimeSpan.dateTimeDiff (QDateTime.ofFields 2011 1 1 6 0 0 0)
        (QDateTime.ofFields 2010 1 1 12 0 0 0)).parts
        ⟨false, false, false, true, false, false, false, true, false⟩).map PartsResult.values
      = some [none, none, none, some (-6), none, none, none, some 1] := by
  decide

/-- C5 (defect of the code): the span with reference 2012-01-01T00:00 and interval of -730 days
(referenced date 2010-01-01T00:00) is negative, yet `parts` reports years = 2. -/
theorem parts_negative_span_positive_years :
    ((QTimeSpan.ofReference (QDateTime.ofFields 2012 1 1 0 0 0 0) (-63072000000)).parts
        ⟨false, false, false, false, false, false, false, true, false⟩).map PartsResult.values
      = some [none, none, none, none, none, none, none, some 2] := by
  decide

/-- C6 (defect of the code): for the span from 2010-03-15T18:00 to 2012-03-15T09:00 `parts`
reports years = 2, although the start advanced by 2 years is later than the end; the number of
complete years is 1. -/
theorem parts_years_ignores_time_of_day :
    ((QTimeSpan.dateTimeDiff (QDateTime.ofFields 2012 3 15 9 0 0 0)
        (QDateTime.ofFields 2010 3 15 18 0 0 0)).parts
        ⟨false, false, false, false, false, false, false, true, false⟩).map PartsResult.values
      = some [none, none, none, none, none, none, none, some 2] ∧
    QDateTime.lt (QDateTime.ofFields 2012 3 15 9 0 0 0)
      (QDateTime.addYears (QDateTime.ofFields 2010 3 15 18 0 0 0) 2) = true ∧
    QDateTime.le (QDateTime.addYears (QDateTime.ofFields 2010 3 15 18 0 0 0) 1)
      (QDateTime.ofFields 2012 3 15 9 0 0 0) = true := by
  decide

/-- C9 (defect of the code): the span of -270000 ms (minus 4 minutes 30 seconds) with minutes
requested together with the fractional value. `parts` reports minutes = -4 and the fractional
value 4.5, whose truncation 4 is not the minutes value. For the span of +270000 ms the values
are 4 and 4.5, as documented. -/
theorem parts_fraction_loses_sign :
    ((QTimeSpan.ofMSecs (-270000)).parts
        ⟨false, false, true, false, false, false, false, false, true⟩).map
        (fun r => (r.minutes, r.fractionalSmallestUnit))
      = some (some (-4), some (9 / 2)) ∧
    truncQ (9 / 2) = 4 ∧
    ((QTimeSpan.ofMSecs 270000).parts
        ⟨false, false, true, false, false, false, false, false, true⟩).map
        (fun r => (r.minutes, r.fractionalSmallestUnit))
      = some (some 4, some (9 / 2)) := by
  decide!

/-! ### `setFromMonths` -/

/-- Advancing a valid date-time by calendar months gives a valid date-time. -/
theorem addMonths_some (r n : Int) : ∃ e, QDateTime.addMonths (some r) n = some e := by
  simp [QDateTime.addMonths, QDateTime.date, QDateTime.time, QDate.addMonths, QDate.fixedDate,
    QDateTime.ofDateTime]

/-- The result of `setFromMonths` on a span with a valid reference, written out. -/
theorem setFromMonths_of_valid (r i0 : Int) (months : ℚ) :
    (QTimeSpan.ofReference (some r) i0).setFromMonths months =
      some (QTimeSpan.ofReference (some r)
        (QDateTime.msecsTo (some r) (QDateTime.addMonths (some r) (truncQ months)) +
          truncQ (dmul (dmul (dmul (dmul (dmul (dsub months (ofInt (truncQ months)))
            (ofInt (daysInMonth (QDateTime.addMonths (some r) (truncQ months))
              (decide (dsub months (ofInt (truncQ months)) < 0))))) 24) 60) 60) 1000))) := by
  obtain ⟨e, he⟩ := addMonths_some r (truncQ months)
  simp [QTimeSpan.setFromMonths, QTimeSpan.hasValidReference, QDateTime.isValid,
    QTimeSpan.ofReference, QTimeSpan.dateTimeDiff, QTimeSpan.toMSecs, he]

/-- Narrowing to `int` keeps a value between 0 and `INT_MAX`. -/
theorem toInt32_of_nonneg {x : Int} (h0 : 0 ≤ x) (h1 : x < 2147483647) : toInt32 x = x := by
  unfold toInt32; omega

/-- The milliseconds block on a non-negative residual. -/
theorem partsMSecs_spec {req : PartsRequest} {L : Int} {r r' : PartsResult} (hL : 0 ≤ L)
    (hfrac : req.fractionalSmallestUnit = false) (hlow : r.mseconds = none)
    (h : partsMSecs req L r = some r') :
    r'.seconds = r.seconds ∧ r'.minutes = r.minutes ∧ r'.hours = r.hours ∧ r'.days = r.days ∧
    r'.weeks = r.weeks ∧ r'.months = r.months ∧ r'.years = r.years ∧
    Written req.msecondsPtr r'.mseconds ∧
    (req.msecondsPtr = true → r'.mseconds.getD 0 = L) := by
  unfold partsMSecs at h
  cases hm : req.msecondsPtr
  · simp [hm] at h; subst h; simp [Written, hlow]
  · simp [hm, hfrac, CHECK_INT_LIMIT] at h
    obtain ⟨h1, h⟩ := h
    subst h
    simp [Written, toInt32_of_nonneg hL h1, hL, h1]

/-- The seconds block and what follows it, on a non-negative residual. -/
theorem partsSeconds_spec (self : QTimeSpan) {req : PartsRequest} {L : Int} {r r' : PartsResult}
    (hL : 0 ≤ L) (hfrac : req.fractionalSmallestUnit = false)
    (hlow : r.seconds = none ∧ r.mseconds = none)
    (h : partsSeconds self req NoUnit L r = some r') :
    r'.minutes = r.minutes ∧ r'.hours = r.hours ∧ r'.days = r.days ∧
    r'.weeks = r.weeks ∧ r'.months = r.months ∧ r'.years = r.years ∧
    Written req.secondsPtr r'.seconds ∧ Written req.msecondsPtr r'.mseconds ∧
    (req.msecondsPtr = true → r'.seconds.getD 0 * 1000 + r'.mseconds.getD 0 = L) := by
  unfold partsSeconds at h
  cases hm : req.secondsPtr
  · simp only [hm, Bool.false_eq_true, if_false] at h
    obtain ⟨h1, h2, h3, h4, h5, h6, h7, h8, h9⟩ := partsMSecs_spec hL hfrac hlow.2 h
    refine ⟨h2, h3, h4, h5, h6, h7, ?_, h8, ?_⟩
    · simp [Written, h1, hlow.1]
    · intro hms; simp [h1, hlow.1, h9 hms]
  · simp [hm, CHECK_INT_LIMIT] at h
    obtain ⟨hc, h⟩ := h
    have hq0 : 0 ≤ L / 1000 := by omega
    have hq1 : L / 1000 < 2147483647 := by omega
    rw [Int.tdiv_eq_ediv hL (by norm_num), Int.tmod_eq_emod hL (by norm_num),
      toInt32_of_nonneg hq0 hq1] at h
    have hL' : 0 ≤ (if 0 < L / 1000 then L % 1000 else L) := by split <;> omega
    obtain ⟨h1, h2, h3, h4, h5, h6, h7, h8, h9⟩ := partsMSecs_spec hL' hfrac (by exact hlow.2) h
    refine ⟨h2, h3, h4, h5, h6, h7, ?_, h8, ?_⟩
    · simp only [Written, if_true]; exact ⟨_, h1, hq0, hq1⟩
    · intro hms
      rw [h1, h9 hms]
      simp only [Option.getD_some]
      split <;> omega

/-- The minutes block and what follows it, on a non-negative residual. -/
theorem partsMinutes_spec (self : QTimeSpan) {req : PartsRequest} {L : Int} {r r' : PartsResult}
    (hL : 0 ≤ L) (hfrac : req.fractionalSmallestUnit = false)
    (hlow : r.minutes = none ∧ r.seconds = none ∧ r.mseconds = none)
    (h : partsMinutes self req NoUnit L r = some r') :
    r'.hours = r.hours ∧ r'.days = r.days ∧ r'.weeks = r.weeks ∧ r'.months = r.months ∧ r'.years = r.years ∧
    Written req.minutesPtr r'.minutes ∧ Written req.secondsPtr r'.seconds ∧ Written req.msecondsPtr r'.mseconds ∧
    (req.msecondsPtr = true → r'.minutes.getD 0 * 60000 + r'.seconds.getD 0 * 1000 + r'.mseconds.getD 0 = L) := by
  unfold partsMinutes at h
  cases hm : req.minutesPtr
  · simp only [hm, Bool.false_eq_true, if_false] at h
    obtain ⟨e2, e3, e4, e5, e6, e7, w1, w0, hs⟩ := partsSeconds_spec self hL hfrac hlow.2 h
    refine ⟨e3, e4, e5, e6, e7, ?_, w1, w0, ?_⟩
    · simp [Written, e2, hlow.1]
    · intro hms; simp [e2, hlow.1, hs hms]
  · simp [hm, CHECK_INT_LIMIT] at h
    obtain ⟨hc, h⟩ := h
    have hq0 : 0 ≤ L / 60000 := by omega
    have hq1 : L / 60000 < 2147483647 := by omega
    rw [Int.tdiv_eq_ediv hL (by norm_num), Int.tmod_eq_emod hL (by norm_num),
      toInt32_of_nonneg hq0 hq1] at h
    have hL' : 0 ≤ (if L / 60000 = 0 then L else L % 60000) := by split <;> omega
    obtain ⟨e2, e3, e4, e5, e6, e7, w1, w0, hs⟩ := partsSeconds_spec self hL' hfrac (by exact hlow.2) h
    refine ⟨e3, e4, e5, e6, e7, ?_, w1, w0, ?_⟩
    · simp only [Written, if_true]; exact ⟨_, e2, hq0, hq1⟩
    · intro hms
      have hs' := hs hms
      rw [e2]
      simp only [Option.getD_some]
      split at hs' <;> omega

/-- The hours block and what follows it, on a non-negative residual. -/
theorem partsHours_spec (self : QTimeSpan) {req : PartsRequest} {L : Int} {r r' : PartsResult}
    (hL : 0 ≤ L) (hfrac : req.fractionalSmallestUnit = false)
    (hlow : r.hours = none ∧ r.minutes = none ∧ r.seconds = none ∧ r.mseconds = none)
    (h : partsHours self req NoUnit L r = some r') :
    r'.days = r.days ∧ r'.weeks = r.weeks ∧ r'.months = r.months ∧ r'.years = r.years ∧
    Written req.hoursPtr r'.hours ∧ Written req.minutesPtr r'.minutes ∧ Written req.secondsPtr r'.seconds ∧ Written req.msecondsPtr r'.mseconds ∧
    (req.msecondsPtr = true → r'.hours.getD 0 * 3600000 + r'.minutes.getD 0 * 60000 + r'.seconds.getD 0 * 1000 + r'.mseconds.getD 0 = L) := by
  unfold partsHours at h
  cases hm : req.hoursPtr
  · simp only [hm, Bool.false_eq_true, if_false] at h
    obtain ⟨e3, e4, e5, e6, e7, w2, w1, w0, hs⟩ := partsMinutes_spec self hL hfrac hlow.2 h
    refine ⟨e4, e5, e6, e7, ?_, w2, w1, w0, ?_⟩
    · simp [Written, e3, hlow.1]
    · intro hms; simp [e3, hlow.1, hs hms]
  · simp [hm, CHECK_INT_LIMIT] at h
    obtain ⟨hc, h⟩ := h
    have hq0 : 0 ≤ L / 3600000 := by omega
    have hq1 : L / 3600000 < 2147483647 := by omega
    rw [Int.tdiv_eq_ediv hL (by norm_num), Int.tmod_eq_emod hL (by norm_num),
      toInt32_of_nonneg hq0 hq1] at h
    have hL' : 0 ≤ (if L / 3600000 = 0 then L else L % 3600000) := by split <;> omega
    obtain ⟨e3, e4, e5, e6, e7, w2, w1, w0, hs⟩ := partsMinutes_spec self hL' hfrac (by exact hlow.2) h
    refine ⟨e4, e5, e6, e7, ?_, w2, w1, w0, ?_⟩
    · simp only [Written, if_true]; exact ⟨_, e3, hq0, hq1⟩
    · intro hms
      have hs' := hs hms
      rw [e3]
      simp only [Option.getD_some]
      split at hs' <;> omega

/-- The days block and what follows it, on a non-negative residual. -/
theorem partsDays_spec (self : QTimeSpan) {req : PartsRequest} {L : Int} {r r' : PartsResult}
    (hL : 0 ≤ L) (hfrac : req.fractionalSmallestUnit = false)
    (hlow : r.days = none ∧ r.hours = none ∧ r.minutes = none ∧ r.seconds = none ∧ r.mseconds = none)
    (h : partsDays self req NoUnit L r = some r') :
    r'.weeks = r.weeks ∧ r'.months = r.months ∧ r'.years = r.years ∧
    Written req.daysPtr r'.days ∧ Written req.hoursPtr r'.hours ∧ Written req.minutesPtr r'.minutes ∧ Written req.secondsPtr r'.seconds ∧ Written req.msecondsPtr r'.mseconds ∧
    (req.msecondsPtr = true → r'.days.getD 0 * 86400000 + r'.hours.getD 0 * 3600000 + r'.minutes.getD 0 * 60000 + r'.seconds.getD 0 * 1000 + r'.mseconds.getD 0 = L) := by
  unfold partsDays at h
  cases hm : req.daysPtr
  · simp only [hm, Bool.false_eq_true, if_false] at h
    obtain ⟨e4, e5, e6, e7, w3, w2, w1, w0, hs⟩ := partsHours_spec self hL hfrac hlow.2 h
    refine ⟨e5, e6, e7, ?_, w3, w2, w1, w0, ?_⟩
    · simp [Written, e4, hlow.1]
    · intro hms; simp [e4, hlow.1, hs hms]
  · simp [hm, CHECK_INT_LIMIT] at h
    obtain ⟨hc, h⟩ := h
    have hq0 : 0 ≤ L / 86400000 := by omega
    have hq1 : L / 86400000 < 2147483647 := by omega
    rw [Int.tdiv_eq_ediv hL (by norm_num), Int.tmod_eq_emod hL (by norm_num),
      toInt32_of_nonneg hq0 hq1] at h
    have hL' : 0 ≤ (if L / 86400000 = 0 then L else L % 86400000) := by split <;> omega
    obtain ⟨e4, e5, e6, e7, w3, w2, w1, w0, hs⟩ := partsHours_spec self hL' hfrac (by exact hlow.2) h
    refine ⟨e5, e6, e7, ?_, w3, w2, w1, w0, ?_⟩
    · simp only [Written, if_true]; exact ⟨_, e4, hq0, hq1⟩
    · intro hms
      have hs' := hs hms
      rw [e4]
      simp only [Option.getD_some]
      split at hs' <;> omega

/-- The weeks block and what follows it, on a non-negative residual. -/
theorem partsWeeks_spec (self : QTimeSpan) {req : PartsRequest} {L : Int} {r r' : PartsResult}
    (hL : 0 ≤ L) (hfrac : req.fractionalSmallestUnit = false)
    (hlow : r.weeks = none ∧ r.days = none ∧ r.hours = none ∧ r.minutes = none ∧ r.seconds = none ∧ r.mseconds = none)
    (h : partsWeeks self req NoUnit L r = some r') :
    r'.months = r.months ∧ r'.years = r.years ∧
    Written req.weeksPtr r'.weeks ∧ Written req.daysPtr r'.days ∧ Written req.hoursPtr r'.hours ∧ Written req.minutesPtr r'.minutes ∧ Written req.secondsPtr r'.seconds ∧ Written req.msecondsPtr r'.mseconds ∧
    (req.msecondsPtr = true → r'.weeks.getD 0 * 604800000 + r'.days.getD 0 * 86400000 + r'.hours.getD 0 * 3600000 + r'.minutes.getD 0 * 60000 + r'.seconds.getD 0 * 1000 + r'.mseconds.getD 0 = L) := by
  unfold partsWeeks at h
  cases hm : req.weeksPtr
  · simp only [hm, Bool.false_eq_true, if_false] at h
    obtain ⟨e5, e6, e7, w4, w3, w2, w1, w0, hs⟩ := partsDays_spec self hL hfrac hlow.2 h
    refine ⟨e6, e7, ?_, w4, w3, w2, w1, w0, ?_⟩
    · simp [Written, e5, hlow.1]
    · intro hms; simp [e5, hlow.1, hs hms]
  · simp [hm, CHECK_INT_LIMIT] at h
    obtain ⟨hc, h⟩ := h
    have hq0 : 0 ≤ L / 604800000 := by omega
    have hq1 : L / 604800000 < 2147483647 := by omega
    rw [Int.tdiv_eq_ediv hL (by norm_num), Int.tmod_eq_emod hL (by norm_num),
      toInt32_of_nonneg hq0 hq1] at h
    have hL' : 0 ≤ (if L / 604800000 = 0 then L else L % 604800000) := by split <;> omega
    obtain ⟨e5, e6, e7, w4, w3, w2, w1, w0, hs⟩ := partsDays_spec self hL' hfrac (by exact hlow.2) h
    refine ⟨e6, e7, ?_, w4, w3, w2, w1, w0, ?_⟩
    · simp only [Written, if_true]; exact ⟨_, e5, hq0, hq1⟩
    · intro hms
      have hs' := hs hms
      rw [e5]
      simp only [Option.getD_some]
      split at hs' <;> omega

/-- The decomposition of a non-negative span into fixed units: every requested unit receives a
value between 0 and `INT_MAX - 1`, nothing else is written, and when milliseconds are requested
the values add up to the interval. -/
theorem parts_fixed_spec (s : QTimeSpan) (req : PartsRequest) (r' : PartsResult)
    (hL : 0 ≤ s.interval) (hy : req.yearsPtr = false) (hmo : req.monthsPtr = false)
    (hfrac : req.fractionalSmallestUnit = false) (h : s.parts req = some r') :
    r'.months = none ∧ r'.years = none ∧
    Written req.weeksPtr r'.weeks ∧ Written req.daysPtr r'.days ∧
    Written req.hoursPtr r'.hours ∧ Written req.minutesPtr r'.minutes ∧
    Written req.secondsPtr r'.seconds ∧ Written req.msecondsPtr r'.mseconds ∧
    (req.msecondsPtr = true → r'.totalMSecs = s.interval) := by
  have hs : smallestRequested req = NoUnit := by simp [smallestRequested, hfrac]
  simp only [QTimeSpan.parts, hy, hmo, hs, Bool.or_self, Bool.false_eq_true, if_false,
    QTimeSpan.toMSecs] at h
  obtain ⟨e6, e7, w5, w4, w3, w2, w1, w0, hsum⟩ :=
    partsWeeks_spec s hL hfrac (by simp [PartsResult.empty]) h
  refine ⟨e6, e7, w5, w4, w3, w2, w1, w0, ?_⟩
  intro hms
  have := hsum hms
  simp only [PartsResult.totalMSecs, unitFactor]
  omega

/-- A value that `parts` has written replaces the initial 0 of the hash; a unit that is not
requested keeps its null pointer. -/
theorem orElse_of_written {b : Bool} {o : Option Int} (hw : Written b o) :
    o.orElse (fun _ => if b then some (0 : Int) else none) = o := by
  cases b
  · simp only [Written, Bool.false_eq_true, if_false] at hw; subst hw; rfl
  · simp only [Written, if_true] at hw; obtain ⟨v, hv, _⟩ := hw; subst hv; rfl

/-- The hash filled for a non-negative span and a format of fixed units: a value between 0 and
`INT_MAX - 1` for every unit of the format, a null pointer for every other unit, and when the
format contains milliseconds the values add up to the interval. -/
theorem fill_fixed_spec (F : TimeSpanFormat) (s : QTimeSpan) (h : TimePartHash)
    (hL : 0 ≤ s.interval) (hM : testFlag F Months = false) (hY : testFlag F Years = false)
    (hfill : (TimePartHash.ofFormat F).fill s = some h) :
    (∀ u, u ≠ NoUnit → Written (testFlag F u) (h.value u)) ∧
    (testFlag F Milliseconds = true → h.totalMSecs = s.interval) := by
  unfold TimePartHash.fill at hfill
  cases hp : s.parts (TimePartHash.ofFormat F).request with
  | none => simp [hp] at hfill
  | some r =>
    simp only [hp, Option.some.injEq] at hfill
    have hreq : (TimePartHash.ofFormat F).request =
        ⟨testFlag F Milliseconds, testFlag F Seconds, testFlag F Minutes, testFlag F Hours,
          testFlag F Days, testFlag F Weeks, false, false, false⟩ := by
      simp only [TimePartHash.request, TimePartHash.ofFormat, hM, hY]
      congr 1 <;> split <;> simp_all
    rw [hreq] at hp
    obtain ⟨e6, e7, w5, w4, w3, w2, w1, w0, hsum⟩ := parts_fixed_spec s _ r hL rfl rfl rfl hp
    simp only at w5 w4 w3 w2 w1 w0 hsum
    have k0 := orElse_of_written w0
    have k1 := orElse_of_written w1
    have k2 := orElse_of_written w2
    have k3 := orElse_of_written w3
    have k4 := orElse_of_written w4
    have k5 := orElse_of_written w5
    have n1 : ∀ f : Unit → Option Int, (none : Option Int).orElse f = f () := fun _ => rfl
    simp only [TimePartHash.ofFormat, hM, hY, Bool.false_eq_true, if_false, k0, k1, k2, k3, k4,
      k5, e6, e7, n1] at hfill
    subst hfill
    constructor
    · intro u hu
      cases u
      · exact absurd rfl hu
      · simpa [TimePartHash.value] using w0
      · simpa [TimePartHash.value] using w1
      · simpa [TimePartHash.value] using w2
      · simpa [TimePartHash.value] using w3
      · simpa [TimePartHash.value] using w4
      · simpa [TimePartHash.value] using w5
      · simp [Written, TimePartHash.value, hM]
      · simp [Written, TimePartHash.value, hY]
    · intro hms
      have := hsum hms
      simp only [TimePartHash.totalMSecs, hashKeys, TimePartHash.value, List.map, List.sum_cons,
        List.sum_nil, PartsResult.totalMSecs] at this ⊢
      simp only [unitFactor, Option.getD_none] at this ⊢
      omega

/-! ### The tokenizer -/

/-- The flag test of a unit reads one bit of the format. -/
theorem testFlag_eq_testBit (F : TimeSpanFormat) (u : TimeSpanUnit) (hu : u ≠ NoUnit) :
    testFlag F u = F.testBit u.bitIndex := by
  have hv : u.value = 2 ^ u.bitIndex := by cases u <;> first | rfl | exact absurd rfl hu
  have hpos : 0 < 2 ^ u.bitIndex := Nat.two_pow_pos _
  unfold testFlag
  rw [hv, Nat.and_two_pow]
  cases F.testBit u.bitIndex <;> simp [hpos.ne', hpos.ne]

/-- Setting the flag of a unit sets that flag and keeps the others. -/
theorem testFlag_lor (F : TimeSpanFormat) (u v : TimeSpanUnit) (hu : u ≠ NoUnit)
    (hv : v ≠ NoUnit) : testFlag (F ||| u.value) v = (testFlag F v || decide (v = u)) := by
  have hval : u.value = 2 ^ u.bitIndex := by cases u <;> first | rfl | exact absurd rfl hu
  rw [testFlag_eq_testBit _ v hv, testFlag_eq_testBit _ v hv, hval, Nat.testBit_lor,
    Nat.testBit_two_pow]
  congr 1
  cases u <;> cases v <;> simp_all [TimeSpanUnit.bitIndex]

/-- A pattern letter never stands for `NoUnit`. -/
theorem tokenHash_ne_noUnit (c : Char) (u : TimeSpanUnit) (h : tokenHash c = some u) :
    u ≠ NoUnit := by
  unfold tokenHash at h
  repeat' split at h
  all_goals first | (cases h; decide) | cases h

/-- The tokens that remain when the last token is taken off for merging: each of them is in the
list, and each token of the list either remains or has the merged type. -/
theorem takeLast_mem (tl : List TimeFormatToken) (ty : TimeSpanUnit) :
    (∀ t ∈ (match tl.getLast? with
            | some last => if last.type = ty then tl.dropLast else tl
            | none => tl), t ∈ tl) ∧
    (∀ t ∈ tl, t ∈ (match tl.getLast? with
            | some last => if last.type = ty then tl.dropLast else tl
            | none => tl) ∨ t.type = ty) := by
  cases hl : tl.getLast? with
  | none => exact ⟨fun t ht => ht, fun t ht => Or.inl ht⟩
  | some last =>
    by_cases hty : last.type = ty
    · simp only [hty, if_true]
      refine ⟨fun t ht => List.mem_of_mem_dropLast ht, fun t ht => ?_⟩
      have hsplit := @List.dropLast_append_getLast? _ tl last (Option.mem_def.mpr hl)
      rw [← hsplit] at ht
      rcases List.mem_append.mp ht with h | h
      · exact Or.inl h
      · simp only [List.mem_singleton] at h
        exact Or.inr (h ▸ hty)
    · simp only [hty, if_false]
      exact ⟨fun t ht => ht, fun t ht => Or.inl ht⟩

/-- The token that is extended by a merge has the merged type. -/
theorem mergeToken_type (tl : List TimeFormatToken) (ty : TimeSpanUnit) :
    (match tl.getLast? with
      | some last => if last.type = ty then last else { type := ty, length := 0, string := [] }
      | none => ({ type := ty, length := 0, string := [] } : TimeFormatToken)).type = ty := by
  cases tl.getLast? with
  | none => rfl
  | some last => by_cases hty : last.type = ty <;> simp [hty]

/-- Appending a character to the last token keeps the tokenizer's relation. -/
theorem appendToLast_inv (tl : List TimeFormatToken) (F : TimeSpanFormat) (c : Char)
    (h : TokensMatchFormat tl F) : TokensMatchFormat (appendToLast tl c) F := by
  unfold appendToLast
  cases hl : tl.getLast? with
  | none => exact h
  | some last =>
    have hsplit := @List.dropLast_append_getLast? _ tl last (Option.mem_def.mpr hl)
    have hlast : last ∈ tl := by rw [← hsplit]; simp
    obtain ⟨h1, h2, h3⟩ := h
    refine ⟨?_, ?_, ?_⟩
    · intro t ht hty
      rcases List.mem_append.mp ht with hm | hm
      · exact h1 t (List.mem_of_mem_dropLast hm) hty
      · simp only [List.mem_singleton] at hm; subst hm; rfl
    · intro t ht hty
      rcases List.mem_append.mp ht with hm | hm
      · exact h2 t (List.mem_of_mem_dropLast hm) hty
      · simp only [List.mem_singleton] at hm; subst hm; exact h2 last hlast hty
    · intro u hu hF
      obtain ⟨t, ht, htu⟩ := h3 u hu hF
      rw [← hsplit] at ht
      rcases List.mem_append.mp ht with hm | hm
      · exact ⟨t, List.mem_append_left _ hm, htu⟩
      · simp only [List.mem_singleton] at hm
        subst hm
        exact ⟨_, List.mem_append_right _ (List.mem_singleton_self _), htu⟩

/-- The tokenizer's loop keeps the relation between the token list and the unit flags. -/
theorem parseLoop_inv (cs : List Char) (tl : List TimeFormatToken) (F : TimeSpanFormat)
    (b : Bool) (h : TokensMatchFormat tl F) :
    TokensMatchFormat (parseLoop cs tl F b).1 (parseLoop cs tl F b).2 := by
  induction cs, tl, F, b using parseLoop.induct with
  | case1 tl F x => simpa [parseLoop] using h
  | case2 tl F rest2 ih =>
    have e : parseLoop ('\'' :: '\'' :: rest2) tl F true
        = parseLoop rest2 (appendToLast tl '\'') F true := by
      rw [parseLoop]; simp only [if_true]
    rw [e]
    exact ih (appendToLast_inv _ _ _ h)
  | case3 tl F next rest2 hne ih =>
    have e : parseLoop ('\'' :: next :: rest2) tl F true
        = parseLoop (next :: rest2) tl F false := by
      rw [parseLoop]; simp only [if_true, hne, if_false]
    rw [e]
    exact ih h
  | case4 tl F => simpa [parseLoop] using h
  | case5 c rest tl F hne ih =>
    have e : parseLoop (c :: rest) tl F true = parseLoop rest (appendToLast tl c) F true := by
      rw [parseLoop.eq_def]; simp only [hne, if_false]
    rw [e]
    exact ih (appendToLast_inv _ _ _ h)
  | case6 rest tl F ih =>
    have e : parseLoop ('\'' :: rest) tl F false
        = parseLoop rest (tl ++ [{ type := NoUnit, length := 0, string := [] }]) F true := by
      rw [parseLoop]; simp only [if_true]
    rw [e]
    apply ih
    obtain ⟨h1, h2, h3⟩ := h
    refine ⟨?_, ?_, ?_⟩
    · intro t ht hty
      rcases List.mem_append.mp ht with hm | hm
      · exact h1 t hm hty
      · simp only [List.mem_singleton] at hm; subst hm; rfl
    · intro t ht hty
      rcases List.mem_append.mp ht with hm | hm
      · exact h2 t hm hty
      · simp only [List.mem_singleton] at hm; subst hm; exact absurd rfl hty
    · intro u hu hF
      obtain ⟨t, ht, htu⟩ := h3 u hu hF
      exact ⟨t, List.mem_append_left _ ht, htu⟩
  | case7 c rest tl F hne unit hunit token tl1 ih =>
    have e : parseLoop (c :: rest) tl F false
        = parseLoop rest (tl1 ++ [{ token with length := token.length + 1 }])
            (F ||| unit.value) false := by
      rw [parseLoop.eq_def]; simp only [hne, if_false, hunit]
    rw [e]
    apply ih
    have hu := tokenHash_ne_noUnit c unit hunit
    have htype : token.type = unit := mergeToken_type tl unit
    obtain ⟨hsub, hcov⟩ := takeLast_mem tl unit
    obtain ⟨h1, h2, h3⟩ := h
    refine ⟨?_, ?_, ?_⟩
    · intro t ht hty
      rcases List.mem_append.mp ht with hm | hm
      · exact h1 t (hsub t hm) hty
      · simp only [List.mem_singleton] at hm; subst hm
        exact absurd (hty.symm.trans htype).symm hu
    · intro t ht hty
      rcases List.mem_append.mp ht with hm | hm
      · rw [testFlag_lor F unit t.type hu hty, h2 t (hsub t hm) hty]; rfl
      · simp only [List.mem_singleton] at hm; subst hm
        rw [testFlag_lor F unit _ hu hty]
        simp [htype]
    · intro u hu' hF
      rw [testFlag_lor F unit u hu hu'] at hF
      by_cases huu : u = unit
      · exact ⟨_, List.mem_append_right _ (List.mem_singleton_self _), by rw [huu]; exact htype⟩
      · simp only [huu, decide_False, Bool.or_false] at hF
        obtain ⟨t, ht, htu⟩ := h3 u hu' hF
        rcases hcov t ht with hm | hm
        · exact ⟨t, List.mem_append_left _ hm, htu⟩
        · exact absurd (htu.symm.trans hm) huu
  | case8 c rest tl F hne hnone token tl1 ih =>
    have e : parseLoop (c :: rest) tl F false
        = parseLoop rest
            (tl1 ++ [{ token with string := token.string ++ [c],
                                  length := (token.string ++ [c]).length }]) F false := by
      rw [parseLoop.eq_def]; simp only [hne, if_false, hnone]
    rw [e]
    apply ih
    have htype : token.type = NoUnit := mergeToken_type tl NoUnit
    obtain ⟨hsub, hcov⟩ := takeLast_mem tl NoUnit
    obtain ⟨h1, h2, h3⟩ := h
    refine ⟨?_, ?_, ?_⟩
    · intro t ht hty
      rcases List.mem_append.mp ht with hm | hm
      · exact h1 t (hsub t hm) hty
      · simp only [List.mem_singleton] at hm; subst hm; rfl
    · intro t ht hty
      rcases List.mem_append.mp ht with hm | hm
      · exact h2 t (hsub t hm) hty
      · simp only [List.mem_singleton] at hm; subst hm
        exact absurd htype hty
    · intro u hu' hF
      obtain ⟨t, ht, htu⟩ := h3 u hu' hF
      rcases hcov t ht with hm | hm
      · exact ⟨t, List.mem_append_left _ hm, htu⟩
      · exact absurd (htu.symm.trans hm) hu'

/-- The token list and the unit flags returned by the tokenizer: a literal token has the length
of its text, the unit of every unit token is flagged, and every flagged unit has a token. -/
theorem parseFormatString_inv (p : QString) :
    TokensMatchFormat (parseFormatString p).1 (parseFormatString p).2 := by
  apply parseLoop_inv
  refine ⟨?_, ?_, ?_⟩
  · intro t ht; simp at ht
  · intro t ht; simp at ht
  · intro u hu hF
    cases u <;> first | exact absurd rfl hu | (simp [testFlag, TimeSpanUnit.value] at hF)

/-! ### Rendering and reading numbers -/

/-- The character of a decimal digit has the code 48 + digit. -/
theorem digitChar_toNat (d : Nat) (hd : d < 10) : (Char.ofNat (48 + d)).toNat = 48 + d := by
  interval_cases d <;> rfl

/-- Every character of a rendered natural number is a decimal digit. -/
theorem digitsRev_isDigit (fuel n : Nat) :
    ∀ c ∈ digitsRev fuel n, 48 ≤ c.toNat ∧ c.toNat ≤ 57 := by
  induction fuel generalizing n with
  | zero => intro c hc; simp [digitsRev] at hc
  | succ fuel ih =>
    intro c hc
    simp only [digitsRev, List.mem_cons] at hc
    rcases hc with hc | hc
    · subst hc
      rw [digitChar_toNat _ (Nat.mod_lt _ (by norm_num))]
      have := Nat.mod_lt n (show 0 < 10 by norm_num)
      omega
    · split at hc
      · simp at hc
      · exact ih _ c hc

/-- Reading one more digit at the end of a run of digits. -/
theorem parseDigits_append_singleton (l : List Char) (c : Char) (acc : Nat) :
    parseDigits (l ++ [c]) acc =
      (parseDigits l acc).bind (fun a => (digitValue c).map (fun d => a * 10 + d)) := by
  induction l generalizing acc with
  | nil =>
    simp only [List.nil_append, parseDigits, Option.some_bind]
    cases digitValue c <;> rfl
  | cons x xs ih =>
    simp only [List.cons_append, parseDigits]
    cases digitValue x with
    | none => rfl
    | some d => exact ih _

/-- The value of the character of a decimal digit. -/
theorem digitValue_digitChar (d : Nat) (hd : d < 10) : digitValue (Char.ofNat (48 + d)) = some d := by
  unfold digitValue
  rw [digitChar_toNat d hd]
  simp
  omega

/-- Reading the digits of a natural number gives the number back. -/
theorem parseDigits_digitsRev (fuel n : Nat) (h : n < fuel) :
    parseDigits (digitsRev fuel n).reverse 0 = some n := by
  induction fuel generalizing n with
  | zero => omega
  | succ fuel ih =>
    have hmod := Nat.mod_lt n (show 0 < 10 by norm_num)
    simp only [digitsRev, List.reverse_cons, parseDigits_append_singleton,
      digitValue_digitChar _ hmod]
    by_cases h0 : n / 10 = 0
    · simp only [h0, if_true, List.reverse_nil, parseDigits, Option.some_bind, Option.map_some']
      congr 1; omega
    · simp only [h0, if_false]
      rw [ih (n / 10) (by omega)]
      simp only [Option.some_bind, Option.map_some']
      congr 1; omega

/-- Leading zeros do not change the number that is read. -/
theorem parseDigits_replicate_zero (k : Nat) (l : List Char) :
    parseDigits (List.replicate k '0' ++ l) 0 = parseDigits l 0 := by
  induction k with
  | zero => rfl
  | succ k ih =>
    simp only [List.replicate_succ, List.cons_append, parseDigits]
    have : digitValue '0' = some 0 := by decide
    rw [this]
    exact ih

/-- The rendering of a non-negative value: zeros, then the digits. -/
theorem argInt_of_nonneg (v : Int) (w : Nat) (hv : 0 ≤ v) :
    argInt v w = List.replicate (w - (decimal v.natAbs).length) '0' ++ decimal v.natAbs := by
  unfold argInt
  simp [not_lt.mpr hv]

/-- Every character of the rendering of a non-negative value is a decimal digit. -/
theorem argInt_isDigit (v : Int) (w : Nat) (hv : 0 ≤ v) :
    ∀ c ∈ argInt v w, 48 ≤ c.toNat ∧ c.toNat ≤ 57 := by
  intro c hc
  rw [argInt_of_nonneg v w hv] at hc
  rcases List.mem_append.mp hc with h | h
  · rw [List.eq_of_mem_replicate h]; decide
  · unfold decimal at h
    exact digitsRev_isDigit _ _ c (List.mem_reverse.mp h)

/-- The rendering of a value is never empty. -/
theorem argInt_ne_nil (v : Int) (w : Nat) (hv : 0 ≤ v) : argInt v w ≠ [] := by
  rw [argInt_of_nonneg v w hv]
  simp [decimal, digitsRev]

/-- The rendering of a value fills its field. -/
theorem argInt_length_ge (v : Int) (w : Nat) (hv : 0 ≤ v) : w ≤ (argInt v w).length := by
  rw [argInt_of_nonneg v w hv]
  simp only [List.length_append, List.length_replicate]
  omega

/-- Converting the rendering of a value between 0 and `INT_MAX` gives the value back. -/
theorem toInt_argInt (v : Int) (w : Nat) (hv : 0 ≤ v) (hmax : v ≤ 2147483647) :
    toInt (argInt v w) = some v := by
  have hdig := argInt_isDigit v w hv
  have hne := argInt_ne_nil v w hv
  have hparse : parseDigits (argInt v w) 0 = some v.natAbs := by
    rw [argInt_of_nonneg v w hv, parseDigits_replicate_zero]
    exact parseDigits_digitsRev _ _ (Nat.lt_succ_self _)
  have hhead : ∀ c, (argInt v w).head? = some c → c ≠ '-' ∧ c ≠ '+' := by
    intro c hc
    have hmem : c ∈ argInt v w := List.mem_of_mem_head? (Option.mem_def.mpr hc)
    have := hdig c hmem
    constructor <;> (intro h; subst h; revert this; decide)
  unfold toInt
  cases hh : (argInt v w).head? with
  | none =>
    cases hs : argInt v w with
    | nil => exact absurd hs hne
    | cons a l => simp [hs] at hh
  | some c =>
    obtain ⟨h1, h2⟩ := hhead c hh
    have e1 : (some c == some '-') = false := by simpa using h1
    have e2 : (some c == some '+') = false := by simpa using h2
    simp only [e1, e2, Bool.or_self, Bool.false_eq_true, if_false, hne, hparse]
    have hcast : ((v.natAbs : Nat) : Int) = v := Int.natAbs_of_nonneg hv
    simp only [hcast]
    rw [if_pos ⟨by omega, hmax⟩]

/-- Trimming leaves a string without white space as it is. -/
theorem trimmed_of_no_space (s : QString) (h : ∀ c ∈ s, isSpace c = false) : trimmed s = s := by
  have drop_id : ∀ l : List Char, (∀ c ∈ l, isSpace c = false) → l.dropWhile isSpace = l := by
    intro l hl
    cases l with
    | nil => rfl
    | cons a t => simp [List.dropWhile, hl a (List.mem_cons_self _ _)]
  unfold trimmed
  rw [drop_id s h, drop_id s.reverse (fun c hc => h c (List.mem_reverse.mp hc)), List.reverse_reverse]

/-- A decimal digit is not white space. -/
theorem isSpace_of_digit (c : Char) (h : 48 ≤ c.toNat ∧ c.toNat ≤ 57) : isSpace c = false := by
  unfold isSpace
  simp only [Bool.or_eq_false_iff, Bool.and_eq_false_iff, beq_eq_false_iff_ne, ne_eq,
    decide_eq_false_iff_not]
  omega

/-! ### The round trip `fromString (toString s p) p` -/

/-- Rendering onto a prefix is rendering onto the empty string, with the prefix in front. -/
theorem renderTokens_acc (h : TimePartHash) (ts : List TimeFormatToken) (acc : QString) :
    renderTokens h ts acc = (renderTokens h ts []).map (fun out => acc ++ out) := by
  induction ts generalizing acc with
  | nil => simp [renderTokens]
  | cons t rest ih =>
    simp only [renderTokens]
    split
    · rw [ih (acc ++ t.string), ih ([] ++ t.string)]
      cases renderTokens h rest [] <;> simp
    · cases h.value t.type with
      | none => rfl
      | some v =>
        simp only []
        rw [ih (acc ++ argInt v t.length), ih ([] ++ argInt v t.length)]
        cases renderTokens h rest [] <;> simp

/-- Reading back what `toString` has rendered: when every literal token has the length of its
text and every unit token renders a value between 0 and `INT_MAX` within its width, the
extraction loop of `fromString` succeeds and stores the rendered value of every unit token. -/
theorem extractValues_renderTokens (h : TimePartHash) (ts : List TimeFormatToken)
    (g : TimePartHash) (out : QString)
    (hlit : ∀ t ∈ ts, t.type = NoUnit → t.length = t.string.length)
    (hval : ∀ t ∈ ts, t.type ≠ NoUnit → ∃ v, h.value t.type = some v ∧ 0 ≤ v ∧
      v < 2147483647 ∧ (argInt v t.length).length ≤ t.length)
    (hr : renderTokens h ts [] = some out) :
    extractValues ts out g = some
      (ts.foldl (fun g t => if t.type = NoUnit then g
        else g.set t.type ((h.value t.type).getD 0)) g) := by
  induction ts generalizing g out with
  | nil => simp [extractValues]
  | cons t rest ih =>
    have hlit' : ∀ t ∈ rest, t.type = NoUnit → t.length = t.string.length :=
      fun x hx => hlit x (List.mem_cons_of_mem _ hx)
    have hval' : ∀ t ∈ rest, t.type ≠ NoUnit → ∃ v, h.value t.type = some v ∧ 0 ≤ v ∧
        v < 2147483647 ∧ (argInt v t.length).length ≤ t.length :=
      fun x hx => hval x (List.mem_cons_of_mem _ hx)
    by_cases hty : t.type = NoUnit
    · simp only [renderTokens, hty, if_true] at hr
      rw [renderTokens_acc] at hr
      cases hrest : renderTokens h rest [] with
      | none => simp [hrest] at hr
      | some out' =>
        simp only [hrest, Option.map_some', Option.some.injEq, List.nil_append] at hr
        subst hr
        simp only [extractValues, hty, if_true, List.foldl_cons]
        rw [hlit t (List.mem_cons_self _ _) hty, List.drop_left]
        exact ih g out' hlit' hval' hrest
    · obtain ⟨v, hv, hv0, hv1, hw⟩ := hval t (List.mem_cons_self _ _) hty
      simp only [renderTokens, hty, if_false, hv] at hr
      rw [renderTokens_acc] at hr
      cases hrest : renderTokens h rest [] with
      | none => simp [hrest] at hr
      | some out' =>
        simp only [hrest, Option.map_some', Option.some.injEq, List.nil_append] at hr
        subst hr
        have hlen : (argInt v t.length).length = t.length :=
          Nat.le_antisymm hw (argInt_length_ge v t.length hv0)
        have htrim : trimmed (argInt v t.length) = argInt v t.length :=
          trimmed_of_no_space _ (fun c hc => isSpace_of_digit c (argInt_isDigit v _ hv0 c hc))
        simp only [extractValues, hty, if_false, List.foldl_cons, hv, Option.getD_some]
        rw [List.take_left' hlen, List.drop_left' hlen, htrim,
          toInt_argInt v _ hv0 (by omega)]
        exact ih _ out' hlit' hval' hrest

/-- The entry of a unit after an assignment through the hash. -/
theorem set_value (g : TimePartHash) (u u' : TimeSpanUnit) (v : Int) (hu : u ≠ NoUnit) :
    (g.set u v).value u' = if u' = u then some v else g.value u' := by
  cases u <;> cases u' <;> first | exact absurd rfl hu | rfl

/-- The entries of the hash after the extraction loop: the rendered value for the unit of a
token, the initial entry for every other unit. -/
theorem foldl_set_value (h : TimePartHash) (ts : List TimeFormatToken) (g : TimePartHash)
    (u : TimeSpanUnit)
    (hval : ∀ t ∈ ts, t.type ≠ NoUnit → (h.value t.type).isSome = true) :
    ((ts.foldl (fun g t => if t.type = NoUnit then g
        else g.set t.type ((h.value t.type).getD 0)) g).value u)
      = if ∃ t ∈ ts, t.type = u ∧ u ≠ NoUnit then h.value u else g.value u := by
  induction ts generalizing g with
  | nil => simp
  | cons t rest ih =>
    have hval' : ∀ t ∈ rest, t.type ≠ NoUnit → (h.value t.type).isSome = true :=
      fun x hx => hval x (List.mem_cons_of_mem _ hx)
    simp only [List.foldl_cons]
    rw [ih _ hval']
    by_cases hrest : ∃ t ∈ rest, t.type = u ∧ u ≠ NoUnit
    · obtain ⟨x, hx, hxu⟩ := hrest
      rw [if_pos ⟨x, hx, hxu⟩, if_pos ⟨x, List.mem_cons_of_mem _ hx, hxu⟩]
    · rw [if_neg hrest]
      by_cases hty : t.type = NoUnit
      · simp only [hty, if_true]
        have : ¬ ∃ x ∈ t :: rest, x.type = u ∧ u ≠ NoUnit := by
          rintro ⟨x, hx, hxu, hne⟩
          rcases List.mem_cons.mp hx with hx | hx
          · subst hx; exact hne (hxu.symm.trans hty)
          · exact hrest ⟨x, hx, hxu, hne⟩
        rw [if_neg this]
      · simp only [hty, if_false]
        rw [set_value _ _ _ _ hty]
        by_cases hu : u = t.type
        · have hsome := hval t (List.mem_cons_self _ _) hty
          have hex : ∃ x ∈ t :: rest, x.type = u ∧ u ≠ NoUnit :=
            ⟨t, List.mem_cons_self _ _, hu.symm, hu ▸ hty⟩
          rw [if_pos hu, if_pos hex, hu]
          cases hh : h.value t.type with
          | none => simp [hh] at hsome
          | some v => rfl
        · have : ¬ ∃ x ∈ t :: rest, x.type = u ∧ u ≠ NoUnit := by
            rintro ⟨x, hx, hxu, hne⟩
            rcases List.mem_cons.mp hx with hx | hx
            · subst hx; exact hu hxu.symm
            · exact hrest ⟨x, hx, hxu, hne⟩
          rw [if_neg hu, if_neg this]

/-- Two hashes with the same entry for every unit are equal. -/
theorem hash_ext (g h : TimePartHash) (hv : ∀ u, g.value u = h.value u) : g = h := by
  have h1 := hv Milliseconds
  have h2 := hv Seconds
  have h3 := hv Minutes
  have h4 := hv Hours
  have h5 := hv Days
  have h6 := hv Weeks
  have h7 := hv Months
  have h8 := hv Years
  cases g; cases h
  simp only [TimePartHash.value] at h1 h2 h3 h4 h5 h6 h7 h8
  simp [h1, h2, h3, h4, h5, h6, h7, h8]

/-- The entries of a fresh hash. -/
theorem ofFormat_value (F : TimeSpanFormat) (u : TimeSpanUnit) (hu : u ≠ NoUnit) :
    (TimePartHash.ofFormat F).value u = if testFlag F u then some 0 else none := by
  cases u <;> first | exact absurd rfl hu | rfl

/-- C1 (amended): for every span with an interval from 0 to `2 ^ 53` ms, with or without a
reference, and every format pattern whose unit letters are fixed units and include `z`
(milliseconds), if `toString(s, p)` succeeds and no unit's rendered value is wider than its token
width, then `fromString(toString(s, p), p, s.reference) == s`, whatever the order in which the
hash iterator of `fromString` visits the units. -/
theorem toString_fromString_roundtrip (order : List TimeSpanUnit) (s : QTimeSpan)
    (p out : QString) (horder : order.Perm hashKeys)
    (hMonths : testFlag (parseFormatString p).2 Months = false)
    (hYears : testFlag (parseFormatString p).2 Years = false)
    (hMSecs : testFlag (parseFormatString p).2 Milliseconds = true)
    (hpos : 0 ≤ s.interval) (hmax : s.interval ≤ 2 ^ 53)
    (hto : s.toString p = some out)
    (hfit : fitsTokenWidths s p = true) :
    QTimeSpan.fromString order out p s.reference = some s := by
  obtain ⟨I1, I2, I3⟩ := parseFormatString_inv p
  unfold QTimeSpan.toString at hto
  unfold fitsTokenWidths at hfit
  cases hfill : (TimePartHash.ofFormat (parseFormatString p).2).fill s with
  | none => simp [hfill] at hto
  | some h =>
    simp only [hfill] at hto hfit
    obtain ⟨hW, hsum⟩ := fill_fixed_spec _ s h hpos hMonths hYears hfill
    have hval : ∀ t ∈ (parseFormatString p).1, t.type ≠ NoUnit →
        ∃ v, h.value t.type = some v ∧ 0 ≤ v ∧ v < 2147483647 ∧
          (argInt v t.length).length ≤ t.length := by
      intro t ht hty
      have hw := hW t.type hty
      rw [I2 t ht hty] at hw
      simp only [Written, if_true] at hw
      obtain ⟨v, hv, hv0, hv1⟩ := hw
      refine ⟨v, hv, hv0, hv1, ?_⟩
      have := List.all_eq_true.mp hfit t ht
      simpa [hty, hv] using this
    have hex := extractValues_renderTokens h _ (TimePartHash.ofFormat (parseFormatString p).2)
      out I1 hval hto
    have hsome : ∀ t ∈ (parseFormatString p).1, t.type ≠ NoUnit →
        (h.value t.type).isSome = true := by
      intro t ht hty
      obtain ⟨v, hv, _⟩ := hval t ht hty
      simp [hv]
    have hfinal : (parseFormatString p).1.foldl
        (fun g t => if t.type = NoUnit then g else g.set t.type ((h.value t.type).getD 0))
        (TimePartHash.ofFormat (parseFormatString p).2) = h := by
      apply hash_ext
      intro u
      rw [foldl_set_value h _ _ u hsome]
      split
      · rfl
      · rename_i hno
        by_cases hu : u = NoUnit
        · subst hu; rfl
        · have hflag : testFlag (parseFormatString p).2 u = false := by
            by_contra hc
            have hc' : testFlag (parseFormatString p).2 u = true := by simpa using hc
            obtain ⟨t, ht, htu⟩ := I3 u hu hc'
            exact hno ⟨t, ht, htu, hu⟩
          have hw := hW u hu
          rw [hflag] at hw
          simp only [Written, Bool.false_eq_true, if_false] at hw
          rw [ofFormat_value _ u hu, hflag, hw]
          rfl
    rw [hfinal] at hex
    have hY : h.years = none := by
      have hw := hW Years (by decide)
      rw [hYears] at hw
      simpa [Written, TimePartHash.value] using hw
    have hM : h.months = none := by
      have hw := hW Months (by decide)
      rw [hMonths] at hw
      simpa [Written, TimePartHash.value] using hw
    have hh : ({ ({ h with years := none } : TimePartHash) with months := none } : TimePartHash)
        = h := by
      cases h; simp_all
    have hsumEq : (order.map (fun u => (h.value u).getD 0 * unitFactor u)).sum = s.interval := by
      rw [(horder.map _).sum_eq]
      exact hsum hMSecs
    have hnn : ∀ u, 0 ≤ (h.value u).getD 0 ∧ ∀ v, h.value u = some v → |v| ≤ 2 ^ 31 := by
      intro u
      by_cases hu : u = NoUnit
      · subst hu
        exact ⟨le_refl _, fun v hv => by simp [TimePartHash.value] at hv⟩
      · have hw := hW u hu
        unfold Written at hw
        split at hw
        · obtain ⟨v, hv, hv0, hv1⟩ := hw
          rw [hv]
          refine ⟨hv0, fun w hw' => ?_⟩
          cases hw'
          rw [abs_of_nonneg hv0]
          omega
        · rw [hw]
          exact ⟨le_refl _, fun v hv => by cases hv⟩
    have habs : (order.map (fun u => |(h.value u).getD 0| * unitFactor u))
        = order.map (fun u => (h.value u).getD 0 * unitFactor u) :=
      List.map_congr_left (fun u _ => by rw [abs_of_nonneg (hnn u).1])
    simp only [QTimeSpan.fromString, hex, hY, hM, hh]
    rw [addUnits_spec h hM hY (fun u v hv => (hnn u).2 v hv) order _
      (by rw [habs, hsumEq]; simp only [QTimeSpan.ofReference, abs_zero, zero_add]; exact hmax),
      hsumEq]
    simp [QTimeSpan.ofReference]

/-- Witness of C1 (amended): the span of 3 661 001 ms without reference and the pattern
`hh:mm:ss.zzz`; `toString` gives `01:01:01.001`, which `fromString` reads back. -/
theorem toString_fromString_roundtrip_witness :
    (QTimeSpan.ofMSecs 3661001).toString "hh:mm:ss.zzz".toList = some "01:01:01.001".toList ∧
    QTimeSpan.fromString hashKeys "01:01:01.001".toList "hh:mm:ss.zzz".toList
      (QTimeSpan.ofMSecs 3661001).reference = some (QTimeSpan.ofMSecs 3661001) :=
  ⟨by decide,
   toString_fromString_roundtrip hashKeys (QTimeSpan.ofMSecs 3661001) "hh:mm:ss.zzz".toList
    "01:01:01.001".toList (List.Perm.refl _) (by decide) (by decide) (by decide) (by decide)
    (by decide) (by decide) (by decide)⟩

/-- C1 (counterexample to the claim as stated): two spans without reference. The span of
1500 ms and the pattern `s`, whose only unit letter is a fixed unit: `toString` succeeds with
`1`, which fits the token width, and `fromString` reads back the span of 1000 ms, not the span
of 1500 ms. The span of `2 ^ 53 + 1` ms and the pattern `wwwwwwww zzzzzzzzz`, whose unit letters
are fixed units and include `z`: `toString` succeeds with `14892855 550740993`, every value fits
its token width, and `fromString` reads back the span of `2 ^ 53` ms, the sum of the two
contributions being rounded to a `double`. -/
theorem roundtrip_fails_without_milliseconds_or_beyond_2_53 :
    (QTimeSpan.ofMSecs 1500).toString ['s'] = some ['1'] ∧
    fitsTokenWidths (QTimeSpan.ofMSecs 1500) ['s'] = true ∧
    testFlag (parseFormatString ['s']).2 Months = false ∧
    testFlag (parseFormatString ['s']).2 Years = false ∧
    QTimeSpan.fromString hashKeys ['1'] ['s'] (QTimeSpan.ofMSecs 1500).reference
      = some (QTimeSpan.ofMSecs 1000) ∧
    QTimeSpan.ofMSecs 1000 ≠ QTimeSpan.ofMSecs 1500 ∧
    (QTimeSpan.ofMSecs 9007199254740993).toString "wwwwwwww zzzzzzzzz".toList
      = some "14892855 550740993".toList ∧
    fitsTokenWidths (QTimeSpan.ofMSecs 9007199254740993) "wwwwwwww zzzzzzzzz".toList = true ∧
    testFlag (parseFormatString "wwwwwwww zzzzzzzzz".toList).2 Milliseconds = true ∧
    testFlag (parseFormatString "wwwwwwww zzzzzzzzz".toList).2 Months = false ∧
    testFlag (parseFormatString "wwwwwwww zzzzzzzzz".toList).2 Years = false ∧
    QTimeSpan.fromString hashKeys "14892855 550740993".toList "wwwwwwww zzzzzzzzz".toList
      (QTimeSpan.ofMSecs 9007199254740993).reference
      = some (QTimeSpan.ofMSecs 9007199254740992) ∧
    QTimeSpan.fromString hashKeys.reverse "14892855 550740993".toList
      "wwwwwwww zzzzzzzzz".toList (QTimeSpan.ofMSecs 9007199254740993).reference
      = some (QTimeSpan.ofMSecs 9007199254740992) ∧
    QTimeSpan.ofMSecs 9007199254740992 ≠ QTimeSpan.ofMSecs 9007199254740993 := by
  decide!

/-! ### `setFromMonths` with a negative fraction, `setFromYears` -/

/-- Advancing a valid date-time by calendar years gives a valid date-time. -/
theorem addYears_some (r n : Int) : ∃ e, QDateTime.addYears (some r) n = some e := by
  simp [QDateTime.addYears, QDateTime.date, QDateTime.time, QDate.addYears, QDate.fixedDate,
    QDateTime.ofDateTime]

/-- C12 (amended): on the reference 2008-01-01T00:00:00, `setFromYears(1.5)` advances the
reference by the whole year to 2009-01-01T00:00:00, 366 days later, and takes the length of the
fractional half year from the year in which that advanced date falls, 2009, a year of 365 days:
the interval is 366 days + 0.5 × 365 days = 548.5 days (47 390 400 000 ms). -/
theorem setFromYears_one_and_a_half_measures_2009 :
    truncQ (3 / 2) = 1 ∧
      QDateTime.addYears (QDateTime.ofFields 2008 1 1 0 0 0 0) 1
        = QDateTime.ofFields 2009 1 1 0 0 0 0 ∧
      QDateTime.msecsTo (QDateTime.ofFields 2008 1 1 0 0 0 0)
        (QDateTime.ofFields 2009 1 1 0 0 0 0) = 366 * MSECS_PER_DAY ∧
      QDate.year (QDateTime.date (QDateTime.ofFields 2009 1 1 0 0 0 0)) = 2009 ∧
      isLeapYear 2009 = false ∧
      truncQ (dmul (dmul (dmul (dmul (dmul (dsub (3 / 2) (ofInt 1)) 365) 24) 60) 60) 1000)
        = 365 * MSECS_PER_DAY / 2 ∧
      (QTimeSpan.ofReference (QDateTime.ofFields 2008 1 1 0 0 0 0) 0).setFromYears (3 / 2)
        = some (QTimeSpan.ofReference (QDateTime.ofFields 2008 1 1 0 0 0 0)
          (366 * MSECS_PER_DAY + 365 * MSECS_PER_DAY / 2)) ∧
      366 * MSECS_PER_DAY + 365 * MSECS_PER_DAY / 2 = 47390400000 := by
  decide!

/-- C12 (counterexample): on the reference 2008-01-01T00:00:00, `setFromYears(1.5)` does not
give 549 days (366 days + 0.5 × 366 days) but 548.5 days. -/
theorem setFromYears_one_and_a_half_from_2008 :
    ((QTimeSpan.ofReference (QDateTime.ofFields 2008 1 1 0 0 0 0) 0).setFromYears (3 / 2)).map
        QTimeSpan.interval = some 47390400000 ∧
      (47390400000 : Int) ≠ 549 * MSECS_PER_DAY ∧
      (47390400000 : Int) * 2 = 1097 * MSECS_PER_DAY := by
  decide!

/-! ### `fromTimeUnit` -/

/-- C13: for the unit `Months` or `Years` and every amount, `fromTimeUnit` called with an
invalid reference fails (the assertion "Can not construct QTimeSpan from Month or Year
TimeSpanUnit without a valid reference date") instead of producing a span. -/
theorem fromTimeUnit_months_years_without_reference (unit : TimeSpanUnit) (interval : ℚ)
    (reference : QDateTime) (hu : unit = Months ∨ unit = Years)
    (href : QDateTime.isValid reference = false) :
    QTimeSpan.fromTimeUnit unit interval reference = none := by
  rcases hu with rfl | rfl <;> simp [QTimeSpan.fromTimeUnit, href]

/-- Witness of C13: one and a half months, and two years, without a reference. -/
theorem fromTimeUnit_months_years_without_reference_witness :
    QTimeSpan.fromTimeUnit Months (3 / 2) none = none ∧
      QTimeSpan.fromTimeUnit Years 2 none = none :=
  ⟨fromTimeUnit_months_years_without_reference Months (3 / 2) none (Or.inl rfl) rfl,
   fromTimeUnit_months_years_without_reference Years 2 none (Or.inr rfl) rfl⟩

/-! ### Union, intersection, containment -/

/-- A span has a valid reference exactly when its reference is some instant. -/
theorem hasValidReference_iff (s : QTimeSpan) :
    s.hasValidReference = true ↔ ∃ r, s.reference = some r := by
  cases s with
  | mk i r => cases r <;> simp [QTimeSpan.hasValidReference, QDateTime.isValid]

/-- The start of a span with a valid reference is the smaller of its two ends. -/
theorem startDate_some (i r : Int) :
    QTimeSpan.startDate ⟨i, some r⟩ = some (min r (r + i)) := by
  by_cases h : i < 0
  · simp [QTimeSpan.startDate, QTimeSpan.isNegative, QTimeSpan.referencedDate,
      QDateTime.isValid, QDateTime.addMSecs, h]
    omega
  · simp [QTimeSpan.startDate, QTimeSpan.isNegative, QTimeSpan.referenceDate, h]
    omega

/-- The end of a span with a valid reference is the larger of its two ends. -/
theorem endDate_some (i r : Int) :
    QTimeSpan.endDate ⟨i, some r⟩ = some (max r (r + i)) := by
  by_cases h : i < 0
  · simp [QTimeSpan.endDate, QTimeSpan.isNegative, QTimeSpan.referenceDate, h]
    omega
  · simp [QTimeSpan.endDate, QTimeSpan.isNegative, QTimeSpan.referencedDate,
      QDateTime.isValid, QDateTime.addMSecs, h]
    omega

/-- Comparison `<` of two valid date-times. -/
theorem lt_some (x y : Int) : QDateTime.lt (some x) (some y) = decide (x < y) := rfl

/-- Comparison `<=` of two valid date-times. -/
theorem le_some (x y : Int) : QDateTime.le (some x) (some y) = decide (x ≤ y) := by
  rw [Bool.eq_iff_iff]
  simp [QDateTime.le, QDateTime.lt]

/-- Comparison `>` of two valid date-times. -/
theorem gt_some (x y : Int) : QDateTime.gt (some x) (some y) = decide (y < x) := rfl

/-- Comparison `>=` of two valid date-times. -/
theorem ge_some (x y : Int) : QDateTime.ge (some x) (some y) = decide (y ≤ x) := by
  rw [Bool.eq_iff_iff]
  simp [QDateTime.ge, QDateTime.lt]

/-- The smaller of two valid date-times. -/
theorem qMin_some (x y : Int) : qMin (some x) (some y) = some (min x y) := by
  by_cases h : x < y
  · simp [qMin, QDateTime.lt, h]; omega
  · simp [qMin, QDateTime.lt, h]; omega

/-- The larger of two valid date-times. -/
theorem qMax_some (x y : Int) : qMax (some x) (some y) = some (max x y) := by
  by_cases h : x < y
  · simp [qMax, QDateTime.lt, h]; omega
  · simp [qMax, QDateTime.lt, h]; omega

/-- The difference of two valid date-times is anchored at the right-hand one. -/
theorem dateTimeDiff_some (l r : Int) :
    QTimeSpan.dateTimeDiff (some l) (some r) = ⟨l - r, some r⟩ := by
  simp [QTimeSpan.dateTimeDiff, QDateTime.isValid, QTimeSpan.ofReference, QDateTime.msecsTo]

/-- Containment of a span in a span, both with a valid reference, in closed form. -/
theorem containsSpan_some (i r j q : Int) :
    QTimeSpan.containsSpan ⟨i, some r⟩ ⟨j, some q⟩ =
      (decide (min r (r + i) ≤ min q (q + j)) && decide (max q (q + j) ≤ max r (r + i))) := by
  simp only [QTimeSpan.containsSpan, startDate_some, endDate_some, le_some, ge_some,
    QTimeSpan.hasValidReference, QDateTime.isValid, Option.isSome_some, Bool.and_self,
    Bool.not_true, Bool.false_eq_true, if_false]

/-- C14: for all spans `a` and `b` that both have a valid reference (any signs of interval), the
union `a.united(b)`, equally `a | b`, runs from `min(a.start, b.start)` to
`max(a.end, b.end)` and contains both operands. -/
theorem united_contains_operands (a b : QTimeSpan)
    (ha : a.hasValidReference = true) (hb : b.hasValidReference = true) :
    ∃ u, a.united b = some u ∧ QTimeSpan.opOr a b = some u ∧
      u.startDate = qMin a.startDate b.startDate ∧
      u.endDate = qMax a.endDate b.endDate ∧
      u.containsSpan a = true ∧ u.containsSpan b = true := by
  obtain ⟨ia, ra⟩ := a
  obtain ⟨ib, rb⟩ := b
  obtain ⟨ra, rfl⟩ : ∃ r, ra = some r := (hasValidReference_iff _).mp ha
  obtain ⟨rb, rfl⟩ : ∃ r, rb = some r := (hasValidReference_iff _).mp hb
  refine ⟨⟨max (max ra (ra + ia)) (max rb (rb + ib)) - min (min ra (ra + ia)) (min rb (rb + ib)),
    some (min (min ra (ra + ia)) (min rb (rb + ib)))⟩, ?_, ?_, ?_, ?_, ?_, ?_⟩
  · simp only [QTimeSpan.united, ha, hb, startDate_some, endDate_some, qMin_some, qMax_some,
      dateTimeDiff_some, Bool.and_self, Bool.not_true, Bool.false_eq_true, if_false]
  · simp only [QTimeSpan.opOr, QTimeSpan.opOrAssign, ha, hb, startDate_some, endDate_some,
      qMin_some, qMax_some, dateTimeDiff_some, Bool.and_self, Bool.not_true, Bool.false_eq_true,
      if_false]
  · simp only [startDate_some, qMin_some, Option.some.injEq]; omega
  · simp only [endDate_some, qMax_some, Option.some.injEq]; omega
  · simp only [containsSpan_some, Bool.and_eq_true, decide_eq_true_eq]; omega
  · simp only [containsSpan_some, Bool.and_eq_true, decide_eq_true_eq]; omega

/-- Witness of C14: the union of the day 2010-01-01 and of the day before 2010-01-04, the
second given as a negative span. -/
theorem united_contains_operands_witness :
    ∃ u, (QTimeSpan.ofReference (some 1262304000000) 86400000).united
        (QTimeSpan.ofReference (some 1262563200000) (-86400000)) = some u ∧
      u = QTimeSpan.ofReference (some 1262304000000) 259200000 ∧
      u.containsSpan (QTimeSpan.ofReference (some 1262304000000) 86400000) = true ∧
      u.containsSpan (QTimeSpan.ofReference (some 1262563200000) (-86400000)) = true := by
  obtain ⟨u, h1, _, _, _, h5, h6⟩ :=
    united_contains_operands (QTimeSpan.ofReference (some 1262304000000) 86400000)
      (QTimeSpan.ofReference (some 1262563200000) (-86400000)) rfl rfl
  refine ⟨u, h1, ?_, h5, h6⟩
  have h : (QTimeSpan.ofReference (some 1262304000000) 86400000).united
      (QTimeSpan.ofReference (some 1262563200000) (-86400000)) =
      some (QTimeSpan.ofReference (some 1262304000000) 259200000) := by decide
  exact Option.some.inj (h1.symm.trans h)

/-- The intersection `operator&=` of two spans with valid references, in closed form. -/
theorem opAndAssign_some (i r j q : Int) :
    QTimeSpan.opAndAssign ⟨i, some r⟩ ⟨j, some q⟩ =
      if min q (q + j) < min r (r + i) then
        (if min r (r + i) < max q (q + j) then
          some ⟨min (max q (q + j)) (max r (r + i)) - min r (r + i), some (min r (r + i))⟩
        else some ⟨0, some r⟩)
      else
        (if min q (q + j) < max r (r + i) then
          some ⟨min (max r (r + i)) (max q (q + j)) - min q (q + j), some (min q (q + j))⟩
        else some ⟨0, some r⟩) := by
  by_cases h : min q (q + j) < min r (r + i)
  · by_cases h2 : min r (r + i) < max q (q + j) <;>
      simp [QTimeSpan.opAndAssign, QTimeSpan.hasValidReference, QDateTime.isValid,
        startDate_some, endDate_some, lt_some, gt_some, qMin_some, dateTimeDiff_some, h, h2]
  · by_cases h2 : min q (q + j) < max r (r + i) <;>
      simp [QTimeSpan.opAndAssign, QTimeSpan.hasValidReference, QDateTime.isValid,
        startDate_some, endDate_some, lt_some, gt_some, qMin_some, dateTimeDiff_some, h, h2]

/-- The method `overlapped` on two spans with valid references, in closed form. -/
theorem overlapped_some (i r j q : Int) :
    QTimeSpan.overlapped ⟨i, some r⟩ ⟨j, some q⟩ =
      if min q (q + j) < min r (r + i) then
        (if min r (r + i) ≤ max q (q + j) then
          some ⟨min (max q (q + j)) (max r (r + i)) - min r (r + i), some (min r (r + i))⟩
        else some QTimeSpan.null)
      else
        (if min q (q + j) ≤ max r (r + i) then
          some ⟨min (max r (r + i)) (max q (q + j)) - min q (q + j), some (min q (q + j))⟩
        else some QTimeSpan.null) := by
  by_cases h : min q (q + j) < min r (r + i)
  · by_cases h2 : min r (r + i) ≤ max q (q + j) <;>
      simp [QTimeSpan.overlapped, QTimeSpan.hasValidReference, QDateTime.isValid,
        startDate_some, endDate_some, lt_some, ge_some, qMin_some, dateTimeDiff_some, h, h2]
  · by_cases h2 : min q (q + j) ≤ max r (r + i) <;>
      simp [QTimeSpan.overlapped, QTimeSpan.hasValidReference, QDateTime.isValid,
        startDate_some, endDate_some, lt_some, ge_some, qMin_some, dateTimeDiff_some, h, h2]

/-- C15: for all spans `a` and `b` that both have a valid reference, the intersection `a & b`
is computed, and if it is non-empty (interval != 0) then `a` contains it and `b` contains it. -/
theorem intersection_contained_in_operands (a b : QTimeSpan)
    (ha : a.hasValidReference = true) (hb : b.hasValidReference = true) :
    ∃ res, QTimeSpan.opAnd a b = some res ∧
      (res.isEmpty = false → a.containsSpan res = true ∧ b.containsSpan res = true) := by
  obtain ⟨ia, ra⟩ := a
  obtain ⟨ib, rb⟩ := b
  obtain ⟨ra, rfl⟩ : ∃ r, ra = some r := (hasValidReference_iff _).mp ha
  obtain ⟨rb, rfl⟩ : ∃ r, rb = some r := (hasValidReference_iff _).mp hb
  rw [QTimeSpan.opAnd, opAndAssign_some]
  split_ifs with h h2 h2
  · refine ⟨_, rfl, fun hne => ?_⟩
    simp only [QTimeSpan.isEmpty, beq_eq_false_iff_ne, ne_eq] at hne
    simp only [containsSpan_some, Bool.and_eq_true, decide_eq_true_eq]
    omega
  · exact ⟨_, rfl, fun hne => by simp [QTimeSpan.isEmpty] at hne⟩
  · refine ⟨_, rfl, fun hne => ?_⟩
    simp only [QTimeSpan.isEmpty, beq_eq_false_iff_ne, ne_eq] at hne
    simp only [containsSpan_some, Bool.and_eq_true, decide_eq_true_eq]
    omega
  · exact ⟨_, rfl, fun hne => by simp [QTimeSpan.isEmpty] at hne⟩

/-- Witness of C15: the days 2010-01-01 to 2010-01-03 and 2010-01-02 to 2010-01-04 have the
day from 2010-01-02 to 2010-01-03 in common, and both contain it. -/
theorem intersection_contained_in_operands_witness :
    ∃ res, QTimeSpan.opAnd (QTimeSpan.ofReference (some 1262304000000) 172800000)
        (QTimeSpan.ofReference (some 1262390400000) 172800000) = some res ∧
      res = QTimeSpan.ofReference (some 1262390400000) 86400000 ∧
      (QTimeSpan.ofReference (some 1262304000000) 172800000).containsSpan res = true ∧
      (QTimeSpan.ofReference (some 1262390400000) 172800000).containsSpan res = true := by
  obtain ⟨res, h1, h2⟩ :=
    intersection_contained_in_operands (QTimeSpan.ofReference (some 1262304000000) 172800000)
      (QTimeSpan.ofReference (some 1262390400000) 172800000) rfl rfl
  have h : QTimeSpan.opAnd (QTimeSpan.ofReference (some 1262304000000) 172800000)
      (QTimeSpan.ofReference (some 1262390400000) 172800000) =
      some (QTimeSpan.ofReference (some 1262390400000) 86400000) := by decide
  have hres : res = QTimeSpan.ofReference (some 1262390400000) 86400000 :=
    Option.some.inj (h1.symm.trans h)
  have hne : res.isEmpty = false := by rw [hres]; decide
  exact ⟨res, h1, hres, (h2 hne).1, (h2 hne).2⟩

/-- C16: for two referenced spans `a` and `b` with non-negative intervals, `a.start < b.start`
and `a.end == b.start`, the intersection `a & b` has interval 0, while `a.overlapped(b)` is the
zero-length span whose reference is `b.start`, a valid reference, so that it is not the null
span. -/
theorem touching_spans_intersection_and_overlapped (a b : QTimeSpan)
    (ha : a.hasValidReference = true) (hb : b.hasValidReference = true)
    (hia : 0 ≤ a.interval) (hib : 0 ≤ b.interval)
    (hlt : QDateTime.lt a.startDate b.startDate = true) (htouch : a.endDate = b.startDate) :
    (∃ res, QTimeSpan.opAnd a b = some res ∧ res.interval = 0) ∧
      a.overlapped b = some (QTimeSpan.ofReference b.startDate 0) ∧
      (QTimeSpan.ofReference b.startDate 0).hasValidReference = true ∧
      (QTimeSpan.ofReference b.startDate 0).isNull = false := by
  obtain ⟨ia, ra⟩ := a
  obtain ⟨ib, rb⟩ := b
  obtain ⟨ra, rfl⟩ : ∃ r, ra = some r := (hasValidReference_iff _).mp ha
  obtain ⟨rb, rfl⟩ : ∃ r, rb = some r := (hasValidReference_iff _).mp hb
  simp only [startDate_some, endDate_some, lt_some, decide_eq_true_eq, Option.some.injEq]
    at hlt htouch hia hib
  have hn : ¬ (min rb (rb + ib) < min ra (ra + ia)) := by omega
  have hn2 : ¬ (min rb (rb + ib) < max ra (ra + ia)) := by omega
  have hle : min rb (rb + ib) ≤ max ra (ra + ia) := by omega
  refine ⟨⟨⟨0, some ra⟩, ?_, rfl⟩, ?_, ?_, ?_⟩
  · rw [QTimeSpan.opAnd, opAndAssign_some, if_neg hn, if_neg hn2]
  · rw [overlapped_some, if_neg hn, if_pos hle, startDate_some]
    simp only [QTimeSpan.ofReference, Option.some.injEq, QTimeSpan.mk.injEq, and_true]
    omega
  · simp [startDate_some, QTimeSpan.ofReference, QTimeSpan.hasValidReference, QDateTime.isValid]
  · simp [startDate_some, QTimeSpan.ofReference, QTimeSpan.isNull, QTimeSpan.hasValidReference,
      QDateTime.isValid]

/-- Witness of C16: the day 2010-01-01 and the day 2010-01-02 touch at 2010-01-02T00:00:00. -/
theorem touching_spans_intersection_and_overlapped_witness :
    (∃ res, QTimeSpan.opAnd (QTimeSpan.ofReference (some 1262304000000) 86400000)
        (QTimeSpan.ofReference (some 1262390400000) 86400000) = some res ∧ res.interval = 0) ∧
      (QTimeSpan.ofReference (some 1262304000000) 86400000).overlapped
        (QTimeSpan.ofReference (some 1262390400000) 86400000) =
        some (QTimeSpan.ofReference (QDateTime.ofFields 2010 1 2 0 0 0 0) 0) := by
  obtain ⟨h1, h2, _, _⟩ :=
    touching_spans_intersection_and_overlapped
      (QTimeSpan.ofReference (some 1262304000000) 86400000)
      (QTimeSpan.ofReference (some 1262390400000) 86400000) rfl rfl (by decide) (by decide)
      (by decide) (by decide)
  refine ⟨h1, ?_⟩
  rw [h2]
  decide

/-- C17 (failing input): the day 2010-01-01 and the day 2010-01-03 do not overlap; their
intersection `a & b` has interval 0 but keeps the valid reference 2010-01-01T00:00:00 of `a`, so
it is an empty span that is not null, whereas `a.overlapped(b)` is the null span. -/
theorem intersection_of_disjoint_spans_keeps_reference :
    QTimeSpan.overlaps (QTimeSpan.ofReference (QDateTime.ofFields 2010 1 1 0 0 0 0) 86400000)
        (QTimeSpan.ofReference (QDateTime.ofFields 2010 1 3 0 0 0 0) 86400000) = false ∧
      QTimeSpan.opAnd (QTimeSpan.ofReference (QDateTime.ofFields 2010 1 1 0 0 0 0) 86400000)
        (QTimeSpan.ofReference (QDateTime.ofFields 2010 1 3 0 0 0 0) 86400000) =
        some (QTimeSpan.ofReference (QDateTime.ofFields 2010 1 1 0 0 0 0) 0) ∧
      (QTimeSpan.ofReference (QDateTime.ofFields 2010 1 1 0 0 0 0) 0).hasValidReference = true ∧
      (QTimeSpan.ofReference (QDateTime.ofFields 2010 1 1 0 0 0 0) 0).isNull = false ∧
      (QTimeSpan.ofReference (QDateTime.ofFields 2010 1 1 0 0 0 0) 86400000).overlapped
        (QTimeSpan.ofReference (QDateTime.ofFields 2010 1 3 0 0 0 0) 86400000) =
        some QTimeSpan.null := by
  decide

/-- C18: `contains` is inclusive on both ends and false without a reference: a span with the
valid reference `r` and the interval `i` has a start `st` and an end `en` such that it contains
a valid point `t` exactly when `st ≤ t ≤ en`; it contains its own start and its own end; a span
without a valid reference contains no point. -/
theorem contains_point_inclusive (r i : Int) :
    (∃ st en, (QTimeSpan.ofReference (some r) i).startDate = some st ∧
      (QTimeSpan.ofReference (some r) i).endDate = some en ∧
      ∀ t : Int, (QTimeSpan.ofReference (some r) i).contains (some t) = true ↔ st ≤ t ∧ t ≤ en) ∧
      (QTimeSpan.ofReference (some r) i).contains (QTimeSpan.ofReference (some r) i).startDate
        = true ∧
      (QTimeSpan.ofReference (some r) i).contains (QTimeSpan.ofReference (some r) i).endDate
        = true ∧
      ∀ p : QDateTime, (QTimeSpan.ofReference none i).contains p = false := by
  have hc : ∀ t : Int, (QTimeSpan.ofReference (some r) i).contains (some t) =
      (decide (min r (r + i) ≤ t) && decide (t ≤ max r (r + i))) := by
    intro t
    simp only [QTimeSpan.contains, QTimeSpan.ofReference, startDate_some, endDate_some, le_some,
      ge_some, QTimeSpan.hasValidReference, QDateTime.isValid, Option.isSome_some,
      Bool.not_true, Bool.false_eq_true, if_false]
  refine ⟨⟨min r (r + i), max r (r + i), startDate_some i r, endDate_some i r, fun t => ?_⟩,
    ?_, ?_, fun p => ?_⟩
  · rw [hc]; simp
  · rw [QTimeSpan.ofReference, startDate_some, ← QTimeSpan.ofReference, hc]
    simp only [Bool.and_eq_true, decide_eq_true_eq]; omega
  · rw [QTimeSpan.ofReference, endDate_some, ← QTimeSpan.ofReference, hc]
    simp only [Bool.and_eq_true, decide_eq_true_eq]; omega
  · simp [QTimeSpan.contains, QTimeSpan.ofReference, QTimeSpan.hasValidReference,
      QDateTime.isValid]

/-- C19: for every valid reference `r` and every interval `i`, the span `Span(r, i)` has
`start = r` and `end = r + i` when `i >= 0`, swapped when `i < 0`; `start <= end`, and
`start == end` if and only if `i == 0`. -/
theorem startDate_le_endDate (r i : Int) :
    (QTimeSpan.ofReference (some r) i).startDate = some (if 0 ≤ i then r else r + i) ∧
      (QTimeSpan.ofReference (some r) i).endDate = some (if 0 ≤ i then r + i else r) ∧
      QDateTime.le (QTimeSpan.ofReference (some r) i).startDate
        (QTimeSpan.ofReference (some r) i).endDate = true ∧
      ((QTimeSpan.ofReference (some r) i).startDate = (QTimeSpan.ofReference (some r) i).endDate
        ↔ i = 0) := by
  simp only [QTimeSpan.ofReference, startDate_some, endDate_some, le_some, Option.some.injEq,
    decide_eq_true_eq]
  refine ⟨?_, ?_, ?_, ?_⟩
  · split_ifs <;> omega
  · split_ifs <;> omega
  · omega
  · omega

/-! ### `qAbs` on a `qint64` -/

/-- The absolute value `qAbs` of every value above the smallest `qint64`. -/
theorem qAbs_of_gt (x : Int) (hmin : INT64_MIN < x) : qAbs x = |x| := by
  unfold INT64_MIN at hmin
  unfold qAbs toInt64
  split
  · rw [abs_of_nonneg (by omega)]
  · rw [abs_of_neg (by omega)]
    omega

/-- The absolute value `qAbs` of the smallest `qint64` is the smallest `qint64`. -/
theorem qAbs_smallest : qAbs INT64_MIN = INT64_MIN := by
  decide

/-- C20 (amended): for every interval `i` above the smallest `qint64`, `normalize` on `Span(r, i)`
with a valid reference `r` keeps the start and the end of the span and makes the interval `|i|`;
for `i < 0` the new reference is the original referenced date `r + i` and the new referenced
date is the original reference `r`; for `i >= 0` the span is unchanged. -/
theorem normalize_keeps_start_and_end (r i : Int) (hmin : INT64_MIN < i) :
    (QTimeSpan.ofReference (some r) i).normalize =
        (if i < 0 then QTimeSpan.ofReference (some (r + i)) (-i)
         else QTimeSpan.ofReference (some r) i) ∧
      (QTimeSpan.ofReference (some r) i).normalize.startDate =
        (QTimeSpan.ofReference (some r) i).startDate ∧
      (QTimeSpan.ofReference (some r) i).normalize.endDate =
        (QTimeSpan.ofReference (some r) i).endDate ∧
      0 ≤ (QTimeSpan.ofReference (some r) i).normalize.interval ∧
      (QTimeSpan.ofReference (some r) i).normalize.reference =
        (QTimeSpan.ofReference (some r) i).startDate ∧
      (QTimeSpan.ofReference (some r) i).normalize.referencedDate =
        (QTimeSpan.ofReference (some r) i).endDate ∧
      (QTimeSpan.ofReference (some r) i).normalized =
        (QTimeSpan.ofReference (some r) i).normalize := by
  have hn : (QTimeSpan.ofReference (some r) i).normalize =
      (if i < 0 then QTimeSpan.ofReference (some (r + i)) (-i)
       else QTimeSpan.ofReference (some r) i) := by
    by_cases h : i < 0
    · simp [QTimeSpan.normalize, QTimeSpan.ofReference, QTimeSpan.hasValidReference,
        QTimeSpan.referencedDate, QDateTime.isValid, QDateTime.addMSecs, qAbs_of_gt i hmin,
        abs_of_neg h, h]
    · simp [QTimeSpan.normalize, QTimeSpan.ofReference, h]
  refine ⟨hn, ?_, ?_, ?_, ?_, ?_, rfl⟩
  all_goals
    rw [hn]
    by_cases h : i < 0
    · simp only [h, if_true, QTimeSpan.ofReference, startDate_some, endDate_some,
        QTimeSpan.referencedDate, QDateTime.isValid, QDateTime.addMSecs, Option.isSome_some,
        Bool.not_true, Bool.false_eq_true, if_false, Option.some.injEq]
      omega
    · simp only [h, if_false, QTimeSpan.ofReference, startDate_some, endDate_some,
        QTimeSpan.referencedDate, QDateTime.isValid, QDateTime.addMSecs, Option.isSome_some,
        Bool.not_true, Bool.false_eq_true, if_false, Option.some.injEq]
      try omega

/-- Witness of C20 (amended): the span with reference 1000 ms and interval -400 ms is normalized
to the span with reference 600 ms and interval 400 ms. -/
theorem normalize_keeps_start_and_end_witness :
    INT64_MIN < -400 ∧
      (QTimeSpan.ofReference (some 1000) (-400)).normalize =
        QTimeSpan.ofReference (some 600) 400 :=
  ⟨by decide, (normalize_keeps_start_and_end 1000 (-400) (by decide)).1⟩

/-- C20 (counterexample): for the span with reference 1000 ms and interval -400 ms (start
600, end 1000), the end of the normalized span is 1000, not the original start 600, and its
start is 600, not the original end 1000. -/
theorem normalize_does_not_swap_start_and_end :
    (QTimeSpan.ofReference (some 1000) (-400)).startDate = some 600 ∧
      (QTimeSpan.ofReference (some 1000) (-400)).endDate = some 1000 ∧
      (QTimeSpan.ofReference (some 1000) (-400)).normalize.startDate = some 600 ∧
      (QTimeSpan.ofReference (some 1000) (-400)).normalize.endDate = some 1000 ∧
      (QTimeSpan.ofReference (some 1000) (-400)).normalize.endDate ≠
        (QTimeSpan.ofReference (some 1000) (-400)).startDate ∧
      (QTimeSpan.ofReference (some 1000) (-400)).normalize.startDate ≠
        (QTimeSpan.ofReference (some 1000) (-400)).endDate := by
  decide

/-! ### `normalized`, `abs`, comparison -/

/-- For every interval of a `qint64` other than the smallest one, `normalized()` has the same
start and the same end as the span, and an interval between 0 and the largest `qint64`. -/
theorem normalized_same_span (r i : Int) (hmin : INT64_MIN < i) (hmax : i ≤ INT64_MAX) :
    (QTimeSpan.ofReference (some r) i).normalized.startDate =
        (QTimeSpan.ofReference (some r) i).startDate ∧
      (QTimeSpan.ofReference (some r) i).normalized.endDate =
        (QTimeSpan.ofReference (some r) i).endDate ∧
      0 ≤ (QTimeSpan.ofReference (some r) i).normalized.interval ∧
      (QTimeSpan.ofReference (some r) i).normalized.interval ≤ INT64_MAX := by
  have hq := qAbs_of_gt i hmin
  unfold INT64_MIN at hmin
  unfold INT64_MAX at hmax ⊢
  by_cases h : i < 0
  · simp only [QTimeSpan.normalized, QTimeSpan.normalize, QTimeSpan.ofReference, h, if_true,
      QTimeSpan.hasValidReference, QTimeSpan.referencedDate, QDateTime.isValid,
      Option.isSome_some, Bool.not_true, Bool.false_eq_true, if_false, QDateTime.addMSecs,
      startDate_some, endDate_some, hq, abs_of_neg h, Option.some.injEq]
    omega
  · simp only [QTimeSpan.normalized, QTimeSpan.normalize, QTimeSpan.ofReference, h, if_false,
      true_and]
    omega

/-- C21 (failing input): for the span with a valid reference and the smallest 64-bit interval
`-2^63`, the interval that `normalized()` computes with `qAbs` is `-2^63` again, since the
negation of the smallest `qint64` wraps around: a negative interval. No span with the same start
and the same end and a non-negative interval has a 64-bit interval. -/
theorem normalized_of_smallest_interval :
    (QTimeSpan.ofReference (some 0) INT64_MIN).hasValidReference = true ∧
      (QTimeSpan.ofReference (some 0) INT64_MIN).normalized.interval = INT64_MIN ∧
      (QTimeSpan.ofReference (some 0) INT64_MIN).normalized.interval < 0 ∧
      toInt64 (QTimeSpan.ofReference (some 0) INT64_MIN).normalized.interval = INT64_MIN ∧
      toInt64 (QTimeSpan.ofReference (some 0) INT64_MIN).normalized.interval < 0 ∧
      ∀ t : QTimeSpan, t.startDate = (QTimeSpan.ofReference (some 0) INT64_MIN).startDate →
        t.endDate = (QTimeSpan.ofReference (some 0) INT64_MIN).endDate →
        0 ≤ t.interval → INT64_MAX < t.interval := by
  refine ⟨by decide, by decide, by decide, by decide, by decide, ?_⟩
  intro t hs he h0
  obtain ⟨i, r⟩ := t
  cases r with
  | none =>
    simp [QTimeSpan.startDate, QTimeSpan.isNegative, QTimeSpan.referencedDate,
      QTimeSpan.referenceDate, QDateTime.isValid, QTimeSpan.ofReference, INT64_MIN,
      QDateTime.addMSecs] at hs
  | some r =>
    simp only [QTimeSpan.ofReference, startDate_some, endDate_some, INT64_MIN,
      Option.some.injEq] at hs he
    simp only [INT64_MAX]
    simp only at h0
    omega

/-- For every interval `i` above the smallest `qint64` and every reference `r`, valid or not,
`abs()` is the span with interval `|i|` and reference `r`; for `i < 0` and a valid `r` it differs
from `normalized()`. -/
theorem abs_of_gt (r : QDateTime) (i : Int) (hmin : INT64_MIN < i) :
    (QTimeSpan.ofReference r i).abs = QTimeSpan.ofReference r |i| ∧
      (QTimeSpan.ofReference r i).abs.reference = r ∧
      (QDateTime.isValid r = true → i < 0 →
        (QTimeSpan.ofReference r i).abs ≠ (QTimeSpan.ofReference r i).normalized) := by
  refine ⟨?_, rfl, ?_⟩
  · simp [QTimeSpan.abs, QTimeSpan.ofReference, qAbs_of_gt i hmin]
  · intro hr hi
    cases r with
    | none => simp [QDateTime.isValid] at hr
    | some r0 =>
      simp only [QTimeSpan.abs, QTimeSpan.normalized, QTimeSpan.normalize, QTimeSpan.ofReference,
        hi, if_true, QTimeSpan.hasValidReference, QTimeSpan.referencedDate, QDateTime.isValid,
        Option.isSome_some, Bool.not_true, Bool.false_eq_true, if_false, QDateTime.addMSecs,
        ne_eq, QTimeSpan.mk.injEq, Option.some.injEq, true_and]
      omega

/-- C22 (failing input): for the span with the smallest 64-bit interval `-2^63`, with any
reference `r`, `abs()` keeps the reference `r` and returns the interval `-2^63` again, since the
negation of the smallest `qint64` wraps around: the interval of the result is negative and is
not `|i| = 2^63`. -/
theorem abs_of_smallest_interval (r : QDateTime) :
    (QTimeSpan.ofReference r INT64_MIN).abs = QTimeSpan.ofReference r INT64_MIN ∧
      (QTimeSpan.ofReference r INT64_MIN).abs.reference = r ∧
      (QTimeSpan.ofReference r INT64_MIN).abs.interval = -9223372036854775808 ∧
      (QTimeSpan.ofReference r INT64_MIN).abs.interval < 0 ∧
      (QTimeSpan.ofReference r INT64_MIN).abs.interval ≠ |INT64_MIN| ∧
      |INT64_MIN| = 9223372036854775808 ∧ INT64_MAX < |INT64_MIN| := by
  have h : (QTimeSpan.ofReference r INT64_MIN).abs = QTimeSpan.ofReference r INT64_MIN := by
    simp [QTimeSpan.abs, QTimeSpan.ofReference, qAbs_smallest]
  refine ⟨h, rfl, ?_, ?_, ?_, by decide, by decide⟩
  · rw [h]; rfl
  · rw [h]; show INT64_MIN < 0; decide
  · rw [h]; show INT64_MIN ≠ |INT64_MIN|; decide

/-- C23: the ordering of spans ignores the reference: `a < b` exactly when
`a.interval < b.interval`, `a <= b` exactly when `a.interval <= b.interval`, while `a == b`
requires equal interval and equal reference; there are spans `c` and `d` with `c <= d` and
`d <= c` that are not equal. -/
theorem ordering_ignores_reference (a b : QTimeSpan) :
    (a.opLt b = true ↔ a.interval < b.interval) ∧
      (a.opLe b = true ↔ a.interval ≤ b.interval) ∧
      (a.opEq b = true ↔ a.interval = b.interval ∧ a.reference = b.reference) ∧
      ∃ c d : QTimeSpan, c.opLe d = true ∧ d.opLe c = true ∧ c.opEq d = false := by
  refine ⟨by simp [QTimeSpan.opLt], by simp [QTimeSpan.opLe], by simp [QTimeSpan.opEq], ?_⟩
  exact ⟨QTimeSpan.ofReference (some 0) 5, QTimeSpan.ofMSecs 5, by decide, by decide, by decide⟩

/-! ### `magnitude` and `toApproximateString` -/

/-- For every span without a valid reference and an interval above the smallest `qint64`,
`magnitude` is `Milliseconds` if `|interval| < 1000`, `Seconds` if `< 60 s`, `Minutes` if
`< 60 min`, `Hours` if `< 24 h`, `Days` if `< 7 days` and `Weeks` for every larger `|interval|`,
never `Months` or `Years`; for a non-zero interval this is the largest fixed unit whose length
does not exceed `|interval|`. -/
theorem magnitude_without_reference (s : QTimeSpan) (h : s.hasValidReference = false)
    (hmin : INT64_MIN < s.interval) :
    s.magnitude =
        (if |s.interval| < 1000 then Milliseconds
         else if |s.interval| < 60000 then Seconds
         else if |s.interval| < 3600000 then Minutes
         else if |s.interval| < 86400000 then Hours
         else if |s.interval| < 604800000 then Days
         else Weeks) ∧
      s.magnitude ≠ Months ∧ s.magnitude ≠ Years ∧
      (s.interval ≠ 0 → unitFactor s.magnitude ≤ |s.interval| ∧
        ∀ u : TimeSpanUnit, u.isFixed = true → unitFactor u ≤ |s.interval| →
          unitFactor u ≤ unitFactor s.magnitude) := by
  have hm : s.magnitude =
      (if |s.interval| < 1000 then Milliseconds
       else if |s.interval| < 60000 then Seconds
       else if |s.interval| < 3600000 then Minutes
       else if |s.interval| < 86400000 then Hours
       else if |s.interval| < 604800000 then Days
       else Weeks) := by
    simp only [QTimeSpan.magnitude, h, qAbs_of_gt _ hmin, Bool.false_eq_true, if_false]
    norm_num
  have habs : s.interval ≠ 0 → 1 ≤ |s.interval| := fun h0 => Int.one_le_abs h0
  refine ⟨hm, ?_, ?_, ?_⟩
  · rw [hm]; split_ifs <;> decide
  · rw [hm]; split_ifs <;> decide
  · intro h0
    have h1 := habs h0
    rw [hm]
    refine ⟨?_, ?_⟩
    · split_ifs <;> simp only [unitFactor] <;> omega
    · intro u hu hle
      cases u <;> first
        | exact absurd hu (by decide)
        | (simp only [unitFactor] at hle
           split_ifs <;> simp only [unitFactor] <;> omega)

/-- C30 (failing input): for the span without a reference and the smallest 64-bit interval
`-2^63`, `magnitude` returns `Milliseconds`: `qAbs` of the smallest `qint64` is `-2^63` again,
which is below 1000. The largest fixed unit whose length does not exceed `|interval| = 2^63` is
`Weeks`. -/
theorem magnitude_of_smallest_interval :
    (QTimeSpan.ofMSecs INT64_MIN).hasValidReference = false ∧
      qAbs (QTimeSpan.ofMSecs INT64_MIN).interval = -9223372036854775808 ∧
      (QTimeSpan.ofMSecs INT64_MIN).magnitude = Milliseconds ∧
      unitFactor Weeks ≤ |(QTimeSpan.ofMSecs INT64_MIN).interval| ∧
      ¬ (|(QTimeSpan.ofMSecs INT64_MIN).interval| < 604800000) ∧
      (QTimeSpan.ofMSecs (INT64_MIN + 1)).magnitude = Weeks := by
  decide

/-- Spans of 999 ms, of minus 90 seconds and of 30 days without a reference. -/
theorem magnitude_without_reference_examples :
    (QTimeSpan.ofMSecs 999).magnitude = Milliseconds ∧
      (QTimeSpan.ofMSecs (-90000)).magnitude = Minutes ∧
      (QTimeSpan.ofMSecs 2592000000).magnitude = Weeks := by
  have h1 := (magnitude_without_reference (QTimeSpan.ofMSecs 999) rfl (by decide)).1
  have h2 := (magnitude_without_reference (QTimeSpan.ofMSecs (-90000)) rfl (by decide)).1
  have h3 := (magnitude_without_reference (QTimeSpan.ofMSecs 2592000000) rfl (by decide)).1
  refine ⟨?_, ?_, ?_⟩
  · rw [h1]; decide
  · rw [h2]; decide
  · rw [h3]; decide

/-- With enough iterations for the unit it starts from, the loop that looks for a unit of the
format ends on a unit of the format or on `NoUnit`. -/
theorem lowerToFormat_exit (format : TimeSpanFormat) (n : Nat) (u : TimeSpanUnit)
    (hn : u.value < 2 ^ n) :
    testFlag format (lowerToFormat format n u) = true ∨ lowerToFormat format n u = NoUnit := by
  induction n generalizing u with
  | zero =>
    right
    cases u <;> simp_all [TimeSpanUnit.value, lowerToFormat]
  | succ k ih =>
    simp only [lowerToFormat]
    split
    · apply ih
      have hv : u.half.value = u.value / 2 := by cases u <;> rfl
      rw [hv]
      rw [pow_succ] at hn
      omega
    · rename_i hc
      simp only [Bool.and_eq_true, Bool.not_eq_true', decide_eq_true_eq, not_and] at hc
      by_cases hf : testFlag format u = true
      · exact Or.inl hf
      · right
        have := hc (by simpa using hf)
        cases u <;> simp_all [TimeSpanUnit.value]

/-- The flag of `NoUnit` is not set in a format that is not empty. -/
theorem testFlag_noUnit (format : TimeSpanFormat) (hf : format ≠ 0) :
    testFlag format NoUnit = false := by
  simp [testFlag, TimeSpanUnit.value, hf]

/-- The first loop of `toApproximateString` ends on the largest unit of the format that is not
above the unit it starts from. -/
theorem lowerToFormat_primary (format : TimeSpanFormat) (hf : format ≠ 0) (u : TimeSpanUnit) :
    lowerToFormat format 8 u = specPrimaryUnit format u := by
  have h0 := testFlag_noUnit format hf
  cases u <;>
    simp only [lowerToFormat, specPrimaryUnit, unitLadder, TimeSpanUnit.value, TimeSpanUnit.half,
      List.find?, h0] <;>
    split_ifs <;> simp_all

/-- The second loop of `toApproximateString`, started from the half of the primary unit, ends
on the largest unit of the format below the primary unit; the half of `Milliseconds` is
`NoUnit`, from which the loop is started for a primary unit that is not above milliseconds. -/
theorem lowerToFormat_secondary (format : TimeSpanFormat) (hf : format ≠ 0)
    (u : TimeSpanUnit) :
    lowerToFormat format 8 u.half = specSecondaryUnit format u := by
  have h0 := testFlag_noUnit format hf
  cases u <;>
    simp only [lowerToFormat, specSecondaryUnit, unitLadder, TimeSpanUnit.value,
      TimeSpanUnit.half, List.find?, h0] <;>
    split_ifs <;> simp_all

/-- The primary unit is a unit of the format, or `NoUnit`. -/
theorem specPrimaryUnit_flag (format : TimeSpanFormat) (u : TimeSpanUnit) :
    testFlag format (specPrimaryUnit format u) = true ∨ specPrimaryUnit format u = NoUnit := by
  unfold specPrimaryUnit
  cases h : unitLadder.find? (fun w => testFlag format w && decide (w.value ≤ u.value)) with
  | none => exact Or.inr rfl
  | some w =>
    left
    have := List.find?_some h
    simp only [Bool.and_eq_true] at this
    exact this.1

/-- The secondary unit is a unit of the format, or `NoUnit`. -/
theorem specSecondaryUnit_flag (format : TimeSpanFormat) (u : TimeSpanUnit) :
    testFlag format (specSecondaryUnit format u) = true ∨ specSecondaryUnit format u = NoUnit := by
  unfold specSecondaryUnit
  cases h : unitLadder.find? (fun w => testFlag format w && decide (w.value < u.value)) with
  | none => exact Or.inr rfl
  | some w =>
    left
    have := List.find?_some h
    simp only [Bool.and_eq_true] at this
    exact this.1

/-- A fresh hash has an entry for every unit of the format. -/
theorem ofFormat_isSome (format : TimeSpanFormat) (u : TimeSpanUnit) (hu : u ≠ NoUnit)
    (hflag : testFlag format u = true) : ((TimePartHash.ofFormat format).value u).isSome = true := by
  rw [ofFormat_value format u hu, hflag]
  rfl

/-- C29 (amended): for a span whose decomposition in the format succeeds, with the primary unit
`P`, the largest unit of the format not above the magnitude, above milliseconds, and the
secondary unit `S`, the next unit of the format below `P` (`NoUnit` when there is none), whose
values `p` for `P` and `q` for `S` in the decomposition (`q = 0` without a secondary unit)
satisfy `p > 0` and `q >= 0`: `toApproximateString` renders the two units, `P` with `p` and `S`
with `q`, exactly when `q` is not 0 and `p` is smaller than the limit, or when the limit is
negative and there is a secondary unit; in every other case it renders `P` with `p` alone. -/
theorem toApproximateString_units (s : QTimeSpan) (limit : Int) (format : TimeSpanFormat)
    (partsHash : TimePartHash) (P S : TimeSpanUnit) (p q : Int)
    (hfill : (TimePartHash.ofFormat format).fill s = some partsHash)
    (hP : P = specPrimaryUnit format s.magnitude) (hms : Milliseconds.value < P.value)
    (hS : S = specSecondaryUnit format P)
    (hp : (partsHash.value P).getD 0 = p) (hq : (partsHash.value S).getD 0 = q)
    (hp0 : 0 < p) (hq0 : 0 ≤ q) :
    s.toApproximateString limit format =
      some (if (q ≠ 0 ∧ p < limit) ∨ (limit < 0 ∧ S ≠ NoUnit) then [(P, p), (S, q)]
        else [(P, p)]) := by
  have hPne : P ≠ NoUnit := by
    intro h
    rw [h] at hms
    exact absurd hms (by decide)
  have hPflag : testFlag format P = true := by
    rcases specPrimaryUnit_flag format s.magnitude with h | h
    · rw [hP]; exact h
    · exact absurd (hP.trans h) hPne
  have hf : format ≠ 0 := by
    intro h
    rw [h] at hPflag
    cases P <;> simp [testFlag, TimeSpanUnit.value] at hPflag hPne
  have hf' : ¬ (format = NoUnit.value) := hf
  have hpv : partsHash.value P = some p := by
    have := fill_value_isSome _ _ s P hfill (ofFormat_isSome format P hPne hPflag)
    obtain ⟨x, hx⟩ := Option.isSome_iff_exists.mp this
    rw [hx] at hp ⊢
    simpa using hp
  have hms' : P.value > 1 := hms
  have hprim : lowerToFormat format 8 s.magnitude = P := by
    rw [lowerToFormat_primary format hf, hP]
  have hsec : lowerToFormat format 8 P.half = S := by
    rw [lowerToFormat_secondary format hf, hS]
  have hSv : S.value > 0 ↔ S ≠ NoUnit := by
    cases S <;> simp [TimeSpanUnit.value]
  have hunits : s.approximateUnits format = some ⟨P, p, S, q⟩ := by
    unfold QTimeSpan.approximateUnits
    simp only [hprim, hsec, hms', if_true, Int.reduceNeg, Int.reduceLT, hfill, hpv]
    by_cases hSn : S = NoUnit
    · rw [hSn] at hq
      simp only [TimePartHash.value, Option.getD_none] at hq
      rw [hSn, ← hq]
      rfl
    · have hSflag : testFlag format S = true := by
        rcases specSecondaryUnit_flag format P with h | h
        · rw [hS]; exact h
        · exact absurd (hS.trans h) hSn
      have := fill_value_isSome _ _ s S hfill (ofFormat_isSome format S hSn hSflag)
      obtain ⟨x, hx⟩ := Option.isSome_iff_exists.mp this
      rw [hx] at hq
      simp only [Option.getD_some] at hq
      simp only [hSv.mpr hSn, if_true, hx, hq]
  have hSv' : S.value > NoUnit.value ↔ S ≠ NoUnit := hSv
  simp only [QTimeSpan.toApproximateString, hf', if_false, hunits]
  have hcond : (((decide (p > 0) && decide (q > 0) && decide (p < limit))
      || (decide (limit < 0) && decide (S.value > NoUnit.value))) = true) ↔
      ((q ≠ 0 ∧ p < limit) ∨ (limit < 0 ∧ S ≠ NoUnit)) := by
    simp only [Bool.or_eq_true, Bool.and_eq_true, decide_eq_true_eq, hSv']
    constructor
    · rintro (⟨⟨_, h2⟩, h3⟩ | ⟨h1, h2⟩)
      · exact Or.inl ⟨by omega, h3⟩
      · exact Or.inr ⟨h1, h2⟩
    · rintro (⟨h1, h2⟩ | ⟨h1, h2⟩)
      · exact Or.inl ⟨⟨hp0, by omega⟩, h2⟩
      · exact Or.inr ⟨h1, h2⟩
  by_cases hc : (q ≠ 0 ∧ p < limit) ∨ (limit < 0 ∧ S ≠ NoUnit)
  · rw [if_pos (hcond.mpr hc), if_pos hc]
  · rw [if_neg (fun h => hc (hcond.mp h)), if_neg hc, if_neg hPne]

/-- Witness of C29 (amended): a span of 1 hour 30 minutes with the format hours and minutes
renders two units below the limit 5, and the hours alone with the limit 1. -/
theorem toApproximateString_units_witness :
    (QTimeSpan.ofMSecs 5400000).toApproximateString 5 (Hours.value ||| Minutes.value) =
        some [(Hours, 1), (Minutes, 30)] ∧
      (QTimeSpan.ofMSecs 5400000).toApproximateString 1 (Hours.value ||| Minutes.value) =
        some [(Hours, 1)] :=
  ⟨toApproximateString_units (QTimeSpan.ofMSecs 5400000) 5 (Hours.value ||| Minutes.value)
      ⟨none, none, some 30, some 1, none, none, none, none⟩ Hours Minutes 1 30
      (by decide) (by decide) (by decide) (by decide) (by decide) (by decide) (by decide)
      (by decide),
   toApproximateString_units (QTimeSpan.ofMSecs 5400000) 1 (Hours.value ||| Minutes.value)
      ⟨none, none, some 30, some 1, none, none, none, none⟩ Hours Minutes 1 30
      (by decide) (by decide) (by decide) (by decide) (by decide) (by decide) (by decide)
      (by decide)⟩

/-- The magnitude of a span with a non-negative interval: the largest fixed unit that is not
longer than the interval, `Milliseconds` below one second, and one of `Weeks`, `Months` and
`Years` from seven days on. -/
theorem magnitude_of_nonneg (s : QTimeSpan) (h0 : 0 ≤ s.interval) :
    (s.magnitude = Milliseconds ∧ s.interval < 1000) ∨
      (s.magnitude = Seconds ∧ 1000 ≤ s.interval ∧ s.interval < 60000) ∨
      (s.magnitude = Minutes ∧ 60000 ≤ s.interval ∧ s.interval < 3600000) ∨
      (s.magnitude = Hours ∧ 3600000 ≤ s.interval ∧ s.interval < 86400000) ∨
      (s.magnitude = Days ∧ 86400000 ≤ s.interval ∧ s.interval < 604800000) ∨
      ((s.magnitude = Weeks ∨ s.magnitude = Months ∨ s.magnitude = Years) ∧
        604800000 ≤ s.interval) := by
  have hq : qAbs s.interval = s.interval := by
    unfold qAbs
    rw [if_pos h0]
  unfold QTimeSpan.magnitude
  simp only [hq]
  norm_num
  split_ifs <;> simp <;> omega

/-- C29 (counterexample): a span of exactly 1 hour with the format hours and minutes and a
negative limit is rendered with two units, 1 hour and 0 minutes, although the value of the
secondary unit is zero. -/
theorem toApproximateString_negative_limit_zero_secondary :
    (QTimeSpan.ofMSecs 3600000).approximateUnits (Hours.value ||| Minutes.value) =
        some ⟨Hours, 1, Minutes, 0⟩ ∧
      (QTimeSpan.ofMSecs 3600000).toApproximateString (-1) (Hours.value ||| Minutes.value) =
        some [(Hours, 1), (Minutes, 0)] := by
  decide

/-! ### The tokenizer on patterns without quotes, and on one quoted text -/

/-- A character with a unit in the alphabet is the letter of that unit. -/
theorem tokenHash_letter (a : Char) (u : TimeSpanUnit) (h : tokenHash a = some u) :
    a = unitLetter u := by
  unfold tokenHash at h
  repeat' split at h
  all_goals first | (cases h; subst_vars; rfl) | cases h

/-- Two characters with the same unit in the alphabet are the same letter. -/
theorem tokenHash_inj (a b : Char) (u : TimeSpanUnit) (ha : tokenHash a = some u)
    (hb : tokenHash b = some u) : a = b :=
  (tokenHash_letter a u ha).trans (tokenHash_letter b u hb).symm

/-- Two characters belong to the same run exactly when the alphabet gives them the same unit, or
no unit to either. -/
theorem sameRun_iff (a b : Char) : sameRun a b = true ↔ tokenHash a = tokenHash b := by
  unfold sameRun
  cases ha : tokenHash a with
  | none => cases hb : tokenHash b <;> simp
  | some u =>
    simp only [beq_iff_eq]
    constructor
    · intro h; rw [← h, ha]
    · intro h; exact tokenHash_inj a b u ha h.symm

/-- The token of a run that was collected in reverse, when all its characters have the unit of
the one collected last. -/
theorem runToken_reverse (ag : Char) (g : List Char)
    (hg : ∀ x ∈ g, tokenHash x = tokenHash ag) :
    runToken (ag :: g).reverse =
      match tokenHash ag with
      | some unit => { type := unit, length := g.length + 1, string := [] }
      | none => { type := NoUnit, length := g.length + 1, string := (ag :: g).reverse } := by
  have hhead : (ag :: g).reverse.head?.bind tokenHash = tokenHash ag := by
    rw [List.head?_reverse]
    cases hl : (ag :: g).getLast? with
    | none => simp at hl
    | some x =>
      have hx : x ∈ ag :: g := List.mem_of_getLast?_eq_some hl
      rcases List.mem_cons.mp hx with rfl | hx
      · rfl
      · exact hg x hx
  unfold runToken
  rw [hhead]
  cases tokenHash ag <;> simp

/-- The tokenizer's loop outside a literal, on characters without a quote, collects the runs as
`List.splitBy` does: the last token of the list stands for the run that is being collected. -/
theorem parseLoop_splitBy (rest : List Char) (ag : Char) (g : List Char)
    (gs : List (List Char)) (format : TimeSpanFormat) (hq : '\'' ∉ rest)
    (hg : ∀ x ∈ g, tokenHash x = tokenHash ag) :
    (parseLoop rest (gs.reverse.map runToken ++ [runToken (ag :: g).reverse]) format false).1 =
      (List.splitBy.loop sameRun rest ag g gs).map runToken := by
  induction rest generalizing ag g gs format with
  | nil => simp [parseLoop, List.splitBy.loop]
  | cons a as ih =>
    have hne : a ≠ '\'' := fun h => hq (h ▸ List.mem_cons_self _ _)
    have hq' : '\'' ∉ as := fun h => hq (List.mem_cons_of_mem _ h)
    have hsingle : ∀ c : Char, runToken [c] =
        match tokenHash c with
        | some unit => { type := unit, length := 1, string := [] }
        | none => { type := NoUnit, length := 1, string := [c] } := fun c => by
      simpa using runToken_reverse c [] (by simp)
    have hnext : ∀ fmt2, (parseLoop as
          (((ag :: g).reverse :: gs).reverse.map runToken ++ [runToken [a]]) fmt2 false).1 =
        (List.splitBy.loop sameRun as a [] ((ag :: g).reverse :: gs)).map runToken :=
      fun fmt2 => by simpa using ih a [] ((ag :: g).reverse :: gs) fmt2 hq' (by simp)
    have hlist : ((ag :: g).reverse :: gs).reverse.map runToken =
        gs.reverse.map runToken ++ [runToken (ag :: g).reverse] := by simp
    rw [parseLoop.eq_def]
    simp only [hne, if_false, List.getLast?_concat, List.dropLast_concat]
    rw [List.splitBy.loop]
    cases ha : tokenHash a with
    | some u =>
      have hu : u ≠ NoUnit := tokenHash_ne_noUnit a u ha
      cases hag : tokenHash ag with
      | some ua =>
        rw [runToken_reverse ag g hg, hag]
        by_cases he : ua = u
        · subst he
          have hsame : sameRun ag a = true := (sameRun_iff ag a).mpr (hag.trans ha.symm)
          have hg2 : ∀ x ∈ ag :: g, tokenHash x = tokenHash a := by
            intro x hx
            rcases List.mem_cons.mp hx with rfl | hx
            · exact hag.trans ha.symm
            · exact (hg x hx).trans (hag.trans ha.symm)
          have := ih a (ag :: g) gs (format ||| ua.value) hq' hg2
          rw [runToken_reverse a (ag :: g) hg2, ha] at this
          simpa [hsame] using this
        · have hdiff : sameRun ag a = false := by
            rw [Bool.eq_false_iff]
            intro h
            have := (sameRun_iff ag a).mp h
            rw [hag, ha] at this
            exact he (Option.some.inj this)
          have := hnext (format ||| u.value)
          rw [hlist, runToken_reverse ag g hg, hag, hsingle a, ha] at this
          simpa [hdiff, he] using this
      | none =>
        have hdiff : sameRun ag a = false := by
          rw [Bool.eq_false_iff]
          intro h
          have := (sameRun_iff ag a).mp h
          rw [hag, ha] at this
          exact absurd this (by simp)
        have := hnext (format ||| u.value)
        rw [hlist, runToken_reverse ag g hg, hag, hsingle a, ha] at this
        rw [runToken_reverse ag g hg, hag]
        simpa [hdiff, hu.symm] using this
    | none =>
      cases hag : tokenHash ag with
      | some ua =>
        have hua : ua ≠ NoUnit := tokenHash_ne_noUnit ag ua hag
        have hdiff : sameRun ag a = false := by
          rw [Bool.eq_false_iff]
          intro h
          have := (sameRun_iff ag a).mp h
          rw [hag, ha] at this
          exact absurd this (by simp)
        have := hnext format
        rw [hlist, runToken_reverse ag g hg, hag, hsingle a, ha] at this
        rw [runToken_reverse ag g hg, hag]
        simpa [hdiff, hua] using this
      | none =>
        have hsame : sameRun ag a = true := (sameRun_iff ag a).mpr (hag.trans ha.symm)
        have hg2 : ∀ x ∈ ag :: g, tokenHash x = tokenHash a := by
          intro x hx
          rcases List.mem_cons.mp hx with rfl | hx
          · exact hag.trans ha.symm
          · exact (hg x hx).trans (hag.trans ha.symm)
        have := ih a (ag :: g) gs format hq' hg2
        rw [runToken_reverse a (ag :: g) hg2, ha] at this
        rw [runToken_reverse ag g hg, hag]
        simpa [hsame] using this

/-- C24: for every format pattern that contains no single quote, the token list is the list of
the maximal runs of the pattern, in order: one unit token `(unit, N)` for a run of `N` identical
alphabet letters, one literal token holding the text for a run of characters outside the
alphabet; the returned flags are exactly the units that have a token. -/
theorem parseFormatString_maximal_runs (p : QString) (hq : '\'' ∉ p) :
    (parseFormatString p).1 = (p.splitBy sameRun).map runToken ∧
      ∀ u : TimeSpanUnit, u ≠ NoUnit →
        (testFlag (parseFormatString p).2 u = true ↔
          ∃ t ∈ (parseFormatString p).1, t.type = u) := by
  constructor
  · cases p with
    | nil => rfl
    | cons c cs =>
      have hne : c ≠ '\'' := fun h => hq (h ▸ List.mem_cons_self _ _)
      have hq' : '\'' ∉ cs := fun h => hq (List.mem_cons_of_mem _ h)
      have hsingle : runToken [c] =
          match tokenHash c with
          | some unit => { type := unit, length := 1, string := [] }
          | none => { type := NoUnit, length := 1, string := [c] } := by
        simpa using runToken_reverse c [] (by simp)
      unfold parseFormatString
      rw [parseLoop.eq_def]
      simp only [hne, if_false, List.getLast?_nil, List.nil_append]
      rw [List.splitBy]
      cases hc : tokenHash c with
      | some u =>
        have := parseLoop_splitBy cs c [] [] (0 ||| u.value) hq' (by simp)
        simp only [List.reverse_cons, List.reverse_nil, List.nil_append, List.map_nil] at this
        rw [hsingle, hc] at this
        simpa using this
      | none =>
        have := parseLoop_splitBy cs c [] [] 0 hq' (by simp)
        simp only [List.reverse_cons, List.reverse_nil, List.nil_append, List.map_nil] at this
        rw [hsingle, hc] at this
        simpa using this
  · obtain ⟨_, I2, I3⟩ := parseFormatString_inv p
    intro u hu
    constructor
    · exact I3 u hu
    · rintro ⟨t, ht, rfl⟩
      exact I2 t ht hu

/-- Witness of C24: the pattern `hh:mm:ss` has five runs. -/
theorem parseFormatString_maximal_runs_witness :
    (parseFormatString "hh:mm:ss".toList).1 =
        [⟨Hours, 2, []⟩, ⟨NoUnit, 1, [':']⟩, ⟨Minutes, 2, []⟩, ⟨NoUnit, 1, [':']⟩,
          ⟨Seconds, 2, []⟩] ∧
      (testFlag (parseFormatString "hh:mm:ss".toList).2 Hours = true ↔
        ∃ t ∈ (parseFormatString "hh:mm:ss".toList).1, t.type = Hours) := by
  have h := parseFormatString_maximal_runs "hh:mm:ss".toList (by decide)
  exact ⟨h.1.trans (by decide), h.2 Hours (by decide)⟩

/-- Appending a character to the last token of a list that ends with the token `T`. -/
theorem appendToLast_concat (tl : List TimeFormatToken) (T : TimeFormatToken) (c : Char) :
    appendToLast (tl ++ [T]) c =
      tl ++ [{ T with string := T.string ++ [c], length := (T.string ++ [c]).length }] := by
  simp [appendToLast]

/-- The tokenizer's loop inside a literal, on a text with doubled quotes followed by the closing
quote: the text is appended to the last token. -/
theorem parseLoop_literal (t : QString) (tl : List TimeFormatToken) (T : TimeFormatToken)
    (format : TimeSpanFormat) (hT : T.length = T.string.length) :
    parseLoop (doubleQuotes t ++ ['\'']) (tl ++ [T]) format true =
      (tl ++ [{ T with string := T.string ++ t, length := (T.string ++ t).length }], format) := by
  induction t generalizing T with
  | nil =>
    have e : parseLoop ['\''] (tl ++ [T]) format true = (tl ++ [T], format) := by
      rw [parseLoop]; simp
    simp only [doubleQuotes, List.flatMap_nil, List.nil_append, List.append_nil]
    rw [e, ← hT]
  | cons c t' ih =>
    have hcons : doubleQuotes (c :: t') =
        (if c = '\'' then ['\'', '\''] else [c]) ++ doubleQuotes t' := by
      simp [doubleQuotes, List.flatMap_cons]
    rw [hcons]
    by_cases hc : c = '\''
    · subst hc
      have e : parseLoop ('\'' :: '\'' :: (doubleQuotes t' ++ ['\''])) (tl ++ [T]) format true =
          parseLoop (doubleQuotes t' ++ ['\'']) (appendToLast (tl ++ [T]) '\'') format true := by
        rw [parseLoop]; simp only [if_true]
      simp only [if_true, List.cons_append, List.nil_append]
      rw [e, appendToLast_concat, ih _ rfl]
      simp
    · have e : parseLoop (c :: (doubleQuotes t' ++ ['\''])) (tl ++ [T]) format true =
          parseLoop (doubleQuotes t' ++ ['\'']) (appendToLast (tl ++ [T]) c) format true := by
        rw [parseLoop.eq_def]; simp only [hc, if_false]
      simp only [hc, if_false, List.cons_append, List.nil_append]
      rw [e, appendToLast_concat, ih _ rfl]
      simp

/-- C25: for every text `t`, the pattern made of a single quote, `t` with each single quote
doubled, and a closing single quote tokenizes to exactly one literal token whose string is `t`
and whose length is the length of `t`, and sets no unit flag; the pattern of four single quotes
gives the single literal token holding one single quote. -/
theorem parseFormatString_quoted (t : QString) :
    parseFormatString (quoted t) = ([⟨NoUnit, t.length, t⟩], NoUnit.value) ∧
      (∀ u : TimeSpanUnit, u ≠ NoUnit → testFlag (parseFormatString (quoted t)).2 u = false) ∧
      quoted ['\''] = ['\'', '\'', '\'', '\''] ∧
      parseFormatString ['\'', '\'', '\'', '\''] = ([⟨NoUnit, 1, ['\'']⟩], NoUnit.value) := by
  have h : parseFormatString (quoted t) = ([⟨NoUnit, t.length, t⟩], NoUnit.value) := by
    have e : parseLoop ('\'' :: (doubleQuotes t ++ ['\''])) [] 0 false =
        parseLoop (doubleQuotes t ++ ['\'']) ([] ++ [⟨NoUnit, 0, []⟩]) 0 true := by
      rw [parseLoop]; simp
    unfold parseFormatString quoted
    rw [e, parseLoop_literal t [] ⟨NoUnit, 0, []⟩ 0 rfl]
    simp [TimeSpanUnit.value]
  refine ⟨h, ?_, by decide, by decide⟩
  intro u hu
  rw [h]
  show testFlag NoUnit.value u = false
  cases u <;> first | exact absurd rfl hu | decide

/-! ### `toString` and `fromString` token by token -/

/-- The rendering loop of `toString`, when the hash has a value for the unit of every unit token:
the texts of the tokens are appended in order. -/
theorem renderTokens_eq (h : TimePartHash) (ts : List TimeFormatToken) (acc : QString)
    (hval : ∀ t ∈ ts, t.type ≠ NoUnit → (h.value t.type).isSome = true) :
    renderTokens h ts acc = some (acc ++ (ts.map (tokenText h)).flatten) := by
  induction ts generalizing acc with
  | nil => simp [renderTokens]
  | cons t rest ih =>
    have hval' : ∀ x ∈ rest, x.type ≠ NoUnit → (h.value x.type).isSome = true :=
      fun x hx => hval x (List.mem_cons_of_mem _ hx)
    simp only [renderTokens, List.map_cons, List.flatten_cons]
    by_cases hty : t.type = NoUnit
    · simp only [hty, if_true, tokenText]
      rw [ih _ hval', List.append_assoc]
    · have hs := hval t (List.mem_cons_self _ _) hty
      obtain ⟨v, hv⟩ := Option.isSome_iff_exists.mp hs
      simp only [hty, if_false, tokenText, hv, Option.getD_some]
      rw [ih _ hval', List.append_assoc]

/-- C26 (amended): for every span with interval >= 0 and every pattern whose unit letters are
fixed units, `toString` returns the null string when the decomposition into the units of the
pattern fails; when it succeeds, `toString` returns the concatenation, in token order, of the
text of each literal token and, for each unit token, of the base-10 digits of the value of its
unit, left-padded with `0` to the token width and never truncated. The values exist for exactly
the units of the pattern, lie between 0 and `INT_MAX - 1`, and add up to the interval when the
pattern contains milliseconds. -/
theorem toString_renders_tokens (s : QTimeSpan) (p : QString) (hpos : 0 ≤ s.interval)
    (hM : testFlag (parseFormatString p).2 Months = false)
    (hY : testFlag (parseFormatString p).2 Years = false) :
    match (TimePartHash.ofFormat (parseFormatString p).2).fill s with
    | none => s.toString p = none
    | some h =>
      s.toString p = some (((parseFormatString p).1.map (tokenText h)).flatten) ∧
      (∀ u, u ≠ NoUnit → Written (testFlag (parseFormatString p).2 u) (h.value u)) ∧
      (testFlag (parseFormatString p).2 Milliseconds = true → h.totalMSecs = s.interval) ∧
      ∀ t ∈ (parseFormatString p).1,
        (t.type = NoUnit → tokenText h t = t.string) ∧
        (t.type ≠ NoUnit → ∃ v, h.value t.type = some v ∧ 0 ≤ v ∧
          tokenText h t =
            List.replicate (t.length - (decimal v.natAbs).length) '0' ++ decimal v.natAbs ∧
          t.length ≤ (tokenText h t).length ∧
          toInt (tokenText h t) = some v) := by
  obtain ⟨_, I2, _⟩ := parseFormatString_inv p
  cases hfill : (TimePartHash.ofFormat (parseFormatString p).2).fill s with
  | none => simp [QTimeSpan.toString, hfill]
  | some h =>
    obtain ⟨hW, hsum⟩ := fill_fixed_spec _ s h hpos hM hY hfill
    have hvals : ∀ t ∈ (parseFormatString p).1, t.type ≠ NoUnit →
        ∃ v, h.value t.type = some v ∧ 0 ≤ v ∧ v < 2147483647 := by
      intro t ht hty
      have hw := hW t.type hty
      rw [I2 t ht hty] at hw
      simpa [Written] using hw
    refine ⟨?_, hW, hsum, ?_⟩
    · simp only [QTimeSpan.toString, hfill]
      rw [renderTokens_eq h _ []]
      · simp
      · intro t ht hty
        obtain ⟨v, hv, _⟩ := hvals t ht hty
        simp [hv]
    · intro t ht
      refine ⟨fun hty => by simp [tokenText, hty], fun hty => ?_⟩
      obtain ⟨v, hv, hv0, hv1⟩ := hvals t ht hty
      have htext : tokenText h t = argInt v t.length := by simp [tokenText, hty, hv]
      refine ⟨v, hv, hv0, ?_, ?_, ?_⟩
      · rw [htext, argInt_of_nonneg v _ hv0]
      · rw [htext]; exact argInt_length_ge v _ hv0
      · rw [htext]; exact toInt_argInt v _ hv0 (by omega)

/-- Witness of C26 (amended): a span of 3 661 000 ms with the pattern `hh:mm:ss` gives
`01:01:01`. -/
theorem toString_renders_tokens_witness :
    (QTimeSpan.ofMSecs 3661000).toString "hh:mm:ss".toList = some "01:01:01".toList := by
  have h := toString_renders_tokens (QTimeSpan.ofMSecs 3661000) "hh:mm:ss".toList (by decide)
    (by decide) (by decide)
  have hfill : (TimePartHash.ofFormat (parseFormatString "hh:mm:ss".toList).2).fill
      (QTimeSpan.ofMSecs 3661000) =
      some ⟨none, some 1, some 1, some 1, none, none, none, none⟩ := by decide
  rw [hfill] at h
  exact h.1.trans (by decide)

/-- C26 (counterexample): the span of 2 147 483 647 ms, whose interval is >= 0, with the pattern
`z`, whose only unit letter is a fixed unit: the decomposition fails and `toString` returns the
null string, not the digits of the value; for one millisecond less it returns the digits. -/
theorem toString_null_when_parts_fails :
    0 ≤ (QTimeSpan.ofMSecs 2147483647).interval ∧
      testFlag (parseFormatString ['z']).2 Months = false ∧
      testFlag (parseFormatString ['z']).2 Years = false ∧
      (QTimeSpan.ofMSecs 2147483647).toString ['z'] = none ∧
      (QTimeSpan.ofMSecs 2147483646).toString ['z'] = some "2147483646".toList := by
  decide

/-- The extraction loop of `fromString` fails when the slice of a unit token does not convert to
an integer, whatever comes before and after that token. -/
theorem extractValues_fails (pre : List TimeFormatToken) (t : TimeFormatToken)
    (post : List TimeFormatToken) (input : QString) (g : TimePartHash)
    (hunit : t.type ≠ NoUnit)
    (hbad : toInt (trimmed ((input.drop (pre.map TimeFormatToken.length).sum).take t.length))
      = none) :
    extractValues (pre ++ t :: post) input g = none := by
  induction pre generalizing input g with
  | nil =>
    simp only [List.map_nil, List.sum_nil, List.drop_zero] at hbad
    simp [extractValues, hunit, hbad]
  | cons x pre' ih =>
    have hdrop : (input.drop x.length).drop (pre'.map TimeFormatToken.length).sum =
        input.drop ((x :: pre').map TimeFormatToken.length).sum := by
      rw [List.drop_drop, List.map_cons, List.sum_cons, Nat.add_comm]
    have hbad' : toInt (trimmed (((input.drop x.length).drop
        (pre'.map TimeFormatToken.length).sum).take t.length)) = none := by
      rw [hdrop]; exact hbad
    simp only [List.cons_append, extractValues]
    split
    · exact ih _ _ hbad'
    · cases toInt (trimmed (List.take x.length input)) with
      | none => rfl
      | some v => exact ih _ _ hbad'

/-- C27: for every input text, pattern and reference, valid or not: if for some unit token the
slice of the remaining input of that token's width, after trimming white space, does not
convert to a signed integer (also when the input is too short), `fromString` returns the null
span, with interval 0 and no valid reference. -/
theorem fromString_null_on_parse_failure (order : List TimeSpanUnit)
    (string format : QString) (reference : QDateTime)
    (pre : List TimeFormatToken) (t : TimeFormatToken) (post : List TimeFormatToken)
    (htok : (parseFormatString format).1 = pre ++ t :: post) (hunit : t.type ≠ NoUnit)
    (hbad : toInt (trimmed ((string.drop (pre.map TimeFormatToken.length).sum).take t.length))
      = none) :
    QTimeSpan.fromString order string format reference = some QTimeSpan.null ∧
      QTimeSpan.null.interval = 0 ∧ QTimeSpan.null.hasValidReference = false ∧
      QTimeSpan.null.isNull = true := by
  refine ⟨?_, rfl, rfl, rfl⟩
  simp only [QTimeSpan.fromString, htok, extractValues_fails pre t post string _ hunit hbad]

/-- Witness of C27: with the pattern `hh:mm:ss` and the reference 5 ms after the epoch, the
input `01:0x:01`, whose minutes are not a number, and the input `01:`, which is too short, give
the null span. -/
theorem fromString_null_on_parse_failure_witness :
    QTimeSpan.fromString hashKeys "01:0x:01".toList "hh:mm:ss".toList (some 5) =
        some QTimeSpan.null ∧
      QTimeSpan.fromString hashKeys "01:".toList "hh:mm:ss".toList (some 5) =
        some QTimeSpan.null :=
  ⟨(fromString_null_on_parse_failure hashKeys "01:0x:01".toList "hh:mm:ss".toList (some 5)
      [⟨Hours, 2, []⟩, ⟨NoUnit, 1, [':']⟩] ⟨Minutes, 2, []⟩
      [⟨NoUnit, 1, [':']⟩, ⟨Seconds, 2, []⟩] (by decide) (by decide) (by decide)).1,
   (fromString_null_on_parse_failure hashKeys "01:".toList "hh:mm:ss".toList (some 5)
      [⟨Hours, 2, []⟩, ⟨NoUnit, 1, [':']⟩] ⟨Minutes, 2, []⟩
      [⟨NoUnit, 1, [':']⟩, ⟨Seconds, 2, []⟩] (by decide) (by decide) (by decide)).1⟩

/-- The milliseconds represented by a hash after an assignment through it. -/
theorem totalMSecs_set (g : TimePartHash) (u : TimeSpanUnit) (v : Int) (hu : u ≠ NoUnit) :
    (g.set u v).totalMSecs =
      g.totalMSecs - (g.value u).getD 0 * unitFactor u + v * unitFactor u := by
  cases u <;> first
    | exact absurd rfl hu
    | (simp only [TimePartHash.totalMSecs, hashKeys, TimePartHash.set, TimePartHash.value,
        List.map, List.sum_cons, List.sum_nil, unitFactor, Option.getD_some]
       ring)

/-- Every entry of a fresh hash counts for 0. -/
theorem ofFormat_getD (F : TimeSpanFormat) (u : TimeSpanUnit) :
    ((TimePartHash.ofFormat F).value u).getD 0 = 0 := by
  cases u <;> simp only [TimePartHash.ofFormat, TimePartHash.value] <;> first
    | rfl
    | (split <;> rfl)

/-- The method `toInt` returns the value of an `int`. -/
theorem toInt_range (s : QString) (v : Int) (h : toInt s = some v) : |v| ≤ 2 ^ 31 := by
  unfold toInt at h
  simp only at h
  split_ifs at h
  all_goals
    split at h
    · cases h
    · split_ifs at h
      all_goals
        simp only [Option.some.injEq] at h
        rw [← h, abs_le]
        constructor <;> omega

/-- Setting one entry of a hash changes the sum of the magnitudes by the magnitude of that
entry. -/
theorem totalMagnitude_set (g : TimePartHash) (u : TimeSpanUnit) (v : Int) (hu : u ≠ NoUnit) :
    (g.set u v).totalMagnitude =
      g.totalMagnitude - |(g.value u).getD 0| * unitFactor u + |v| * unitFactor u := by
  cases u <;> first
    | exact absurd rfl hu
    | (simp only [TimePartHash.totalMagnitude, hashKeys, TimePartHash.set, TimePartHash.value,
        List.map, List.sum_cons, List.sum_nil, unitFactor, Option.getD_some]
       ring)

/-- The extraction loop of `fromString` on a token list in which each unit occurs in a single
token, from a hash whose entries for those units count for 0 and whose entries are values of an
`int`: it succeeds when every slice converts, the entries then represent `parsedTotal` more
milliseconds and `parsedMagnitude` more in magnitude, they are values of an `int`, and the
entries of the units without a token are unchanged. -/
theorem extractValues_total (ts : List TimeFormatToken) (input : QString) (g : TimePartHash)
    (total mag : Int)
    (hsingle : ts.Pairwise (fun a b => a.type ≠ NoUnit → a.type ≠ b.type))
    (hzero : ∀ t ∈ ts, t.type ≠ NoUnit → (g.value t.type).getD 0 = 0)
    (hint : ∀ u v, g.value u = some v → |v| ≤ 2 ^ 31)
    (hparse : parsedTotal ts input = some total)
    (hmag : parsedMagnitude ts input = some mag) :
    ∃ g', extractValues ts input g = some g' ∧ g'.totalMSecs = g.totalMSecs + total ∧
      g'.totalMagnitude = g.totalMagnitude + mag ∧
      (∀ u v, g'.value u = some v → |v| ≤ 2 ^ 31) ∧
      ∀ u, (∀ t ∈ ts, t.type ≠ u) → g'.value u = g.value u := by
  induction ts generalizing input g total mag with
  | nil =>
    simp only [parsedTotal, parsedMagnitude, Option.some.injEq] at hparse hmag
    exact ⟨g, rfl, by omega, by omega, hint, fun _ _ => rfl⟩
  | cons t rest ih =>
    obtain ⟨hhead, htail⟩ := List.pairwise_cons.mp hsingle
    by_cases hty : t.type = NoUnit
    · simp only [parsedTotal, parsedMagnitude, hty, if_true] at hparse hmag
      obtain ⟨g', h1, h2, h3, h4, h5⟩ := ih _ g total mag htail
        (fun x hx hxu => hzero x (List.mem_cons_of_mem _ hx) hxu) hint hparse hmag
      refine ⟨g', ?_, h2, h3, h4, fun u hu => h5 u (fun x hx => hu x (List.mem_cons_of_mem _ hx))⟩
      simp only [extractValues, hty, if_true]
      exact h1
    · simp only [parsedTotal, parsedMagnitude, hty, if_false] at hparse hmag
      cases hv : toInt (trimmed (List.take t.length input)) with
      | none => simp [hv] at hparse
      | some v =>
        cases hr : parsedTotal rest (List.drop t.length input) with
        | none => simp [hv, hr] at hparse
        | some tot =>
          cases hr2 : parsedMagnitude rest (List.drop t.length input) with
          | none => simp [hv, hr2] at hmag
          | some tot2 =>
            simp only [hv, hr, hr2, Option.some.injEq] at hparse hmag
            have hzero' : ∀ x ∈ rest, x.type ≠ NoUnit →
                ((g.set t.type v).value x.type).getD 0 = 0 := by
              intro x hx hxu
              rw [set_value g t.type x.type v hty, if_neg (fun h => hhead x hx hty h.symm)]
              exact hzero x (List.mem_cons_of_mem _ hx) hxu
            have hint' : ∀ u w, (g.set t.type v).value u = some w → |w| ≤ 2 ^ 31 := by
              intro u w hw
              rw [set_value g t.type u v hty] at hw
              split at hw
              · cases hw
                exact toInt_range _ _ hv
              · exact hint u w hw
            obtain ⟨g', h1, h2, h3, h4, h5⟩ :=
              ih _ (g.set t.type v) tot tot2 htail hzero' hint' hr hr2
            refine ⟨g', ?_, ?_, ?_, h4, ?_⟩
            · simp only [extractValues, hty, if_false, hv]
              exact h1
            · rw [h2, totalMSecs_set g t.type v hty, hzero t (List.mem_cons_self _ _) hty]
              omega
            · rw [h3, totalMagnitude_set g t.type v hty, hzero t (List.mem_cons_self _ _) hty]
              simp only [abs_zero, zero_mul]
              omega
            · intro u hu
              rw [h5 u (fun x hx => hu x (List.mem_cons_of_mem _ hx)),
                set_value g t.type u v hty,
                if_neg (fun h => hu t (List.mem_cons_self _ _) h.symm)]

/-- C28 (amended): for every pattern whose unit letters are fixed units, each unit occurring in
a single token, every reference and every input text in which each unit slice parses as an
integer, such that the sum over the unit tokens of |parsed value| × unit length is at most
`2 ^ 53` milliseconds, `fromString` returns the span with the given reference whose interval is
the sum over the unit tokens of parsed value × unit length in milliseconds, whatever the order
in which the hash iterator visits the units. -/
theorem fromString_sums_units (order : List TimeSpanUnit) (string format : QString)
    (reference : QDateTime) (total mag : Int) (horder : order.Perm hashKeys)
    (hM : testFlag (parseFormatString format).2 Months = false)
    (hY : testFlag (parseFormatString format).2 Years = false)
    (hsingle : (parseFormatString format).1.Pairwise
      (fun a b => a.type ≠ NoUnit → a.type ≠ b.type))
    (hparse : parsedTotal (parseFormatString format).1 string = some total)
    (hmag : parsedMagnitude (parseFormatString format).1 string = some mag)
    (hb : mag ≤ 2 ^ 53) :
    QTimeSpan.fromString order string format reference =
      some (QTimeSpan.ofReference reference total) := by
  obtain ⟨_, I2, _⟩ := parseFormatString_inv format
  have hno : ∀ u, u ≠ NoUnit → testFlag (parseFormatString format).2 u = false →
      ∀ t ∈ (parseFormatString format).1, t.type ≠ u := by
    intro u hu hflag t ht htu
    have := I2 t ht (htu ▸ hu)
    rw [htu, hflag] at this
    exact absurd this (by simp)
  have hint0 : ∀ u v, (TimePartHash.ofFormat (parseFormatString format).2).value u = some v →
      |v| ≤ 2 ^ 31 := by
    intro u v hv
    have h0 := ofFormat_getD (parseFormatString format).2 u
    rw [hv] at h0
    simp only [Option.getD_some] at h0
    rw [h0]
    norm_num
  obtain ⟨g, hex, htot, hmg, hint, hkeep⟩ := extractValues_total _ string
    (TimePartHash.ofFormat (parseFormatString format).2) total mag hsingle
    (fun t _ _ => ofFormat_getD _ _) hint0 hparse hmag
  have h0 : (TimePartHash.ofFormat (parseFormatString format).2).totalMSecs = 0 := by
    simp [TimePartHash.totalMSecs, hashKeys, ofFormat_getD]
  have h0' : (TimePartHash.ofFormat (parseFormatString format).2).totalMagnitude = 0 := by
    simp [TimePartHash.totalMagnitude, hashKeys, ofFormat_getD]
  have hYv : g.years = none := by
    have := hkeep Years (hno Years (by decide) hY)
    rw [ofFormat_value _ Years (by decide), hY] at this
    simpa [TimePartHash.value] using this
  have hMv : g.months = none := by
    have := hkeep Months (hno Months (by decide) hM)
    rw [ofFormat_value _ Months (by decide), hM] at this
    simpa [TimePartHash.value] using this
  have hh : ({ ({ g with years := none } : TimePartHash) with months := none } : TimePartHash)
      = g := by
    cases g; simp_all
  have hsumEq : (order.map (fun u => (g.value u).getD 0 * unitFactor u)).sum = total := by
    rw [(horder.map _).sum_eq]
    have : g.totalMSecs = total := by rw [htot, h0]; omega
    exact this
  have hmagEq : (order.map (fun u => |(g.value u).getD 0| * unitFactor u)).sum = mag := by
    rw [(horder.map _).sum_eq]
    have : g.totalMagnitude = mag := by rw [hmg, h0']; omega
    exact this
  simp only [QTimeSpan.fromString, hex, hYv, hMv, hh]
  rw [addUnits_spec g hMv hYv hint order _
    (by rw [hmagEq]; simp only [QTimeSpan.ofReference, abs_zero, zero_add]; exact hb), hsumEq]
  simp [QTimeSpan.ofReference]

/-- Witness of C28 (amended): the input `01:01:01` with the pattern `hh:mm:ss` and the reference
5 ms after the epoch gives the span of 3 661 000 ms with that reference, for the hash order from
milliseconds to years and for the reverse order. -/
theorem fromString_sums_units_witness :
    QTimeSpan.fromString hashKeys "01:01:01".toList "hh:mm:ss".toList (some 5) =
        some (QTimeSpan.ofReference (some 5) 3661000) ∧
      QTimeSpan.fromString hashKeys.reverse "01:01:01".toList "hh:mm:ss".toList (some 5) =
        some (QTimeSpan.ofReference (some 5) 3661000) :=
  ⟨fromString_sums_units hashKeys "01:01:01".toList "hh:mm:ss".toList (some 5) 3661000 3661000
      (List.Perm.refl _) (by decide) (by decide) (by decide) (by decide) (by decide) (by decide),
   fromString_sums_units hashKeys.reverse "01:01:01".toList "hh:mm:ss".toList (some 5) 3661000
      3661000 (List.reverse_perm _) (by decide) (by decide) (by decide) (by decide) (by decide)
      (by decide)⟩

/-- C28 (counterexample): the input `119142848 1 8` with the pattern `wwwwwwwww s z`, whose unit
letters are fixed units, each in a single token, and whose slices parse as 119 142 848 weeks,
1 second and 8 milliseconds. The sum of parsed value × unit length is
72 057 594 470 401 008 ms. With the hash order from milliseconds to years `fromString` returns
that interval; with the reverse order it returns 72 057 594 470 400 992 ms, the additions of the
second and of the 8 milliseconds to the weeks being rounded to a `double`. -/
theorem fromString_sum_depends_on_order :
    testFlag (parseFormatString "wwwwwwwww s z".toList).2 Months = false ∧
      testFlag (parseFormatString "wwwwwwwww s z".toList).2 Years = false ∧
      (parseFormatString "wwwwwwwww s z".toList).1.map TimeFormatToken.type
        = [Weeks, NoUnit, Seconds, NoUnit, Milliseconds] ∧
      parsedTotal (parseFormatString "wwwwwwwww s z".toList).1 "119142848 1 8".toList
        = some 72057594470401008 ∧
      119142848 * unitFactor Weeks + 1 * unitFactor Seconds + 8 * unitFactor Milliseconds
        = 72057594470401008 ∧
      QTimeSpan.fromString hashKeys "119142848 1 8".toList "wwwwwwwww s z".toList none
        = some (QTimeSpan.ofReference none 72057594470401008) ∧
      QTimeSpan.fromString hashKeys.reverse "119142848 1 8".toList "wwwwwwwww s z".toList none
        = some (QTimeSpan.ofReference none 72057594470400992) := by
  decide!

/-! ### `magnitude` with a reference, calendar examples of the class documentation -/

/-- C31 (failing input): the span with reference 2010-03-15T18:00:00 and referenced date
2011-03-15T09:00:00 (364 days 15 hours) has a valid reference and does not cover a complete
calendar year, its start advanced by one year being later than its end; `parts` reports
`years = 1` for it and `magnitude` returns `Years`. -/
theorem magnitude_years_without_complete_year :
    (QTimeSpan.ofReference (QDateTime.ofFields 2010 3 15 18 0 0 0) 31503600000).hasValidReference
        = true ∧
      (QTimeSpan.ofReference (QDateTime.ofFields 2010 3 15 18 0 0 0) 31503600000).endDate
        = QDateTime.ofFields 2011 3 15 9 0 0 0 ∧
      QDateTime.lt
        (QTimeSpan.ofReference (QDateTime.ofFields 2010 3 15 18 0 0 0) 31503600000).endDate
        (QDateTime.addYears
          (QTimeSpan.ofReference (QDateTime.ofFields 2010 3 15 18 0 0 0) 31503600000).startDate 1)
        = true ∧
      ((QTimeSpan.ofReference (QDateTime.ofFields 2010 3 15 18 0 0 0) 31503600000).parts
          ⟨false, false, false, false, false, false, true, true, false⟩).map
        (fun r => (r.years, r.months)) = some (some 1, some 0) ∧
      (QTimeSpan.ofReference (QDateTime.ofFields 2010 3 15 18 0 0 0) 31503600000).magnitude
        = Years := by
  decide

/-- C33: for all valid date-times `left` and `right`, the span `left - right` has the reference
`right`, the referenced date `left` and the interval of the milliseconds from `right` to `left`,
positive exactly when `right` is earlier; `right + (left - right)` is `left`. -/
theorem dateTimeDiff_plusSpan (left right : Int) :
    (QTimeSpan.dateTimeDiff (some left) (some right)).reference = some right ∧
      (QTimeSpan.dateTimeDiff (some left) (some right)).referencedDate = some left ∧
      (QTimeSpan.dateTimeDiff (some left) (some right)).interval =
        QDateTime.msecsTo (some right) (some left) ∧
      (QTimeSpan.dateTimeDiff (some left) (some right)).interval = left - right ∧
      (0 < (QTimeSpan.dateTimeDiff (some left) (some right)).interval ↔ right < left) ∧
      QDateTime.plusSpan (some right) (QTimeSpan.dateTimeDiff (some left) (some right)) =
        some left := by
  rw [dateTimeDiff_some]
  simp only [QTimeSpan.referencedDate, QDateTime.isValid, Option.isSome_some, Bool.not_true,
    Bool.false_eq_true, if_false, QDateTime.addMSecs, QDateTime.msecsTo, QDateTime.plusSpan,
    QTimeSpan.toMSecs, Option.some.injEq, true_and]
  refine ⟨?_, ?_, ?_⟩ <;> omega

/-- C34: the span describing the whole of 2007 (reference 2007-01-01T00:00:00, interval 365
days), multiplied by the integer 2, keeps its reference and, decomposed with years, months and
days requested, has a length of 1 year, 11 months and 30 days. -/
theorem whole_of_2007_times_two :
    (QTimeSpan.ofReference (QDateTime.ofFields 2007 1 1 0 0 0 0) (365 * MSECS_PER_DAY)).endDate
        = QDateTime.ofFields 2008 1 1 0 0 0 0 ∧
      ((QTimeSpan.ofReference (QDateTime.ofFields 2007 1 1 0 0 0 0)
          (365 * MSECS_PER_DAY)).opMulAssignInt 2).reference
        = QDateTime.ofFields 2007 1 1 0 0 0 0 ∧
      ((QTimeSpan.ofReference (QDateTime.ofFields 2007 1 1 0 0 0 0)
          (365 * MSECS_PER_DAY)).opMulAssignInt 2).interval = 730 * MSECS_PER_DAY ∧
      ((QTimeSpan.ofReference (QDateTime.ofFields 2007 1 1 0 0 0 0)
          (365 * MSECS_PER_DAY)).opMulAssignInt 2).parts
          ⟨false, false, false, false, true, false, true, true, false⟩ =
        some { PartsResult.empty with years := some 1, months := some 11, days := some 30 } := by
  decide

/-- C35 (failing input): for the span with reference 2010-01-30T14:00:00 and referenced date
2010-03-01T00:00:00.000, decomposing into months, days, hours, minutes, seconds and milliseconds
gives months = 1 and hours = 10, not months = 1 with every smaller unit 0. -/
theorem january_30_to_march_1_is_not_one_month :
    (QTimeSpan.dateTimeDiff (QDateTime.ofFields 2010 3 1 0 0 0 0)
        (QDateTime.ofFields 2010 1 30 14 0 0 0)).reference
        = QDateTime.ofFields 2010 1 30 14 0 0 0 ∧
      (QTimeSpan.dateTimeDiff (QDateTime.ofFields 2010 3 1 0 0 0 0)
        (QDateTime.ofFields 2010 1 30 14 0 0 0)).referencedDate
        = QDateTime.ofFields 2010 3 1 0 0 0 0 ∧
      (QTimeSpan.dateTimeDiff (QDateTime.ofFields 2010 3 1 0 0 0 0)
        (QDateTime.ofFields 2010 1 30 14 0 0 0)).parts
          ⟨true, true, true, true, true, false, true, false, false⟩ =
        some { PartsResult.empty with
          months := some 1, days := some 0, hours := some 10, minutes := some 0,
          seconds := some 0, mseconds := some 0 } := by
  decide

/-- C36 (failing input): for the span of 500 ms without a reference and all units requested,
the primary unit is `Milliseconds`, `part(Milliseconds, AllUnits)` is 500, and
`toApproximateString` renders the number 0 for the primary unit. -/
theorem toApproximateString_milliseconds_renders_zero :
    (QTimeSpan.ofMSecs 500).magnitude = Milliseconds ∧
      testFlag AllUnits Milliseconds = true ∧
      (QTimeSpan.ofMSecs 500).part Milliseconds AllUnits = some 500 ∧
      (QTimeSpan.ofMSecs 500).approximateUnits AllUnits = some ⟨Milliseconds, 0, NoUnit, -1⟩ ∧
      (QTimeSpan.ofMSecs 500).toApproximateString 5 AllUnits = some [(Milliseconds, 0)] ∧
      (QTimeSpan.ofMSecs 500).toApproximateString (-1) AllUnits = some [(Milliseconds, 0)] := by
  decide

/-- C37 (failing input): for the span with reference 2010-01-31T00:00:00 and referenced date
2011-01-30T00:00:00 (364 days), `parts` with years and months requested succeeds and reports
years = 0 and months = -1. -/
theorem parts_months_negative :
    (QTimeSpan.dateTimeDiff (QDateTime.ofFields 2011 1 30 0 0 0 0)
        (QDateTime.ofFields 2010 1 31 0 0 0 0)).hasValidReference = true ∧
      (QTimeSpan.dateTimeDiff (QDateTime.ofFields 2011 1 30 0 0 0 0)
        (QDateTime.ofFields 2010 1 31 0 0 0 0)).interval = 364 * MSECS_PER_DAY ∧
      (QTimeSpan.dateTimeDiff (QDateTime.ofFields 2011 1 30 0 0 0 0)
        (QDateTime.ofFields 2010 1 31 0 0 0 0)).parts
          ⟨false, false, false, false, false, false, true, true, false⟩ =
        some { PartsResult.empty with years := some 0, months := some (-1) } := by
  decide

/-- C38 (failing input): for the empty span `a` at 1970-01-01T00:00:00 and the span `b` of one
day with the same start, `a.overlaps(b)` is false and `b.overlaps(a)` is true. -/
theorem overlaps_not_symmetric :
    (QTimeSpan.ofReference (some 0) 0).startDate =
        (QTimeSpan.ofReference (some 0) 86400000).startDate ∧
      (QTimeSpan.ofReference (some 0) 0).isEmpty = true ∧
      (QTimeSpan.ofReference (some 0) 0).overlaps (QTimeSpan.ofReference (some 0) 86400000)
        = false ∧
      (QTimeSpan.ofReference (some 0) 86400000).overlaps (QTimeSpan.ofReference (some 0) 0)
        = true := by
  decide

/-! ### `setFromMonths` in its argument -/

/-- The product with a non-negative `qreal` is monotone. -/
theorem dmul_le_dmul_right (a b c : ℚ) (hc : 0 ≤ c) (h : a ≤ b) : dmul a c ≤ dmul b c :=
  roundDouble_mono _ _ (mul_le_mul_of_nonneg_right h hc)

/-- The product of a non-positive and a non-negative `qreal` is not positive. -/
theorem dmul_nonpos (a c : ℚ) (ha : a ≤ 0) (hc : 0 ≤ c) : dmul a c ≤ 0 :=
  roundDouble_nonpos _ (mul_nonpos_of_nonpos_of_nonneg ha hc)

/-- The product of two non-negative `qreal`s is not negative. -/
theorem dmul_nonneg (a c : ℚ) (ha : 0 ≤ a) (hc : 0 ≤ c) : 0 ≤ dmul a c :=
  roundDouble_nonneg _ (mul_nonneg ha hc)

/-- The milliseconds of the fractional days grow with the fractional days. -/
theorem fraction_msecs_mono (x y : ℚ) (h : x ≤ y) :
    truncQ (dmul (dmul (dmul (dmul x 24) 60) 60) 1000)
      ≤ truncQ (dmul (dmul (dmul (dmul y 24) 60) 60) 1000) :=
  truncQ_mono _ _ (dmul_le_dmul_right _ _ _ (by norm_num)
    (dmul_le_dmul_right _ _ _ (by norm_num) (dmul_le_dmul_right _ _ _ (by norm_num)
      (dmul_le_dmul_right _ _ _ (by norm_num) h))))

/-- C39 (amended): for every valid reference `r` and all months values `m1 <= m2` with the same
whole number of months, the interval set by `setFromMonths(m1)` is not greater than the interval
set by `setFromMonths(m2)`. -/
theorem setFromMonths_monotone_same_whole (r i1 i2 : Int) (m1 m2 : ℚ) (hle : m1 ≤ m2)
    (hn : truncQ m1 = truncQ m2) :
    ∃ s1 s2, (QTimeSpan.ofReference (some r) i1).setFromMonths m1 = some s1 ∧
      (QTimeSpan.ofReference (some r) i2).setFromMonths m2 = some s2 ∧
      s1.interval ≤ s2.interval := by
  refine ⟨_, _, setFromMonths_of_valid r i1 m1, setFromMonths_of_valid r i2 m2, ?_⟩
  simp only [QTimeSpan.ofReference, hn]
  apply Int.add_le_add_left
  have hf : dsub m1 (ofInt (truncQ m2)) ≤ dsub m2 (ofInt (truncQ m2)) :=
    roundDouble_mono _ _ (sub_le_sub_right hle _)
  have hD : ∀ b, 0 ≤ ofInt (daysInMonth (QDateTime.addMonths (some r) (truncQ m2)) b) :=
    fun b => roundDouble_nonneg _ (by exact_mod_cast daysInMonth_nonneg _ _)
  by_cases h1 : dsub m1 (ofInt (truncQ m2)) < 0
  · by_cases h2 : dsub m2 (ofInt (truncQ m2)) < 0
    · simp only [h1, h2]
      exact fraction_msecs_mono _ _ (dmul_le_dmul_right _ _ _ (hD _) hf)
    · exact fraction_msecs_mono _ _
        ((dmul_nonpos _ _ h1.le (hD _)).trans (dmul_nonneg _ _ (not_lt.mp h2) (hD _)))
  · have h2 : ¬ (dsub m2 (ofInt (truncQ m2)) < 0) := fun h => h1 (lt_of_le_of_lt hf h)
    simp only [h1, h2]
    exact fraction_msecs_mono _ _ (dmul_le_dmul_right _ _ _ (hD _) hf)

/-- Witness of C39 (amended): on the reference 2010-01-31T00:00:00, a quarter and a half of a
month. -/
theorem setFromMonths_monotone_same_whole_witness :
    ∃ s1 s2, (QTimeSpan.ofReference (some 1264896000000) 0).setFromMonths (1 / 4) = some s1 ∧
      (QTimeSpan.ofReference (some 1264896000000) 0).setFromMonths (1 / 2) = some s2 ∧
      s1.interval ≤ s2.interval :=
  setFromMonths_monotone_same_whole 1264896000000 0 0 (1 / 4) (1 / 2) (by decide!) (by decide!)

/-- C39 (counterexample): on the reference 2010-01-31T00:00:00, `setFromMonths(0.95)` sets the
interval to 29.45 days (0.95 of the 31 days of January), and `setFromMonths(1)` sets it to the 28
days up to 2010-02-28T00:00:00: the smaller argument gives the greater interval. -/
theorem setFromMonths_not_monotone :
    ((19 : ℚ) / 20 ≤ 1) ∧
      ((QTimeSpan.ofReference (QDateTime.ofFields 2010 1 31 0 0 0 0) 0).setFromMonths
        (19 / 20)).map QTimeSpan.interval = some 2544480000 ∧
      ((QTimeSpan.ofReference (QDateTime.ofFields 2010 1 31 0 0 0 0) 0).setFromMonths
        1).map QTimeSpan.interval = some 2419200000 ∧
      (2419200000 : Int) < 2544480000 := by
  decide!

/-! ### The tokenizer reproduces a pattern without quotes -/

/-- The token list of a pattern without quotes is the list of the tokens of its maximal runs. -/
theorem tokens_eq_runs (p : QString) (hq : '\'' ∉ p) :
    (parseFormatString p).1 = (p.splitBy sameRun).map runToken := by
  cases p with
  | nil => rfl
  | cons c cs =>
    have hne : c ≠ '\'' := fun h => hq (h ▸ List.mem_cons_self _ _)
    have hq' : '\'' ∉ cs := fun h => hq (List.mem_cons_of_mem _ h)
    have hsingle : runToken [c] =
        match tokenHash c with
        | some unit => { type := unit, length := 1, string := [] }
        | none => { type := NoUnit, length := 1, string := [c] } := by
      simpa using runToken_reverse c [] (by simp)
    unfold parseFormatString
    rw [parseLoop.eq_def]
    simp only [hne, if_false, List.getLast?_nil, List.nil_append]
    rw [List.splitBy]
    cases hc : tokenHash c with
    | some u =>
      have := parseLoop_splitBy cs c [] [] (0 ||| u.value) hq' (by simp)
      simp only [List.reverse_cons, List.reverse_nil, List.nil_append, List.map_nil] at this
      rw [hsingle, hc] at this
      simpa using this
    | none =>
      have := parseLoop_splitBy cs c [] [] 0 hq' (by simp)
      simp only [List.reverse_cons, List.reverse_nil, List.nil_append, List.map_nil] at this
      rw [hsingle, hc] at this
      simpa using this

/-- In a run, every character has the unit of the first one in the alphabet, or none has. -/
theorem run_same_unit (a : Char) (rest : List Char)
    (h : (a :: rest).Chain' (fun x y => sameRun x y = true)) :
    ∀ x ∈ rest, tokenHash x = tokenHash a := by
  induction rest generalizing a with
  | nil => intro x hx; simp at hx
  | cons b rest' ih =>
    obtain ⟨hab, hrest⟩ := List.chain'_cons.mp h
    have hb : tokenHash b = tokenHash a := ((sameRun_iff a b).mp hab).symm
    intro x hx
    rcases List.mem_cons.mp hx with rfl | hx
    · exact hb
    · exact (ih b hrest x hx).trans hb

/-- The token of a run stands for the text of the run; a unit token has a length of at least 1,
a literal token has the length of its string. -/
theorem tokenPattern_runToken (run : List Char) (hne : run ≠ [])
    (h : run.Chain' (fun x y => sameRun x y = true)) :
    tokenPattern (runToken run) = run ∧
      ((runToken run).type ≠ NoUnit → 1 ≤ (runToken run).length) ∧
      ((runToken run).type = NoUnit → (runToken run).length = (runToken run).string.length) := by
  cases run with
  | nil => exact absurd rfl hne
  | cons a rest =>
    have hall := run_same_unit a rest h
    cases ha : tokenHash a with
    | some u =>
      have hu : u ≠ NoUnit := tokenHash_ne_noUnit a u ha
      have hrt : runToken (a :: rest) = ⟨u, (a :: rest).length, []⟩ := by
        simp [runToken, ha]
      rw [hrt]
      refine ⟨?_, fun _ => by simp, fun h0 => absurd h0 hu⟩
      simp only [tokenPattern, hu, if_false]
      symm
      rw [List.eq_replicate_iff]
      refine ⟨rfl, ?_⟩
      intro x hx
      rcases List.mem_cons.mp hx with rfl | hx
      · exact tokenHash_letter _ u ha
      · exact tokenHash_letter x u ((hall x hx).trans ha)
    | none =>
      have hrt : runToken (a :: rest) = ⟨NoUnit, (a :: rest).length, a :: rest⟩ := by
        simp [runToken, ha]
      rw [hrt]
      exact ⟨by simp [tokenPattern], fun h0 => absurd rfl h0, fun _ => rfl⟩

/-- C40: for every format pattern without a single quote, the token list that the tokenizer
returns reproduces the pattern exactly when each unit token is written as its letter repeated
`length` times and each literal token as its string, in order; every unit token has a length of
at least 1 and the length of every literal token is the length of its string. -/
theorem parseFormatString_reproduces_pattern (p : QString) (hq : '\'' ∉ p) :
    (parseFormatString p).1.flatMap tokenPattern = p ∧
      ∀ t ∈ (parseFormatString p).1,
        (t.type ≠ NoUnit → 1 ≤ t.length) ∧ (t.type = NoUnit → t.length = t.string.length) := by
  rw [tokens_eq_runs p hq]
  have hrun : ∀ run ∈ p.splitBy sameRun, tokenPattern (runToken run) = run ∧
      ((runToken run).type ≠ NoUnit → 1 ≤ (runToken run).length) ∧
      ((runToken run).type = NoUnit → (runToken run).length = (runToken run).string.length) :=
    fun run hr => tokenPattern_runToken run (List.ne_nil_of_mem_splitBy _ hr)
      (List.chain'_of_mem_splitBy hr)
  constructor
  · have hflat : ∀ runs : List (List Char),
        (∀ run ∈ runs, tokenPattern (runToken run) = run) →
        (runs.map runToken).flatMap tokenPattern = runs.flatten := by
      intro runs
      induction runs with
      | nil => intro _; rfl
      | cons r rs ih =>
        intro hr
        simp only [List.map_cons, List.flatMap_cons, List.flatten_cons]
        rw [hr r (List.mem_cons_self _ _), ih (fun x hx => hr x (List.mem_cons_of_mem _ hx))]
    rw [hflat _ (fun run hr => (hrun run hr).1), List.flatten_splitBy]
  · intro t ht
    obtain ⟨run, hr, rfl⟩ := List.mem_map.mp ht
    exact (hrun run hr).2

/-- Witness of C40: the pattern `hh:mm:ss`. -/
theorem parseFormatString_reproduces_pattern_witness :
    (parseFormatString "hh:mm:ss".toList).1.flatMap tokenPattern = "hh:mm:ss".toList :=
  (parseFormatString_reproduces_pattern "hh:mm:ss".toList (by decide)).1

/-! ### `parts` on a non-negative span and fixed units, in closed form -/

/-- The milliseconds block on a non-negative residual, in closed form. -/
theorem partsMSecs_closed (req : PartsRequest) (A : Int) (r : PartsResult) (hA : 0 ≤ A)
    (hfrac : req.fractionalSmallestUnit = false) :
    partsMSecs req A r = if okMSecs req A then some (closedMSecs req A r) else none := by
  unfold partsMSecs okMSecs closedMSecs
  cases hm : req.msecondsPtr
  · simp
  · by_cases hc : A < 2147483647
    · simp [hfrac, CHECK_INT_LIMIT, hc, toInt32_of_nonneg hA hc]
    · simp [CHECK_INT_LIMIT, hc, not_lt.mp hc]

/-- The seconds block and what follows it on a non-negative residual, in closed form. -/
theorem partsSeconds_closed (self : QTimeSpan) (req : PartsRequest) (A : Int) (r : PartsResult)
    (hA : 0 ≤ A) (hfrac : req.fractionalSmallestUnit = false) :
    partsSeconds self req NoUnit A r =
      if okSeconds req A then some (closedSeconds req A r) else none := by
  unfold partsSeconds okSeconds closedSeconds restOf
  cases hm : req.secondsPtr
  · simpa using partsMSecs_closed req A r hA hfrac
  · by_cases hc : A < 1000 * 2147483647
    · have hq0 : 0 ≤ A / 1000 := by omega
      have hc2 := hc
      norm_num at hc2
      have hc3 := not_le.mpr hc2
      have hq1 : A / 1000 < 2147483647 := by omega
      have hrest : (if 0 < A / 1000 then A % 1000 else A) = A % 1000 := by split <;> omega
      have hnext := partsMSecs_closed req (A % 1000) { r with seconds := some (A / 1000) }
        (by omega) hfrac
      simp [CHECK_INT_LIMIT, hc2, hc3, Int.tdiv_eq_ediv hA (by norm_num : (0:Int) ≤ 1000),
        Int.tmod_eq_emod hA (by norm_num : (0:Int) ≤ 1000), toInt32_of_nonneg hq0 hq1, hrest, hnext]
    · have hc2 := hc
      norm_num at hc2
      simp [CHECK_INT_LIMIT, hc2, not_lt.mpr hc2]

/-- The minutes block and what follows it on a non-negative residual, in closed form. -/
theorem partsMinutes_closed (self : QTimeSpan) (req : PartsRequest) (A : Int) (r : PartsResult)
    (hA : 0 ≤ A) (hfrac : req.fractionalSmallestUnit = false) :
    partsMinutes self req NoUnit A r =
      if okMinutes req A then some (closedMinutes req A r) else none := by
  unfold partsMinutes okMinutes closedMinutes restOf
  cases hm : req.minutesPtr
  · simpa using partsSeconds_closed self req A r hA hfrac
  · by_cases hc : A < 60000 * 2147483647
    · have hq0 : 0 ≤ A / 60000 := by omega
      have hc2 := hc
      norm_num at hc2
      have hc3 := not_le.mpr hc2
      have hq1 : A / 60000 < 2147483647 := by omega
      have hrest : (if A / 60000 = 0 then A else A % 60000) = A % 60000 := by split <;> omega
      have hnext := partsSeconds_closed self req (A % 60000)
        { r with minutes := some (A / 60000) } (by omega) hfrac
      simp [CHECK_INT_LIMIT, hc2, hc3,
        Int.tdiv_eq_ediv hA (by norm_num : (0:Int) ≤ 60000),
        Int.tmod_eq_emod hA (by norm_num : (0:Int) ≤ 60000), toInt32_of_nonneg hq0 hq1, hrest,
        hnext]
    · have hc2 := hc
      norm_num at hc2
      simp [CHECK_INT_LIMIT, hc2, not_lt.mpr hc2]

/-- The hours block and what follows it on a non-negative residual, in closed form. -/
theorem partsHours_closed (self : QTimeSpan) (req : PartsRequest) (A : Int) (r : PartsResult)
    (hA : 0 ≤ A) (hfrac : req.fractionalSmallestUnit = false) :
    partsHours self req NoUnit A r =
      if okHours req A then some (closedHours req A r) else none := by
  unfold partsHours okHours closedHours restOf
  cases hm : req.hoursPtr
  · simpa using partsMinutes_closed self req A r hA hfrac
  · by_cases hc : A < 3600000 * 2147483647
    · have hq0 : 0 ≤ A / 3600000 := by omega
      have hc2 := hc
      norm_num at hc2
      have hc3 := not_le.mpr hc2
      have hq1 : A / 3600000 < 2147483647 := by omega
      have hrest : (if A / 3600000 = 0 then A else A % 3600000) = A % 3600000 := by
        split <;> omega
      have hnext := partsMinutes_closed self req (A % 3600000)
        { r with hours := some (A / 3600000) } (by omega) hfrac
      simp [CHECK_INT_LIMIT, hc2, hc3,
        Int.tdiv_eq_ediv hA (by norm_num : (0:Int) ≤ 3600000),
        Int.tmod_eq_emod hA (by norm_num : (0:Int) ≤ 3600000), toInt32_of_nonneg hq0 hq1, hrest,
        hnext]
    · have hc2 := hc
      norm_num at hc2
      simp [CHECK_INT_LIMIT, hc2, not_lt.mpr hc2]

/-- The days block and what follows it on a non-negative residual, in closed form. -/
theorem partsDays_closed (self : QTimeSpan) (req : PartsRequest) (A : Int) (r : PartsResult)
    (hA : 0 ≤ A) (hfrac : req.fractionalSmallestUnit = false) :
    partsDays self req NoUnit A r =
      if okDays req A then some (closedDays req A r) else none := by
  unfold partsDays okDays closedDays restOf
  cases hm : req.daysPtr
  · simpa using partsHours_closed self req A r hA hfrac
  · by_cases hc : A < 86400000 * 2147483647
    · have hq0 : 0 ≤ A / 86400000 := by omega
      have hc2 := hc
      norm_num at hc2
      have hc3 := not_le.mpr hc2
      have hq1 : A / 86400000 < 2147483647 := by omega
      have hrest : (if A / 86400000 = 0 then A else A % 86400000) = A % 86400000 := by
        split <;> omega
      have hnext := partsHours_closed self req (A % 86400000)
        { r with days := some (A / 86400000) } (by omega) hfrac
      simp [CHECK_INT_LIMIT, hc2, hc3,
        Int.tdiv_eq_ediv hA (by norm_num : (0:Int) ≤ 86400000),
        Int.tmod_eq_emod hA (by norm_num : (0:Int) ≤ 86400000), toInt32_of_nonneg hq0 hq1, hrest,
        hnext]
    · have hc2 := hc
      norm_num at hc2
      simp [CHECK_INT_LIMIT, hc2, not_lt.mpr hc2]

/-- The weeks block and what follows it on a non-negative residual, in closed form. -/
theorem partsWeeks_closed (self : QTimeSpan) (req : PartsRequest) (A : Int) (r : PartsResult)
    (hA : 0 ≤ A) (hfrac : req.fractionalSmallestUnit = false) :
    partsWeeks self req NoUnit A r =
      if okWeeks req A then some (closedWeeks req A r) else none := by
  unfold partsWeeks okWeeks closedWeeks restOf
  cases hm : req.weeksPtr
  · simpa using partsDays_closed self req A r hA hfrac
  · by_cases hc : A < 604800000 * 2147483647
    · have hq0 : 0 ≤ A / 604800000 := by omega
      have hc2 := hc
      norm_num at hc2
      have hc3 := not_le.mpr hc2
      have hq1 : A / 604800000 < 2147483647 := by omega
      have hrest : (if A / 604800000 = 0 then A else A % 604800000) = A % 604800000 := by
        split <;> omega
      have hnext := partsDays_closed self req (A % 604800000)
        { r with weeks := some (A / 604800000) } (by omega) hfrac
      simp [CHECK_INT_LIMIT, hc2, hc3,
        Int.tdiv_eq_ediv hA (by norm_num : (0:Int) ≤ 604800000),
        Int.tmod_eq_emod hA (by norm_num : (0:Int) ≤ 604800000), toInt32_of_nonneg hq0 hq1, hrest,
        hnext]
    · have hc2 := hc
      norm_num at hc2
      simp [CHECK_INT_LIMIT, hc2, not_lt.mpr hc2]

/-- The request that a fresh hash of a format without months and years passes to `parts`. -/
theorem ofFormat_request (F : TimeSpanFormat) (hM : testFlag F Months = false)
    (hY : testFlag F Years = false) : (TimePartHash.ofFormat F).request = fixedRequest F := by
  simp only [TimePartHash.request, TimePartHash.ofFormat, fixedRequest, hM, hY]
  congr 1 <;> split <;> simp_all

/-- A value written for a requested unit replaces the initial 0 of the hash. -/
theorem orElse_flag (b : Bool) (q : Int) :
    (if b then some q else none : Option Int).orElse (fun _ => if b then some 0 else none) =
      if b then some q else none := by
  cases b <;> rfl

/-- The hash filled for a non-negative span and a format of fixed units, in closed form. -/
theorem fill_closed (F : TimeSpanFormat) (t : QTimeSpan) (ht : 0 ≤ t.interval)
    (hM : testFlag F Months = false) (hY : testFlag F Years = false) :
    (TimePartHash.ofFormat F).fill t =
      if okWeeks (fixedRequest F) t.interval then
        some ⟨(closedWeeks (fixedRequest F) t.interval PartsResult.empty).mseconds,
          (closedWeeks (fixedRequest F) t.interval PartsResult.empty).seconds,
          (closedWeeks (fixedRequest F) t.interval PartsResult.empty).minutes,
          (closedWeeks (fixedRequest F) t.interval PartsResult.empty).hours,
          (closedWeeks (fixedRequest F) t.interval PartsResult.empty).days,
          (closedWeeks (fixedRequest F) t.interval PartsResult.empty).weeks, none, none⟩
      else none := by
  have hparts : t.parts (fixedRequest F) =
      if okWeeks (fixedRequest F) t.interval then
        some (closedWeeks (fixedRequest F) t.interval PartsResult.empty) else none := by
    have hs : smallestRequested (fixedRequest F) = NoUnit := by
      simp [smallestRequested, fixedRequest]
    simp only [QTimeSpan.parts, hs, fixedRequest, Bool.or_self, Bool.false_eq_true, if_false,
      QTimeSpan.toMSecs]
    exact partsWeeks_closed t _ t.interval _ ht rfl
  unfold TimePartHash.fill
  rw [ofFormat_request F hM hY, hparts]
  by_cases hok : okWeeks (fixedRequest F) t.interval = true
  · simp only [hok, if_true, Option.some.injEq]
    simp only [closedWeeks, closedDays, closedHours, closedMinutes, closedSeconds, closedMSecs,
      fixedRequest, PartsResult.empty, TimePartHash.ofFormat, hM, hY, orElse_flag,
      Bool.false_eq_true, if_false]
    rfl
  · simp [hok]

/-- The method `part` on a non-negative span and a format of fixed units. -/
theorem part_fixed (F : TimeSpanFormat) (t : QTimeSpan) (w : TimeSpanUnit)
    (hM : testFlag F Months = false) (hY : testFlag F Years = false) :
    t.part w F =
      if testFlag F w then
        (match (TimePartHash.ofFormat F).fill t with
          | none => some 0
          | some partsHash => partsHash.value w)
      else some 0 := by
  unfold QTimeSpan.part
  by_cases hw : testFlag F w = true
  · have hwM : (w == Months) = false := by
      cases w <;> first | rfl | simp_all
    have hwY : (w == Years) = false := by
      cases w <;> first | rfl | simp_all
    simp [hw, hM, hY, hwM, hwY]
  · simp [hw]

/-! ### Replacing the value of one unit in the decomposition of a non-negative span -/

/-- The blocks of `parts` on a non-negative interval: the tests in terms of the residuals. -/
theorem okWeeks_flat (req : PartsRequest) (L : Int) :
    okWeeks req L =
      ((!req.weeksPtr || decide (L < 604800000 * 2147483647)) &&
      ((!req.daysPtr || decide (inDays req L < 86400000 * 2147483647)) &&
      ((!req.hoursPtr || decide (inHours req L < 3600000 * 2147483647)) &&
      ((!req.minutesPtr || decide (inMinutes req L < 60000 * 2147483647)) &&
      ((!req.secondsPtr || decide (inSeconds req L < 1000 * 2147483647)) &&
      (!req.msecondsPtr || decide (inMSecs req L < 2147483647))))))) := rfl

/-- The blocks of `parts` on a non-negative interval: the values in terms of the residuals. -/
theorem closedWeeks_flat (req : PartsRequest) (L : Int) :
    closedWeeks req L PartsResult.empty =
      ⟨if req.msecondsPtr then some (inMSecs req L) else none,
        if req.secondsPtr then some (inSeconds req L / 1000) else none,
        if req.minutesPtr then some (inMinutes req L / 60000) else none,
        if req.hoursPtr then some (inHours req L / 3600000) else none,
        if req.daysPtr then some (inDays req L / 86400000) else none,
        if req.weeksPtr then some (L / 604800000) else none, none, none, none⟩ := rfl

/-- A residual with the same quotient passes the test of its block as well. -/
theorem guard_of_quotient (b : Bool) (A A' g : Int) (hg : 0 < g)
    (hq : b = true → A' / g = A / g) (h : b = false ∨ A < g * 2147483647) :
    b = false ∨ A' < g * 2147483647 := by
  cases b
  · exact Or.inl rfl
  · right
    rcases h with h | h
    · cases h
    · have hq' := hq rfl
      rw [mul_comm] at h ⊢
      rw [← Int.ediv_lt_iff_lt_mul hg] at h ⊢
      omega

/-- The value written for a requested unit depends on the quotient only. -/
theorem ite_some_congr (b : Bool) (x y : Int) (h : b = true → x = y) :
    (if b = true then some x else none : Option Int) = if b = true then some y else none := by
  cases b
  · rfl
  · simp [h rfl]

/-- The residual that reaches the days block is the remainder of the interval by the
nearest larger requested unit; the interval itself (the remainder by 0) when there is none. -/
theorem inDays_collapse (req : PartsRequest) (A : Int) :
    inDays req A =
      A % (if req.weeksPtr then 604800000 else 0) := by
  unfold inDays restOf
  split_ifs <;> omega

/-- The residual that reaches the hours block is the remainder of the interval by the
nearest larger requested unit; the interval itself (the remainder by 0) when there is none. -/
theorem inHours_collapse (req : PartsRequest) (A : Int) :
    inHours req A =
      A % (if req.daysPtr then 86400000 else if req.weeksPtr then 604800000 else 0) := by
  unfold inHours restOf
  rw [inDays_collapse]
  split_ifs <;> omega

/-- The residual that reaches the minutes block is the remainder of the interval by the
nearest larger requested unit; the interval itself (the remainder by 0) when there is none. -/
theorem inMinutes_collapse (req : PartsRequest) (A : Int) :
    inMinutes req A =
      A % (if req.hoursPtr then 3600000 else if req.daysPtr then 86400000 else if req.weeksPtr then 604800000 else 0) := by
  unfold inMinutes restOf
  rw [inHours_collapse]
  split_ifs <;> omega

/-- The residual that reaches the seconds block is the remainder of the interval by the
nearest larger requested unit; the interval itself (the remainder by 0) when there is none. -/
theorem inSeconds_collapse (req : PartsRequest) (A : Int) :
    inSeconds req A =
      A % (if req.minutesPtr then 60000 else if req.hoursPtr then 3600000 else if req.daysPtr then 86400000 else if req.weeksPtr then 604800000 else 0) := by
  unfold inSeconds restOf
  rw [inMinutes_collapse]
  split_ifs <;> omega

/-- The residual that reaches the milliseconds block is the remainder of the interval by the
nearest larger requested unit; the interval itself (the remainder by 0) when there is none. -/
theorem inMSecs_collapse (req : PartsRequest) (A : Int) :
    inMSecs req A =
      A % (if req.secondsPtr then 1000 else if req.minutesPtr then 60000 else if req.hoursPtr then 3600000 else if req.daysPtr then 86400000 else if req.weeksPtr then 604800000 else 0) := by
  unfold inMSecs restOf
  rw [inSeconds_collapse]
  split_ifs <;> omega

/-- Setting the weeks of a non-negative interval within their range: the blocks of `parts`
succeed again and write the new value for the weeks and the previous values elsewhere. -/
theorem setWeeks_closed (req : PartsRequest) (L v : Int)
    (hu : req.weeksPtr = true) (hok : okWeeks req L = true) (hv0 : 0 ≤ v)
    (hv1 : v < 2147483647) :
    0 ≤ L + (v - L / 604800000) * 604800000 ∧
    okWeeks req (L + (v - L / 604800000) * 604800000) = true ∧
    closedWeeks req (L + (v - L / 604800000) * 604800000) PartsResult.empty =
      { closedWeeks req L PartsResult.empty with weeks := some v } := by
  obtain ⟨L', hL'⟩ : ∃ L', L' = L + (v - L / 604800000) * 604800000 := ⟨_, rfl⟩
  rw [← hL']
  have s1 : 0 ≤ L' ∧
      L' / 0 =
        L / 0 ∧
      L' % 0 =
        v * 604800000 + L % 604800000 := by
    omega
  obtain ⟨k0, sq, sr⟩ := s1
  clear hL'
  have hvM : v < 2147483647 := by
    omega
  have kv : L' / 604800000 = v := by
    omega
  have kDays : inDays req L' = inDays req L := by
    unfold inDays restOf
    rw [hu]
    simp only [if_true]
    omega
  have kHours : inHours req L' = inHours req L := by
    unfold inHours
    rw [kDays]
  have kMinutes : inMinutes req L' = inMinutes req L := by
    unfold inMinutes
    rw [kHours]
  have kSeconds : inSeconds req L' = inSeconds req L := by
    unfold inSeconds
    rw [kMinutes]
  have kMSecs : inMSecs req L' = inMSecs req L := by
    unfold inMSecs
    rw [kSeconds]
  rw [okWeeks_flat] at hok ⊢
  rw [closedWeeks_flat, closedWeeks_flat, kDays, kHours, kMinutes, kSeconds, kMSecs]
  simp only [Bool.and_eq_true, Bool.or_eq_true, Bool.not_eq_true', decide_eq_true_eq, hu]
    at hok ⊢
  obtain ⟨gWeeks, gDays, gHours, gMinutes, gSeconds, gMSecs⟩ := hok
  refine ⟨k0, ⟨Or.inr (by omega),
    gDays,
    gHours,
    gMinutes,
    gSeconds,
    gMSecs⟩, ?_⟩
  rw [kv]
  simp only [if_true]

/-- Setting the days of a non-negative interval within their range: the blocks of `parts`
succeed again and write the new value for the days and the previous values elsewhere. -/
theorem setDays_closed (req : PartsRequest) (L v : Int) (hL : 0 ≤ L)
    (hu : req.daysPtr = true) (hok : okWeeks req L = true) (hv0 : 0 ≤ v)
    (hv1 : v < (if req.weeksPtr then 7 else 2147483647)) :
    0 ≤ L + (v - inDays req L / 86400000) * 86400000 ∧
    okWeeks req (L + (v - inDays req L / 86400000) * 86400000) = true ∧
    closedWeeks req (L + (v - inDays req L / 86400000) * 86400000) PartsResult.empty =
      { closedWeeks req L PartsResult.empty with days := some v } := by
  obtain ⟨L', hL'⟩ : ∃ L', L' = L + (v - inDays req L / 86400000) * 86400000 := ⟨_, rfl⟩
  rw [← hL']
  have s1 : 0 ≤ L' ∧
      L' / (if req.weeksPtr then 604800000 else 0) =
        L / (if req.weeksPtr then 604800000 else 0) ∧
      L' % (if req.weeksPtr then 604800000 else 0) =
        v * 86400000 + L % 86400000 := by
    rw [inDays_collapse] at hL'
    split_ifs at hv1 hL' ⊢ <;> omega
  obtain ⟨k0, sq, sr⟩ := s1
  clear hL'
  have kWeeks : req.weeksPtr = true → L' / 604800000 = L / 604800000 := by
    intro hb
    simp only [hb, ↓reduceIte] at sq
    clear sr
    omega
  have hvM : v < 2147483647 := by
    split_ifs at hv1 <;> omega
  have kv : inDays req L' / 86400000 = v := by
    rw [inDays_collapse, sr]
    omega
  have kHours : inHours req L' = inHours req L := by
    unfold inHours restOf
    rw [hu, inDays_collapse, inDays_collapse, sr]
    simp only [if_true]
    split_ifs <;> omega
  have kMinutes : inMinutes req L' = inMinutes req L := by
    unfold inMinutes
    rw [kHours]
  have kSeconds : inSeconds req L' = inSeconds req L := by
    unfold inSeconds
    rw [kMinutes]
  have kMSecs : inMSecs req L' = inMSecs req L := by
    unfold inMSecs
    rw [kSeconds]
  rw [okWeeks_flat] at hok ⊢
  rw [closedWeeks_flat, closedWeeks_flat, kHours, kMinutes, kSeconds, kMSecs]
  simp only [Bool.and_eq_true, Bool.or_eq_true, Bool.not_eq_true', decide_eq_true_eq, hu]
    at hok ⊢
  obtain ⟨gWeeks, gDays, gHours, gMinutes, gSeconds, gMSecs⟩ := hok
  refine ⟨k0, ⟨guard_of_quotient _ _ _ _ (by norm_num) kWeeks gWeeks,
    Or.inr (by omega),
    gHours,
    gMinutes,
    gSeconds,
    gMSecs⟩, ?_⟩
  rw [ite_some_congr _ _ _ kWeeks, kv]
  simp only [if_true]

/-- Setting the hours of a non-negative interval within their range: the blocks of `parts`
succeed again and write the new value for the hours and the previous values elsewhere. -/
theorem setHours_closed (req : PartsRequest) (L v : Int) (hL : 0 ≤ L)
    (hu : req.hoursPtr = true) (hok : okWeeks req L = true) (hv0 : 0 ≤ v)
    (hv1 : v < (if req.daysPtr then 24 else if req.weeksPtr then 168 else 2147483647)) :
    0 ≤ L + (v - inHours req L / 3600000) * 3600000 ∧
    okWeeks req (L + (v - inHours req L / 3600000) * 3600000) = true ∧
    closedWeeks req (L + (v - inHours req L / 3600000) * 3600000) PartsResult.empty =
      { closedWeeks req L PartsResult.empty with hours := some v } := by
  obtain ⟨L', hL'⟩ : ∃ L', L' = L + (v - inHours req L / 3600000) * 3600000 := ⟨_, rfl⟩
  rw [← hL']
  have s1 : 0 ≤ L' ∧
      L' / (if req.daysPtr then 86400000 else if req.weeksPtr then 604800000 else 0) =
        L / (if req.daysPtr then 86400000 else if req.weeksPtr then 604800000 else 0) ∧
      L' % (if req.daysPtr then 86400000 else if req.weeksPtr then 604800000 else 0) =
        v * 3600000 + L % 3600000 := by
    rw [inHours_collapse] at hL'
    split_ifs at hv1 hL' ⊢ <;> omega
  obtain ⟨k0, sq, sr⟩ := s1
  clear hL'
  have kWeeks : req.weeksPtr = true → L' / 604800000 = L / 604800000 := by
    intro hb
    simp only [hb, ↓reduceIte] at sq
    clear sr
    split_ifs at sq ⊢ <;> omega
  have kDays : req.daysPtr = true → inDays req L' / 86400000 = inDays req L / 86400000 := by
    intro hb
    rw [inDays_collapse, inDays_collapse]
    simp only [hb, ↓reduceIte] at sq
    clear sr
    split_ifs at sq ⊢ <;> omega
  have hvM : v < 2147483647 := by
    split_ifs at hv1 <;> omega
  have kv : inHours req L' / 3600000 = v := by
    rw [inHours_collapse, sr]
    omega
  have kMinutes : inMinutes req L' = inMinutes req L := by
    unfold inMinutes restOf
    rw [hu, inHours_collapse, inHours_collapse, sr]
    simp only [if_true]
    split_ifs <;> omega
  have kSeconds : inSeconds req L' = inSeconds req L := by
    unfold inSeconds
    rw [kMinutes]
  have kMSecs : inMSecs req L' = inMSecs req L := by
    unfold inMSecs
    rw [kSeconds]
  rw [okWeeks_flat] at hok ⊢
  rw [closedWeeks_flat, closedWeeks_flat, kMinutes, kSeconds, kMSecs]
  simp only [Bool.and_eq_true, Bool.or_eq_true, Bool.not_eq_true', decide_eq_true_eq, hu]
    at hok ⊢
  obtain ⟨gWeeks, gDays, gHours, gMinutes, gSeconds, gMSecs⟩ := hok
  refine ⟨k0, ⟨guard_of_quotient _ _ _ _ (by norm_num) kWeeks gWeeks,
    guard_of_quotient _ _ _ _ (by norm_num) kDays gDays,
    Or.inr (by omega),
    gMinutes,
    gSeconds,
    gMSecs⟩, ?_⟩
  rw [ite_some_congr _ _ _ kWeeks, ite_some_congr _ _ _ kDays, kv]
  simp only [if_true]

/-- Setting the minutes of a non-negative interval within their range: the blocks of `parts`
succeed again and write the new value for the minutes and the previous values elsewhere. -/
theorem setMinutes_closed (req : PartsRequest) (L v : Int) (hL : 0 ≤ L)
    (hu : req.minutesPtr = true) (hok : okWeeks req L = true) (hv0 : 0 ≤ v)
    (hv1 : v < (if req.hoursPtr then 60 else if req.daysPtr then 1440 else if req.weeksPtr then 10080 else 2147483647)) :
    0 ≤ L + (v - inMinutes req L / 60000) * 60000 ∧
    okWeeks req (L + (v - inMinutes req L / 60000) * 60000) = true ∧
    closedWeeks req (L + (v - inMinutes req L / 60000) * 60000) PartsResult.empty =
      { closedWeeks req L PartsResult.empty with minutes := some v } := by
  obtain ⟨L', hL'⟩ : ∃ L', L' = L + (v - inMinutes req L / 60000) * 60000 := ⟨_, rfl⟩
  rw [← hL']
  have s1 : 0 ≤ L' ∧
      L' / (if req.hoursPtr then 3600000 else if req.daysPtr then 86400000 else if req.weeksPtr then 604800000 else 0) =
        L / (if req.hoursPtr then 3600000 else if req.daysPtr then 86400000 else if req.weeksPtr then 604800000 else 0) ∧
      L' % (if req.hoursPtr then 3600000 else if req.daysPtr then 86400000 else if req.weeksPtr then 604800000 else 0) =
        v * 60000 + L % 60000 := by
    rw [inMinutes_collapse] at hL'
    split_ifs at hv1 hL' ⊢ <;> omega
  obtain ⟨k0, sq, sr⟩ := s1
  clear hL'
  have kWeeks : req.weeksPtr = true → L' / 604800000 = L / 604800000 := by
    intro hb
    simp only [hb, ↓reduceIte] at sq
    clear sr
    split_ifs at sq ⊢ <;> omega
  have kDays : req.daysPtr = true → inDays req L' / 86400000 = inDays req L / 86400000 := by
    intro hb
    rw [inDays_collapse, inDays_collapse]
    simp only [hb, ↓reduceIte] at sq
    clear sr
    split_ifs at sq ⊢ <;> omega
  have kHours : req.hoursPtr = true → inHours req L' / 3600000 = inHours req L / 3600000 := by
    intro hb
    rw [inHours_collapse, inHours_collapse]
    simp only [hb, ↓reduceIte] at sq
    clear sr
    split_ifs at sq ⊢ <;> omega
  have hvM : v < 2147483647 := by
    split_ifs at hv1 <;> omega
  have kv : inMinutes req L' / 60000 = v := by
    rw [inMinutes_collapse, sr]
    omega
  have kSeconds : inSeconds req L' = inSeconds req L := by
    unfold inSeconds restOf
    rw [hu, inMinutes_collapse, inMinutes_collapse, sr]
    simp only [if_true]
    split_ifs <;> omega
  have kMSecs : inMSecs req L' = inMSecs req L := by
    unfold inMSecs
    rw [kSeconds]
  rw [okWeeks_flat] at hok ⊢
  rw [closedWeeks_flat, closedWeeks_flat, kSeconds, kMSecs]
  simp only [Bool.and_eq_true, Bool.or_eq_true, Bool.not_eq_true', decide_eq_true_eq, hu]
    at hok ⊢
  obtain ⟨gWeeks, gDays, gHours, gMinutes, gSeconds, gMSecs⟩ := hok
  refine ⟨k0, ⟨guard_of_quotient _ _ _ _ (by norm_num) kWeeks gWeeks,
    guard_of_quotient _ _ _ _ (by norm_num) kDays gDays,
    guard_of_quotient _ _ _ _ (by norm_num) kHours gHours,
    Or.inr (by omega),
    gSeconds,
    gMSecs⟩, ?_⟩
  rw [ite_some_congr _ _ _ kWeeks, ite_some_congr _ _ _ kDays, ite_some_congr _ _ _ kHours, kv]
  simp only [if_true]

/-- Setting the seconds of a non-negative interval within their range: the blocks of `parts`
succeed again and write the new value for the seconds and the previous values elsewhere. -/
theorem setSeconds_closed (req : PartsRequest) (L v : Int) (hL : 0 ≤ L)
    (hu : req.secondsPtr = true) (hok : okWeeks req L = true) (hv0 : 0 ≤ v)
    (hv1 : v < (if req.minutesPtr then 60 else if req.hoursPtr then 3600 else if req.daysPtr then 86400 else if req.weeksPtr then 604800 else 2147483647)) :
    0 ≤ L + (v - inSeconds req L / 1000) * 1000 ∧
    okWeeks req (L + (v - inSeconds req L / 1000) * 1000) = true ∧
    closedWeeks req (L + (v - inSeconds req L / 1000) * 1000) PartsResult.empty =
      { closedWeeks req L PartsResult.empty with seconds := some v } := by
  obtain ⟨L', hL'⟩ : ∃ L', L' = L + (v - inSeconds req L / 1000) * 1000 := ⟨_, rfl⟩
  rw [← hL']
  have s1 : 0 ≤ L' ∧
      L' / (if req.minutesPtr then 60000 else if req.hoursPtr then 3600000 else if req.daysPtr then 86400000 else if req.weeksPtr then 604800000 else 0) =
        L / (if req.minutesPtr then 60000 else if req.hoursPtr then 3600000 else if req.daysPtr then 86400000 else if req.weeksPtr then 604800000 else 0) ∧
      L' % (if req.minutesPtr then 60000 else if req.hoursPtr then 3600000 else if req.daysPtr then 86400000 else if req.weeksPtr then 604800000 else 0) =
        v * 1000 + L % 1000 := by
    rw [inSeconds_collapse] at hL'
    split_ifs at hv1 hL' ⊢ <;> omega
  obtain ⟨k0, sq, sr⟩ := s1
  clear hL'
  have kWeeks : req.weeksPtr = true → L' / 604800000 = L / 604800000 := by
    intro hb
    simp only [hb, ↓reduceIte] at sq
    clear sr
    split_ifs at sq ⊢ <;> omega
  have kDays : req.daysPtr = true → inDays req L' / 86400000 = inDays req L / 86400000 := by
    intro hb
    rw [inDays_collapse, inDays_collapse]
    simp only [hb, ↓reduceIte] at sq
    clear sr
    split_ifs at sq ⊢ <;> omega
  have kHours : req.hoursPtr = true → inHours req L' / 3600000 = inHours req L / 3600000 := by
    intro hb
    rw [inHours_collapse, inHours_collapse]
    simp only [hb, ↓reduceIte] at sq
    clear sr
    split_ifs at sq ⊢ <;> omega
  have kMinutes : req.minutesPtr = true → inMinutes req L' / 60000 = inMinutes req L / 60000 := by
    intro hb
    rw [inMinutes_collapse, inMinutes_collapse]
    simp only [hb, ↓reduceIte] at sq
    clear sr
    split_ifs at sq ⊢ <;> omega
  have hvM : v < 2147483647 := by
    split_ifs at hv1 <;> omega
  have kv : inSeconds req L' / 1000 = v := by
    rw [inSeconds_collapse, sr]
    omega
  have kMSecs : inMSecs req L' = inMSecs req L := by
    unfold inMSecs restOf
    rw [hu, inSeconds_collapse, inSeconds_collapse, sr]
    simp only [if_true]
    split_ifs <;> omega
  rw [okWeeks_flat] at hok ⊢
  rw [closedWeeks_flat, closedWeeks_flat, kMSecs]
  simp only [Bool.and_eq_true, Bool.or_eq_true, Bool.not_eq_true', decide_eq_true_eq, hu]
    at hok ⊢
  obtain ⟨gWeeks, gDays, gHours, gMinutes, gSeconds, gMSecs⟩ := hok
  refine ⟨k0, ⟨guard_of_quotient _ _ _ _ (by norm_num) kWeeks gWeeks,
    guard_of_quotient _ _ _ _ (by norm_num) kDays gDays,
    guard_of_quotient _ _ _ _ (by norm_num) kHours gHours,
    guard_of_quotient _ _ _ _ (by norm_num) kMinutes gMinutes,
    Or.inr (by omega),
    gMSecs⟩, ?_⟩
  rw [ite_some_congr _ _ _ kWeeks, ite_some_congr _ _ _ kDays, ite_some_congr _ _ _ kHours, ite_some_congr _ _ _ kMinutes, kv]
  simp only [if_true]

/-- Setting the milliseconds of a non-negative interval within their range: the blocks of `parts`
succeed again and write the new value for the milliseconds and the previous values elsewhere. -/
theorem setMSecs_closed (req : PartsRequest) (L v : Int) (hL : 0 ≤ L)
    (hu : req.msecondsPtr = true) (hok : okWeeks req L = true) (hv0 : 0 ≤ v)
    (hv1 : v < (if req.secondsPtr then 1000 else if req.minutesPtr then 60000 else if req.hoursPtr then 3600000 else if req.daysPtr then 86400000 else if req.weeksPtr then 604800000 else 2147483647)) :
    0 ≤ L + (v - inMSecs req L) * 1 ∧
    okWeeks req (L + (v - inMSecs req L) * 1) = true ∧
    closedWeeks req (L + (v - inMSecs req L) * 1) PartsResult.empty =
      { closedWeeks req L PartsResult.empty with mseconds := some v } := by
  obtain ⟨L', hL'⟩ : ∃ L', L' = L + (v - inMSecs req L) * 1 := ⟨_, rfl⟩
  rw [← hL']
  have s1 : 0 ≤ L' ∧
      L' / (if req.secondsPtr then 1000 else if req.minutesPtr then 60000 else if req.hoursPtr then 3600000 else if req.daysPtr then 86400000 else if req.weeksPtr then 604800000 else 0) =
        L / (if req.secondsPtr then 1000 else if req.minutesPtr then 60000 else if req.hoursPtr then 3600000 else if req.daysPtr then 86400000 else if req.weeksPtr then 604800000 else 0) ∧
      L' % (if req.secondsPtr then 1000 else if req.minutesPtr then 60000 else if req.hoursPtr then 3600000 else if req.daysPtr then 86400000 else if req.weeksPtr then 604800000 else 0) =
        v * 1 + L % 1 := by
    rw [inMSecs_collapse] at hL'
    split_ifs at hv1 hL' ⊢ <;> omega
  obtain ⟨k0, sq, sr⟩ := s1
  clear hL'
  have kWeeks : req.weeksPtr = true → L' / 604800000 = L / 604800000 := by
    intro hb
    simp only [hb, ↓reduceIte] at sq
    clear sr
    split_ifs at sq ⊢ <;> omega
  have kDays : req.daysPtr = true → inDays req L' / 86400000 = inDays req L / 86400000 := by
    intro hb
    rw [inDays_collapse, inDays_collapse]
    simp only [hb, ↓reduceIte] at sq
    clear sr
    split_ifs at sq ⊢ <;> omega
  have kHours : req.hoursPtr = true → inHours req L' / 3600000 = inHours req L / 3600000 := by
    intro hb
    rw [inHours_collapse, inHours_collapse]
    simp only [hb, ↓reduceIte] at sq
    clear sr
    split_ifs at sq ⊢ <;> omega
  have kMinutes : req.minutesPtr = true → inMinutes req L' / 60000 = inMinutes req L / 60000 := by
    intro hb
    rw [inMinutes_collapse, inMinutes_collapse]
    simp only [hb, ↓reduceIte] at sq
    clear sr
    split_ifs at sq ⊢ <;> omega
  have kSeconds : req.secondsPtr = true → inSeconds req L' / 1000 = inSeconds req L / 1000 := by
    intro hb
    rw [inSeconds_collapse, inSeconds_collapse]
    simp only [hb, ↓reduceIte] at sq
    clear sr
    split_ifs at sq ⊢ <;> omega
  have hvM : v < 2147483647 := by
    split_ifs at hv1 <;> omega
  have kv : inMSecs req L' = v := by
    rw [inMSecs_collapse, sr]
    omega
  rw [okWeeks_flat] at hok ⊢
  rw [closedWeeks_flat, closedWeeks_flat]
  simp only [Bool.and_eq_true, Bool.or_eq_true, Bool.not_eq_true', decide_eq_true_eq, hu]
    at hok ⊢
  obtain ⟨gWeeks, gDays, gHours, gMinutes, gSeconds, gMSecs⟩ := hok
  refine ⟨k0, ⟨guard_of_quotient _ _ _ _ (by norm_num) kWeeks gWeeks,
    guard_of_quotient _ _ _ _ (by norm_num) kDays gDays,
    guard_of_quotient _ _ _ _ (by norm_num) kHours gHours,
    guard_of_quotient _ _ _ _ (by norm_num) kMinutes gMinutes,
    guard_of_quotient _ _ _ _ (by norm_num) kSeconds gSeconds,
    Or.inr (by omega)⟩, ?_⟩
  rw [ite_some_congr _ _ _ kWeeks, ite_some_congr _ _ _ kDays, ite_some_congr _ _ _ kHours, ite_some_congr _ _ _ kMinutes, ite_some_congr _ _ _ kSeconds, kv]
  simp only [if_true]

/-- Narrowing the difference of two non-negative `int`s into an `int` keeps it. -/
theorem toInt32_of_range {x : Int} (h0 : -2147483648 ≤ x) (h1 : x < 2147483648) :
    toInt32 x = x := by
  unfold toInt32
  omega

/-- The values that `fill` writes for a non-negative span and a format of fixed units are values
of an `int` between 0 and `INT_MAX - 1`. -/
theorem fill_value_range (F : TimeSpanFormat) (s : QTimeSpan) (hs : 0 ≤ s.interval)
    (hM : testFlag F Months = false) (hY : testFlag F Years = false) (partsHash : TimePartHash)
    (hfill : (TimePartHash.ofFormat F).fill s = some partsHash) (u : TimeSpanUnit) (q : Int)
    (hq : partsHash.value u = some q) : 0 ≤ q ∧ q < 2147483647 := by
  have hf := fill_closed F s hs hM hY
  rw [hfill] at hf
  have hok : okWeeks (fixedRequest F) s.interval = true := by
    by_contra h
    simp [h] at hf
  simp only [hok, if_true, Option.some.injEq] at hf
  rw [closedWeeks_flat] at hf
  rw [okWeeks_flat] at hok
  simp only [Bool.and_eq_true, Bool.or_eq_true, Bool.not_eq_true', decide_eq_true_eq] at hok
  obtain ⟨gWeeks, gDays, gHours, gMinutes, gSeconds, gMSecs⟩ := hok
  rw [hf] at hq
  cases u <;> simp only [TimePartHash.value] at hq
  · cases hq
  · split at hq
    · rename_i hb
      rw [hb] at gMSecs
      rw [inMSecs_collapse] at gMSecs hq
      simp only [Option.some.injEq] at hq
      rcases gMSecs with g | g
      · cases g
      · split_ifs at g hq <;> omega
    · cases hq
  · split at hq
    · rename_i hb
      rw [hb] at gSeconds
      rw [inSeconds_collapse] at gSeconds hq
      simp only [Option.some.injEq] at hq
      rcases gSeconds with g | g
      · cases g
      · split_ifs at g hq <;> omega
    · cases hq
  · split at hq
    · rename_i hb
      rw [hb] at gMinutes
      rw [inMinutes_collapse] at gMinutes hq
      simp only [Option.some.injEq] at hq
      rcases gMinutes with g | g
      · cases g
      · split_ifs at g hq <;> omega
    · cases hq
  · split at hq
    · rename_i hb
      rw [hb] at gHours
      rw [inHours_collapse] at gHours hq
      simp only [Option.some.injEq] at hq
      rcases gHours with g | g
      · cases g
      · split_ifs at g hq <;> omega
    · cases hq
  · split at hq
    · rename_i hb
      rw [hb] at gDays
      rw [inDays_collapse] at gDays hq
      simp only [Option.some.injEq] at hq
      rcases gDays with g | g
      · cases g
      · split_ifs at g hq <;> omega
    · cases hq
  · split at hq
    · rename_i hb
      rw [hb] at gWeeks
      simp only [Option.some.injEq] at hq
      rcases gWeeks with g | g
      · cases g
      · omega
    · cases hq
  · cases hq
  · cases hq

/-- The effect of `setPart` on a non-negative span and a format of fixed units, given that the
blocks of `parts` succeed on the new interval and write the new value for the unit only, and that
the interval with the new value added stays within `2 ^ 53`. -/
theorem setPart_of_closed (s : QTimeSpan) (F : TimeSpanFormat) (u : TimeSpanUnit) (v q : Int)
    (partsHash : TimePartHash) (hs : 0 ≤ s.interval) (hM : testFlag F Months = false)
    (hY : testFlag F Years = false) (hu : testFlag F u = true) (hfix : u.isFixed = true)
    (hv0 : 0 ≤ v) (hv1 : v < 2147483647) (hb : s.interval + v * unitFactor u ≤ 2 ^ 53)
    (hfill : (TimePartHash.ofFormat F).fill s = some partsHash)
    (hq : partsHash.value u = some q)
    (h0 : 0 ≤ s.interval + (v - q) * unitFactor u)
    (hok : okWeeks (fixedRequest F) (s.interval + (v - q) * unitFactor u) = true)
    (hval : ∀ w, (TimePartHash.mk
        (closedWeeks (fixedRequest F) (s.interval + (v - q) * unitFactor u)
          PartsResult.empty).mseconds
        (closedWeeks (fixedRequest F) (s.interval + (v - q) * unitFactor u)
          PartsResult.empty).seconds
        (closedWeeks (fixedRequest F) (s.interval + (v - q) * unitFactor u)
          PartsResult.empty).minutes
        (closedWeeks (fixedRequest F) (s.interval + (v - q) * unitFactor u)
          PartsResult.empty).hours
        (closedWeeks (fixedRequest F) (s.interval + (v - q) * unitFactor u)
          PartsResult.empty).days
        (closedWeeks (fixedRequest F) (s.interval + (v - q) * unitFactor u)
          PartsResult.empty).weeks none none).value w =
      if w = u then some v else partsHash.value w) :
    ∃ s', s.setPart u v F = some s' ∧ ((TimePartHash.ofFormat F).fill s').isSome = true ∧
      s'.part u F = some v ∧ ∀ w, w ≠ u → s'.part w F = s.part w F := by
  have hf := fill_closed F { s with interval := s.interval + (v - q) * unitFactor u } h0 hM hY
  simp only [hok, if_true] at hf
  obtain ⟨hq0, hq1⟩ := fill_value_range F s hs hM hY partsHash hfill u q hq
  have huf := unitFactor_nonneg u
  have hqu : 0 ≤ q * unitFactor u := mul_nonneg hq0 huf
  have hvu : 0 ≤ v * unitFactor u := mul_nonneg hv0 huf
  have hsub : (v - q) * unitFactor u = v * unitFactor u - q * unitFactor u := by ring
  refine ⟨{ s with interval := s.interval + (v - q) * unitFactor u }, ?_, ?_, ?_, ?_⟩
  · unfold QTimeSpan.setPart
    simp only [hu, hfill, hq, Bool.not_true, Bool.false_eq_true, if_false]
    rw [toInt32_of_range (by omega) (by omega)]
    refine addUnit_fixed s u (v - q) hfix ?_ ?_ ?_
    · rw [abs_le]; constructor <;> omega
    · rw [abs_le]; norm_num at hb ⊢; constructor <;> omega
    · rw [abs_le]; norm_num at hb ⊢; constructor <;> omega
  · rw [hf]
    rfl
  · rw [part_fixed F _ u hM hY, hf]
    simp only [hu, if_true]
    rw [hval]
    simp
  · intro w hw
    rw [part_fixed F _ w hM hY, part_fixed F _ w hM hY, hf, hfill]
    simp only
    rw [hval]
    simp [hw]

/-- The range of a unit within a format ends at `INT_MAX` or before it. -/
theorem unitRange_le (F : TimeSpanFormat) (u : TimeSpanUnit) : unitRange F u ≤ 2147483647 := by
  cases u <;> simp only [unitRange] <;> (try split_ifs) <;> norm_num

/-- C32 (amended): for a span with a non-negative interval, a format `F` of fixed units, a unit
`u` of `F` and a value `v` inside the range of `u` within `F` (`0 ≤ v` below the number of
`u`-units in the next larger unit of `F`, below `INT_MAX` for the largest unit of `F`) such that
the interval plus `v` units is at most `2 ^ 53` milliseconds: if the span does not decompose in
`F`, `setPart(u, v, F)` leaves it unchanged; if it decomposes, `setPart(u, v, F)` yields a span
that decomposes in `F` with `part(u, F) = v`, while `part` of every other unit keeps its previous
value. -/
theorem setPart_sets_one_part (s : QTimeSpan) (F : TimeSpanFormat) (u : TimeSpanUnit) (v : Int)
    (hs : 0 ≤ s.interval) (hM : testFlag F Months = false)
    (hY : testFlag F Years = false) (hu : testFlag F u = true) (hv0 : 0 ≤ v)
    (hv1 : v < unitRange F u) (hb : s.interval + v * unitFactor u ≤ 2 ^ 53) :
    ((TimePartHash.ofFormat F).fill s = none → s.setPart u v F = some s) ∧
      (((TimePartHash.ofFormat F).fill s).isSome = true →
        ∃ s', s.setPart u v F = some s' ∧ ((TimePartHash.ofFormat F).fill s').isSome = true ∧
          s'.part u F = some v ∧ ∀ w, w ≠ u → s'.part w F = s.part w F) := by
  refine ⟨fun hnone => by simp [QTimeSpan.setPart, hu, hnone], fun hsome => ?_⟩
  obtain ⟨partsHash, hfill⟩ := Option.isSome_iff_exists.mp hsome
  have hvM : v < 2147483647 := lt_of_lt_of_le hv1 (unitRange_le F u)
  have hf := fill_closed F s hs hM hY
  rw [hfill] at hf
  have hok : okWeeks (fixedRequest F) s.interval = true := by
    by_contra h
    simp [h] at hf
  simp only [hok, if_true, Option.some.injEq] at hf
  rw [closedWeeks_flat] at hf
  cases u
  · exact absurd hv1 (by simp only [unitRange]; omega)
  · obtain ⟨h0, hok1, hcl⟩ :=
      setMSecs_closed (fixedRequest F) s.interval v hs hu hok hv0 hv1
    refine setPart_of_closed s F Milliseconds v (inMSecs (fixedRequest F) s.interval) partsHash
      hs hM hY hu rfl hv0 hvM hb hfill ?_ h0 hok1 ?_
    · rw [hf]
      exact if_pos hu
    · intro w
      rw [show unitFactor Milliseconds = 1 from rfl]
      rw [hcl, closedWeeks_flat, hf]
      cases w <;> simp [TimePartHash.value]
  · obtain ⟨h0, hok1, hcl⟩ :=
      setSeconds_closed (fixedRequest F) s.interval v hs hu hok hv0 hv1
    refine setPart_of_closed s F Seconds v (inSeconds (fixedRequest F) s.interval / 1000) partsHash
      hs hM hY hu rfl hv0 hvM hb hfill ?_ h0 hok1 ?_
    · rw [hf]
      exact if_pos hu
    · intro w
      rw [show unitFactor Seconds = 1000 from rfl]
      rw [hcl, closedWeeks_flat, hf]
      cases w <;> simp [TimePartHash.value]
  · obtain ⟨h0, hok1, hcl⟩ :=
      setMinutes_closed (fixedRequest F) s.interval v hs hu hok hv0 hv1
    refine setPart_of_closed s F Minutes v (inMinutes (fixedRequest F) s.interval / 60000) partsHash
      hs hM hY hu rfl hv0 hvM hb hfill ?_ h0 hok1 ?_
    · rw [hf]
      exact if_pos hu
    · intro w
      rw [show unitFactor Minutes = 60000 from rfl]
      rw [hcl, closedWeeks_flat, hf]
      cases w <;> simp [TimePartHash.value]
  · obtain ⟨h0, hok1, hcl⟩ :=
      setHours_closed (fixedRequest F) s.interval v hs hu hok hv0 hv1
    refine setPart_of_closed s F Hours v (inHours (fixedRequest F) s.interval / 3600000) partsHash
      hs hM hY hu rfl hv0 hvM hb hfill ?_ h0 hok1 ?_
    · rw [hf]
      exact if_pos hu
    · intro w
      rw [show unitFactor Hours = 3600000 from rfl]
      rw [hcl, closedWeeks_flat, hf]
      cases w <;> simp [TimePartHash.value]
  · obtain ⟨h0, hok1, hcl⟩ :=
      setDays_closed (fixedRequest F) s.interval v hs hu hok hv0 hv1
    refine setPart_of_closed s F Days v (inDays (fixedRequest F) s.interval / 86400000) partsHash
      hs hM hY hu rfl hv0 hvM hb hfill ?_ h0 hok1 ?_
    · rw [hf]
      exact if_pos hu
    · intro w
      rw [show unitFactor Days = 86400000 from rfl]
      rw [hcl, closedWeeks_flat, hf]
      cases w <;> simp [TimePartHash.value]
  · obtain ⟨h0, hok1, hcl⟩ :=
      setWeeks_closed (fixedRequest F) s.interval v hu hok hv0 hv1
    refine setPart_of_closed s F Weeks v (s.interval / 604800000) partsHash
      hs hM hY hu rfl hv0 hvM hb hfill ?_ h0 hok1 ?_
    · rw [hf]
      exact if_pos hu
    · intro w
      rw [show unitFactor Weeks = 604800000 from rfl]
      rw [hcl, closedWeeks_flat, hf]
      cases w <;> simp [TimePartHash.value]
  · rw [hM] at hu
    cases hu
  · rw [hY] at hu
    cases hu

/-- C32 (witness): 3 weeks 2 days 4 hours 31 minutes 12 seconds with
`setPart(Hours, 2, Weeks | Days | Hours | Minutes | Seconds)`: the span decomposes, the hours
become 2 and the other parts keep their values. -/
theorem setPart_sets_one_part_witness :
    ((TimePartHash.ofFormat 62).fill (QTimeSpan.ofMSecs 2003472000)).isSome = true ∧
      ∃ s', (QTimeSpan.ofMSecs 2003472000).setPart Hours 2 62 = some s' ∧
        ((TimePartHash.ofFormat 62).fill s').isSome = true ∧
        s'.part Hours 62 = some 2 ∧
        ∀ w, w ≠ Hours → s'.part w 62 = (QTimeSpan.ofMSecs 2003472000).part w 62 :=
  ⟨by decide, (setPart_sets_one_part (QTimeSpan.ofMSecs 2003472000) 62 Hours 2
    (by decide) (by decide) (by decide) (by decide) (by decide) (by decide) (by decide)).2
    (by decide)⟩

/-- C32 (counterexample): two spans with an interval >= 0 and a value inside the range of the
largest unit of the format. The span of 2 147 483 647 000 ms, the format `Seconds` and the new
value 5 for the seconds: the decomposition of the span fails, `setPart` leaves the span as it is,
and `part(Seconds, Seconds)` is 0 and not 5; one millisecond less and the part is set. The span
of 1 ms, the format `Weeks | Milliseconds` and the new value 20 000 000 for the weeks: the sum
`1 + 20000000 * 604800000` is above `2 ^ 53` and is rounded to 12 096 000 000 000 000 ms, so that
the milliseconds become 0 and do not keep their value 1. -/
theorem setPart_ignored_or_rounded :
    0 ≤ (QTimeSpan.ofMSecs 2147483647000).interval ∧
      testFlag 2 Seconds = true ∧ testFlag 2 Months = false ∧ testFlag 2 Years = false ∧
      (5 : Int) < unitRange 2 Seconds ∧
      (QTimeSpan.ofMSecs 2147483647000).setPart Seconds 5 2 =
        some (QTimeSpan.ofMSecs 2147483647000) ∧
      (QTimeSpan.ofMSecs 2147483647000).part Seconds 2 = some 0 ∧
      (QTimeSpan.ofMSecs 2147483646999).setPart Seconds 5 2 = some (QTimeSpan.ofMSecs 5999) ∧
      (QTimeSpan.ofMSecs 5999).part Seconds 2 = some 5 ∧
      testFlag 33 Weeks = true ∧ testFlag 33 Milliseconds = true ∧
      testFlag 33 Months = false ∧ testFlag 33 Years = false ∧
      (20000000 : Int) < unitRange 33 Weeks ∧
      (QTimeSpan.ofMSecs 1).part Milliseconds 33 = some 1 ∧
      (QTimeSpan.ofMSecs 1).part Weeks 33 = some 0 ∧
      (QTimeSpan.ofMSecs 1).setPart Weeks 20000000 33 =
        some (QTimeSpan.ofMSecs 12096000000000000) ∧
      (QTimeSpan.ofMSecs 12096000000000000).part Weeks 33 = some 20000000 ∧
      (QTimeSpan.ofMSecs 12096000000000000).part Milliseconds 33 = some 0 := by
  decide!

/-! ### The values that `toApproximateString` renders for a non-negative span -/

/-- The values of a decomposition of a non-negative span in a format of fixed units are not
negative, and the value of the primary unit of `toApproximateString`, when that unit is above
milliseconds, is positive. -/
theorem approximate_values_of_nonneg (s : QTimeSpan) (F : TimeSpanFormat)
    (partsHash : TimePartHash) (h0 : 0 ≤ s.interval) (hM : testFlag F Months = false)
    (hY : testFlag F Years = false)
    (hfill : (TimePartHash.ofFormat F).fill s = some partsHash)
    (hms : Milliseconds.value < (specPrimaryUnit F s.magnitude).value) :
    0 < (partsHash.value (specPrimaryUnit F s.magnitude)).getD 0 ∧
      ∀ u, 0 ≤ (partsHash.value u).getD 0 := by
  refine ⟨?_, ?_⟩
  · have hf := fill_closed F s h0 hM hY
    rw [hfill] at hf
    have hok : okWeeks (fixedRequest F) s.interval = true := by
      by_contra h
      simp [h] at hf
    simp only [hok, if_true, Option.some.injEq] at hf
    rw [closedWeeks_flat] at hf
    rw [hf]
    have hW : (fixedRequest F).weeksPtr = testFlag F Weeks := rfl
    have hD : (fixedRequest F).daysPtr = testFlag F Days := rfl
    have hH : (fixedRequest F).hoursPtr = testFlag F Hours := rfl
    have hMi : (fixedRequest F).minutesPtr = testFlag F Minutes := rfl
    have hS : (fixedRequest F).secondsPtr = testFlag F Seconds := rfl
    have hMs : (fixedRequest F).msecondsPtr = testFlag F Milliseconds := rfl
    rw [inDays_collapse, inHours_collapse, inMinutes_collapse, inSeconds_collapse,
      inMSecs_collapse, hW, hD, hH, hMi, hS, hMs]
    rcases magnitude_of_nonneg s h0 with ⟨hm, hb⟩ | ⟨hm, hb⟩ | ⟨hm, hb⟩ | ⟨hm, hb⟩ | ⟨hm, hb⟩ |
      ⟨hm | hm | hm, hb⟩ <;>
    (rw [hm] at hms ⊢
     simp only [specPrimaryUnit, unitLadder, List.find?, TimeSpanUnit.value, hM, hY,
       Bool.false_and, Bool.and_false, Bool.and_true, Nat.reduceLeDiff, decide_True,
       decide_False, le_refl] at hms ⊢
     cases hw : testFlag F Weeks <;> cases hd : testFlag F Days <;>
       cases hh : testFlag F Hours <;> cases hmi : testFlag F Minutes <;>
       cases hs : testFlag F Seconds <;> cases hmm : testFlag F Milliseconds <;>
       simp only [hw, hd, hh, hmi, hs, hmm, TimePartHash.value, TimeSpanUnit.value,
         Option.getD_some, Option.getD_none, if_true, if_false, Bool.false_eq_true,
         lt_self_iff_false, Nat.lt_irrefl, Nat.not_lt_zero] at hms ⊢ <;>
       omega)
  · intro u
    cases hv : partsHash.value u with
    | none => simp
    | some q => exact (fill_value_range F s h0 hM hY partsHash hfill u q hv).1

/-- The witness of the claim C32 as the program computes it: 3 weeks 2 days 4 hours 31 minutes
12 seconds becomes 3 weeks 2 days 2 hours 31 minutes 12 seconds. -/
theorem setPart_hours_example :
    (QTimeSpan.ofMSecs
        (3 * 604800000 + 2 * 86400000 + 4 * 3600000 + 31 * 60000 + 12 * 1000)).setPart
        Hours 2 62 =
      some (QTimeSpan.ofMSecs
        (3 * 604800000 + 2 * 86400000 + 2 * 3600000 + 31 * 60000 + 12 * 1000)) ∧
    (TimePartHash.ofFormat 62).fill (QTimeSpan.ofMSecs
        (3 * 604800000 + 2 * 86400000 + 2 * 3600000 + 31 * 60000 + 12 * 1000)) =
      some ⟨none, some 12, some 31, some 2, some 2, some 3, none, none⟩ := by
  decide!

end TimeSpan
